import Mathlib

/-!
# The claims service of the relay (go-iden3-core)

A shallow embedding of `services/claimsrv/service.go` and of the parts of the
`merkletree`, `core` and `utils` packages it calls, followed by theorems about
the service's operations.

Conventions.
* A 32-byte slot or hash is the natural number it denotes; machine integers are
  naturals reduced modulo `2 ^ w` wherever Go's arithmetic wraps.
* Functions of the repository that are called by the service but whose source is
  not part of the development (hashing, signatures, the key check) are fields of
  the parameter records `Hasher` and `Env`.
* The loop of `GetNextVersion` has no bound in the source; its embedding takes a
  fuel argument and answers `none` when the fuel runs out.
-/

set_option autoImplicit false

namespace Iden3

/-! ## Basic data -/

/-- Modelled from the spec: `merkletree.Hash` is not among the sources; a hash is 32
bytes, read here as the number they denote. -/
abbrev Hash := Nat

/-- The identity `idaddr` of the service calls (`common.Address`), given by its bytes. -/
abbrev ID := List Nat

/-- The public key `ecdsa.PublicKey`, by its two coordinates. -/
abbrev PublicKey := Nat × Nat

/-- The signature `utils.SignatureEthMsg`, by its bytes. -/
abbrev SignatureEthMsg := List Nat

/-- Modelled from the spec: `merkletree.Data` is not among the sources; it is the four
32-byte slots (`ElemBytes`) of a leaf, `Data[0]` to `Data[3]`, each read as the number
its bytes denote in big-endian order. -/
structure Data where
  d0 : Nat
  d1 : Nat
  d2 : Nat
  d3 : Nat
  deriving DecidableEq, Repr

/-- The errors the service can return. -/
inductive Error where
  /-- The error `merkletree.ErrEntryIndexAlreadyExists` -/
  | ErrEntryIndexAlreadyExists
  /-- The error `merkletree.ErrEntryIndexNotFound` -/
  | ErrEntryIndexNotFound
  /-- The error `merkletree.ErrReachedMaxLevel` -/
  | ErrReachedMaxLevel
  /-- The error `claimsrv.ErrNotFound` -/
  | ErrNotFound
  /-- The error `claimsrv.ErrRevokedClaim` -/
  | ErrRevokedClaim
  /-- The error `errors.New("can not verify the KSign")` -/
  | canNotVerifyKSign
  /-- The error `errors.New("timestamp too old")` -/
  | timestampTooOld
  /-- The error `errors.New("signature can not be verified")` -/
  | signatureCanNotBeVerified
  /-- A tree opened with a depth other than the one it was created with. -/
  | depthMismatch
  /-- A snapshot asked for a root the tree does not hold. -/
  | rootNotFound
  /-- An error of the signer. -/
  | signer (code : Nat)
  /-- Go's run-time panic on an index out of range. -/
  | indexOutOfRange
  /-- The call `log.Fatal(err)`: the process exits. -/
  | logFatal (code : Nat)
  deriving DecidableEq, Repr

deriving instance DecidableEq for Except

/-- The big-endian bytes of `n`, `len` of them. -/
def beBytes (len n : Nat) : List Nat :=
  (List.range len).reverse.map (fun i => n / 256 ^ i % 256)

/-- The number whose big-endian bytes are `bs`. -/
def beNat (bs : List Nat) : Nat :=
  bs.foldl (fun acc b => acc * 256 + b) 0

/-- Subtraction of `uint32` values, which wraps below zero. -/
def subU32 (a b : Nat) : Nat := (a + 2 ^ 32 - b) % 2 ^ 32

/-- The method `Hash.Bytes()`: the 32 bytes of a hash. -/
def Hash.Bytes (h : Hash) : List Nat := beBytes 32 h

/-- The method `idaddr.Bytes()`: the bytes of an identity. -/
def ID.Bytes (id : ID) : List Nat := id

/-- Modelled from the spec: `utils.Uint64ToEthBytes` is not among the sources; the
spec writes it `u64_be(timestamp)`, the 8 big-endian bytes of the value. -/
def Uint64ToEthBytes (u : Nat) : List Nat := beBytes 8 (u % 2 ^ 64)

/-- Modelled from the spec: `utils.VerifyTimestamp` is not among the sources. The
spec gives its effect at the one call, `VerifyTimestamp(timestamp, 30000)`, as
`|now − timestamp| ≤ 30 s` with `timestamp` and `now` in Unix seconds, so the gap
is read in milliseconds. -/
def VerifyTimestamp (now timestamp gap : Nat) : Bool :=
  decide ((max now timestamp - min now timestamp) * 1000 ≤ gap)

/-! ## Claim header -/

/-- Modelled from the spec: `core.GetClaimTypeVersionFromData` is not among the
sources. It reads the first 12 bytes of the header slot `Data[3]`: bytes 0..7 are
the claim type (u64), bytes 8..11 the version (u32), counted from the low end. -/
def GetClaimTypeVersionFromData (d : Data) : Nat × Nat :=
  (d.d3 % 2 ^ 64, d.d3 / 2 ^ 64 % 2 ^ 32)

/-- Modelled from the spec: `core.SetClaimTypeVersionInData` is not among the
sources. It writes the same 12 bytes and leaves every other byte as it was. -/
def SetClaimTypeVersionInData (d : Data) (claimType version : Nat) : Data :=
  { d with d3 := d.d3 / 2 ^ 96 * 2 ^ 96 + version % 2 ^ 32 * 2 ^ 64 + claimType % 2 ^ 64 }

/-- The header version of a leaf. -/
def Data.version (d : Data) : Nat := (GetClaimTypeVersionFromData d).2

/-- The leaf `d` with its header version rewritten to `v`, its type kept: what
`GetNextVersion` and `getNonRevocationMTProof` build from a leaf. -/
def Data.withVersion (d : Data) (v : Nat) : Data :=
  SetClaimTypeVersionInData d (GetClaimTypeVersionFromData d).1 v

/-! ## Hashing -/

/-- The hash functions of the `merkletree` package, which are not among the
sources: the index and value hashes of an entry and the hashes of the tree's
nodes. -/
structure Hasher where
  /-- The method `Entry.HIndex()` -/
  hIndex : Data → Hash
  /-- The method `Entry.HValue()` -/
  hValue : Data → Hash
  /-- The hash of the empty node. -/
  emptyHash : Hash
  /-- The hash of a leaf node from its index and value hashes. -/
  hashLeaf : Hash → Hash → Hash
  /-- The hash of an internal node from its children. -/
  hashMid : Hash → Hash → Hash

/-! ## Merkle tree -/

/-- Modelled from the spec: the `merkletree` package is not among the sources. A
fixed-depth sparse Merkle tree is given by the entries added to it and its depth;
its nodes, root and proofs are computed from them by the walks the spec
describes. -/
structure MerkleTree where
  leaves : List Data
  maxLevels : Nat
  deriving DecidableEq, Repr

/-- Bit `i` of a hash: the side taken at level `i` of a walk (right if set). -/
def pathBit (h : Hash) (i : Nat) : Bool := h.testBit i

/-- The entries of `ls` on the same side as `hi` at level `lvl`. -/
def sameSide (hs : Hasher) (lvl : Nat) (hi : Hash) (ls : List Data) : List Data :=
  ls.filter (fun d => pathBit (hs.hIndex d) lvl == pathBit hi lvl)

/-- The entries of `ls` on the side `b` at level `lvl`. -/
def onSide (hs : Hasher) (lvl : Nat) (b : Bool) (ls : List Data) : List Data :=
  ls.filter (fun d => pathBit (hs.hIndex d) lvl == b)

/-- Modelled from the spec: the walk of `Add`, `GenerateProof` and
`GetDataByIndex` from level `lvl` along the bits of `hi`, for at most `n` more
levels, over the sub-tree that holds the entries `ls`. It stops at an empty slot
(`none`) or at a leaf (`some`). -/
def walk (hs : Hasher) : Nat → Nat → List Data → Hash → Option Data
  | _, _, [], _ => none
  | _, _, [d], _ => some d
  | 0, _, _ :: _ :: _, _ => none
  | n + 1, lvl, d :: d' :: ls, hi => walk hs n (lvl + 1) (sameSide hs lvl hi (d :: d' :: ls)) hi

/-- Modelled from the spec: the hash of the node at level `lvl` whose sub-tree
holds the entries `ls`: empty, a leaf, or an internal node over the two sides. -/
def nodeHash (hs : Hasher) : Nat → Nat → List Data → Hash
  | _, _, [] => hs.emptyHash
  | _, _, [d] => hs.hashLeaf (hs.hIndex d) (hs.hValue d)
  | 0, _, _ :: _ :: _ => hs.emptyHash
  | n + 1, lvl, d :: d' :: ls =>
    hs.hashMid (nodeHash hs n (lvl + 1) (onSide hs lvl false (d :: d' :: ls)))
      (nodeHash hs n (lvl + 1) (onSide hs lvl true (d :: d' :: ls)))

/-- Modelled from the spec: the siblings met by the walk along `hi`, from the
root down, `none` for an empty sibling (a zero of the proof's bitmap). -/
def siblings (hs : Hasher) : Nat → Nat → List Data → Hash → List (Option Hash)
  | _, _, [], _ => []
  | _, _, [_], _ => []
  | 0, _, _ :: _ :: _, _ => []
  | n + 1, lvl, d :: d' :: ls, hi =>
    (match onSide hs lvl (!pathBit hi lvl) (d :: d' :: ls) with
      | [] => none
      | o :: os => some (nodeHash hs n (lvl + 1) (o :: os)))
    :: siblings hs n (lvl + 1) (sameSide hs lvl hi (d :: d' :: ls)) hi

/-- Modelled from the spec: `merkletree.Proof` is not among the sources. It holds the
existence flag, the bitmap of non-empty siblings with their hashes, and the auxiliary
leaf of a non-existence proof. -/
structure Proof where
  Existence : Bool
  depthBitmap : List Bool
  Siblings : List Hash
  NodeAux : Option (Hash × Hash)
  deriving DecidableEq, Repr

namespace MerkleTree

/-- Modelled from the spec: `merkletree.NewMerkleTree` on an empty storage. -/
def empty (maxLevels : Nat) : MerkleTree := { leaves := [], maxLevels := maxLevels }

/-- Modelled from the spec: `mt.RootKey()`, the hash of the node at the top. -/
def RootKey (hs : Hasher) (mt : MerkleTree) : Hash :=
  nodeHash hs mt.maxLevels 0 mt.leaves

/-- Modelled from the spec: `mt.GetDataByIndex(hi)`, the data of the leaf the walk
reaches, when that leaf is at `hi`. -/
def GetDataByIndex (hs : Hasher) (mt : MerkleTree) (hi : Hash) : Except Error Data :=
  match walk hs mt.maxLevels 0 mt.leaves hi with
  | some d => if hs.hIndex d = hi then .ok d else .error .ErrEntryIndexNotFound
  | none => .error .ErrEntryIndexNotFound

/-- Modelled from the spec: `mt.GenerateProof(hi)`, an existence proof when the walk
reaches the leaf at `hi`, a non-existence proof otherwise (with the leaf reached as
auxiliary node, if any). -/
def GenerateProof (hs : Hasher) (mt : MerkleTree) (hi : Hash) : Except Error Proof :=
  let sibs := siblings hs mt.maxLevels 0 mt.leaves hi
  match walk hs mt.maxLevels 0 mt.leaves hi with
  | some d =>
    if hs.hIndex d = hi then
      .ok { Existence := true, depthBitmap := sibs.map Option.isSome,
            Siblings := sibs.filterMap id, NodeAux := none }
    else
      .ok { Existence := false, depthBitmap := sibs.map Option.isSome,
            Siblings := sibs.filterMap id, NodeAux := some (hs.hIndex d, hs.hValue d) }
  | none =>
    .ok { Existence := false, depthBitmap := sibs.map Option.isSome,
          Siblings := sibs.filterMap id, NodeAux := none }

/-- Whether two hashes take the same side at every level of a tree of depth
`maxLevels`. -/
def samePath (maxLevels : Nat) (a b : Hash) : Bool :=
  (List.range maxLevels).all (fun i => pathBit a i == pathBit b i)

/-- Modelled from the spec: `mt.Add(e)`, a new leaf where the walk along `HIndex(e)`
ends, unless it ends at a leaf with the same index (`ErrEntryIndexAlreadyExists`) or
with the same path down to the last level (`ErrReachedMaxLevel`). -/
def Add (hs : Hasher) (mt : MerkleTree) (e : Data) : Except Error MerkleTree :=
  match walk hs mt.maxLevels 0 mt.leaves (hs.hIndex e) with
  | some d =>
    if hs.hIndex d = hs.hIndex e then .error .ErrEntryIndexAlreadyExists
    else if samePath mt.maxLevels (hs.hIndex d) (hs.hIndex e) then .error .ErrReachedMaxLevel
    else .ok { mt with leaves := e :: mt.leaves }
  | none => .ok { mt with leaves := e :: mt.leaves }

/-- Modelled from the spec: `mt.Snapshot(rootKey)`, a read-only view of the tree at
`rootKey`. The model keeps no history, so only the current root can be asked for. -/
def Snapshot (hs : Hasher) (mt : MerkleTree) (rootKey : Hash) : Except Error MerkleTree :=
  if rootKey = mt.RootKey hs then .ok mt else .error .rootNotFound

/-- A leaf is present at `hi`. -/
def Has (hs : Hasher) (mt : MerkleTree) (hi : Hash) : Prop :=
  ∃ d, mt.GetDataByIndex hs hi = .ok d

/-- The trees `Add` can build: no two leaves share the whole path. -/
def WF (hs : Hasher) (mt : MerkleTree) : Prop :=
  mt.leaves.Pairwise (fun a b => samePath mt.maxLevels (hs.hIndex a) (hs.hIndex b) = false)

end MerkleTree

/-! ## `GetNextVersion` -/

/-- The loop of `GetNextVersion`, with `fuel` iterations left, at index `hi` and
with the local `version`. -/
def GetNextVersionLoop (hs : Hasher) (mt : MerkleTree) :
    Nat → Hash → Nat → Option (Except Error Nat)
  | 0, _, _ => none
  | fuel + 1, hi, version =>
    match mt.GetDataByIndex hs hi with
    | .error .ErrEntryIndexNotFound => some (.ok version)
    | .error err => some (.error err)
    | .ok leafData =>
      let claimType := (GetClaimTypeVersionFromData leafData).1
      let version := ((GetClaimTypeVersionFromData leafData).2 + 1) % 2 ^ 32
      let leafData := SetClaimTypeVersionInData leafData claimType version
      GetNextVersionLoop hs mt fuel (hs.hIndex leafData) version

/-- The function `GetNextVersion(mt, hi)`: the local `version` starts at zero. -/
def GetNextVersion (hs : Hasher) (mt : MerkleTree) (fuel : Nat) (hi : Hash) :
    Option (Except Error Nat) :=
  GetNextVersionLoop hs mt fuel hi 0

/-! ## Claims -/

/-- The claim type of `ClaimSetRootKey`, as the test vector of
`core/claimSetRootKey_test.go` shows it in the last 8 bytes of the header. -/
def ClaimTypeSetRootKey : Nat := 2

/-- Modelled from the spec: the claim type of `ClaimAssignName`, from the table of
claim kinds; `core/claims.go` is not among the sources. -/
def ClaimTypeAssignName : Nat := 1

/-- Modelled from the spec: `core.ClaimSetRootKey` is not among the sources; its fields
are those the service and the test `core/claimSetRootKey_test.go` use. -/
structure ClaimSetRootKey where
  Version : Nat
  Era : Nat
  Id : ID
  RootKey : Hash
  deriving DecidableEq, Repr

/-- Modelled from the spec: `core.NewClaimSetRootKey(id, rootKey)` is not among the
sources; version and era start at zero. -/
def NewClaimSetRootKey (id : ID) (rootKey : Hash) : ClaimSetRootKey :=
  { Version := 0, Era := 0, Id := id, RootKey := rootKey }

/-- Modelled from the spec: `ClaimSetRootKey.Entry()` is not among the sources; it is
given the layout of the test vector of `core/claimSetRootKey_test.go`: an empty slot,
the root key, the id, and the header slot holding era, version and claim type. -/
def ClaimSetRootKey.Entry (c : ClaimSetRootKey) : Data :=
  { d0 := 0
    d1 := c.RootKey
    d2 := beNat c.Id
    d3 := c.Era % 2 ^ 32 * 2 ^ 96 + c.Version % 2 ^ 32 * 2 ^ 64 + ClaimTypeSetRootKey }

/-- Modelled from the spec: `core.ClaimAssignName` is not among the sources; its fields
are those of the table of claim kinds, with the version the service fills in. -/
structure ClaimAssignName where
  Version : Nat
  NameHash : Nat
  Id : ID
  deriving DecidableEq, Repr

/-- Modelled from the spec: `ClaimAssignName.Entry()` is not among the sources. The
header slot holds version and claim type, the slots below it the name hash and
the id. -/
def ClaimAssignName.Entry (c : ClaimAssignName) : Data :=
  { d0 := 0
    d1 := beNat c.Id
    d2 := c.NameHash
    d3 := c.Version % 2 ^ 32 * 2 ^ 64 + ClaimTypeAssignName }

/-! ## Proofs of claims (`core/proof.go`) -/

/-- The type `core.SetRootAux`. -/
structure SetRootAux where
  Version : Nat
  Era : Nat
  IdAddr : ID
  deriving DecidableEq, Repr

/-- The type `core.ProofOfClaimPartial`; a nil `Aux` is `none`. -/
structure ProofOfClaimPartial where
  Mtp0 : Proof
  Mtp1 : Proof
  Root : Hash
  Aux : Option SetRootAux
  deriving DecidableEq, Repr

/-- The type `core.ProofOfClaim`. -/
structure ProofOfClaim where
  Proofs : List ProofOfClaimPartial
  Leaf : Data
  Date : Nat
  Signature : SignatureEthMsg
  deriving DecidableEq, Repr

/-! ## The service -/

/-- The root service as the claims service sees it (`rootsrv.ServiceImpl.SetRoot`):
the last root it was given, and, to tell a call from no call, the trace of the roots
it was notified of. -/
structure RootService where
  lastRoot : Hash
  notified : List Hash
  deriving DecidableEq, Repr

/-- The method `rootsrv.ServiceImpl.SetRoot(hash)`. -/
def RootService.SetRoot (s : RootService) (hash : Hash) : RootService :=
  { lastRoot := hash, notified := s.notified ++ [hash] }

/-- The functions of the repository and of its libraries that the service calls
and that are not among the sources. -/
structure Env where
  /-- The hashes of the `merkletree` package. -/
  hs : Hasher
  /-- The function `claimsrv.CheckKSignInIddb(userMT, kSignPk)` -/
  CheckKSignInIddb : MerkleTree → PublicKey → Bool
  /-- The function `crypto.PubkeyToAddress(pk)` -/
  PubkeyToAddress : PublicKey → List Nat
  /-- The function `utils.VerifySigEthMsg(addr, sig, msg)` -/
  VerifySigEthMsg : List Nat → SignatureEthMsg → List Nat → Bool
  /-- The method `signer.SignEthMsg(msg)`, failing with an error code of its own -/
  SignEthMsg : List Nat → Except Nat SignatureEthMsg

/-- Modelled from the spec: `signsrv.SignBytesDate` is not among the sources. It
signs the message followed by the current Unix seconds and returns the signature
with that date. -/
def SignBytesDate (env : Env) (now : Nat) (msg : List Nat) :
    Except Error (SignatureEthMsg × Nat) :=
  match env.SignEthMsg (msg ++ Uint64ToEthBytes now) with
  | .ok sig => .ok (sig, now)
  | .error code => .error (.signer code)

/-- The type `claimsrv.ServiceImpl`: the relay tree `mt`, the root service, and the
sub-trees of the identities, which the source keeps in the relay tree's storage
under the prefix of each identity. -/
structure ServiceImpl where
  mt : MerkleTree
  rootsrv : RootService
  userTrees : List (ID × MerkleTree)
  deriving DecidableEq, Repr

namespace ServiceImpl

/-- Modelled from the spec: `merkletree.NewMerkleTree` on the storage of the relay tree
under the prefix `idaddr.Bytes()`: the sub-tree of `idaddr`, empty when the prefix
holds none; opening a tree with a depth other than its own fails. -/
def NewMerkleTreeUser (cs : ServiceImpl) (idaddr : ID) (maxLevels : Nat) :
    Except Error MerkleTree :=
  match cs.userTrees.lookup idaddr with
  | some userMT => if userMT.maxLevels = maxLevels then .ok userMT else .error .depthMismatch
  | none => .ok (MerkleTree.empty maxLevels)

/-- The service after the sub-tree of `idaddr` was written back to the storage. -/
def setUserTree (cs : ServiceImpl) (idaddr : ID) (userMT : MerkleTree) : ServiceImpl :=
  { cs with userTrees := (idaddr, userMT) :: cs.userTrees.filter (fun p => p.1 != idaddr) }

/-- The method `CommitNewIdRoot`: checks the key, the timestamp and the signature, then
adds to the relay tree the `ClaimSetRootKey` of the identity at its next version. The
result is the returned claim or error, and the service afterwards. -/
def CommitNewIdRoot (env : Env) (fuel now : Nat) (cs : ServiceImpl) (idaddr : ID)
    (kSignPk : PublicKey) (root : Hash) (timestamp : Nat) (signature : SignatureEthMsg) :
    Option (Except Error ClaimSetRootKey × ServiceImpl) :=
  match cs.NewMerkleTreeUser idaddr 140 with
  | .error err => some (.error err, cs)
  | .ok userMT =>
    if !env.CheckKSignInIddb userMT kSignPk then some (.error .canNotVerifyKSign, cs)
    else if !VerifyTimestamp now timestamp 30000 then
      some (.error .timestampTooOld, cs)
    else
      let timestampBytes := Uint64ToEthBytes timestamp
      let msg := ID.Bytes idaddr ++ Hash.Bytes root ++ timestampBytes
      if !env.VerifySigEthMsg (env.PubkeyToAddress kSignPk) signature msg then
        some (.error .signatureCanNotBeVerified, cs)
      else
        let claimSetRootKey := NewClaimSetRootKey idaddr root
        match GetNextVersion env.hs cs.mt fuel (env.hs.hIndex claimSetRootKey.Entry) with
        | none => none
        | some (.error err) => some (.error err, cs)
        | some (.ok version) =>
          let claimSetRootKey := { claimSetRootKey with Version := version }
          let e := claimSetRootKey.Entry
          match cs.mt.Add env.hs e with
          | .error err => some (.error err, cs)
          | .ok mt =>
            let cs := { cs with mt := mt }
            let cs := { cs with rootsrv := cs.rootsrv.SetRoot (cs.mt.RootKey env.hs) }
            some (.ok claimSetRootKey, cs)

/-- The method `AddClaimAssignName`: fills the version of the claim with
`GetNextVersion` and adds it to the relay tree; a failing `Add` ends in `log.Fatal`. -/
def AddClaimAssignName (env : Env) (fuel : Nat) (cs : ServiceImpl)
    (claimAssignName : ClaimAssignName) : Option (Except Error Unit × ServiceImpl) :=
  let entry := claimAssignName.Entry
  match GetNextVersion env.hs cs.mt fuel (env.hs.hIndex entry) with
  | none => none
  | some (.error err) => some (.error err, cs)
  | some (.ok version) =>
    let claimAssignName := { claimAssignName with Version := version }
    let e := claimAssignName.Entry
    match cs.mt.Add env.hs e with
    | .error _ => some (.error (.logFatal 1), cs)
    | .ok mt =>
      let cs := { cs with mt := mt }
      let cs := { cs with rootsrv := cs.rootsrv.SetRoot (cs.mt.RootKey env.hs) }
      some (.ok (), cs)

/-- The method `GetIdRoot`: the root of the sub-tree of `idAddr` and the proof, in the
relay tree, of the index of its `ClaimSetRootKey` at version `GetNextVersion − 1`. The
source returns the proof serialised (`idRootProof.Bytes()`); the embedding returns
the proof itself. -/
def GetIdRoot (env : Env) (fuel : Nat) (cs : ServiceImpl) (idAddr : ID) :
    Option (Except Error (Hash × Proof)) :=
  match cs.NewMerkleTreeUser idAddr 140 with
  | .error err => some (.error err)
  | .ok userMT =>
    let claimSetRootKey := NewClaimSetRootKey idAddr (userMT.RootKey env.hs)
    match GetNextVersion env.hs cs.mt fuel (env.hs.hIndex claimSetRootKey.Entry) with
    | none => none
    | some (.error err) => some (.error err)
    | some (.ok version) =>
      let claimSetRootKey := { claimSetRootKey with Version := subU32 version 1 }
      match cs.mt.GenerateProof env.hs (env.hs.hIndex claimSetRootKey.Entry) with
      | .error err => some (.error err)
      | .ok idRootProof => some (.ok (userMT.RootKey env.hs, idRootProof))

end ServiceImpl

/-- The function `getNonRevocationMTProof`: the proof, which has to be one of
non-existence, of the index of the leaf rewritten to its next version. -/
def getNonRevocationMTProof (hs : Hasher) (mt : MerkleTree) (leafData : Data) (_hi : Hash) :
    Except Error Proof :=
  let claimType := (GetClaimTypeVersionFromData leafData).1
  let claimVersion := (GetClaimTypeVersionFromData leafData).2
  let leafDataCpy := SetClaimTypeVersionInData leafData claimType ((claimVersion + 1) % 2 ^ 32)
  match mt.GenerateProof hs (hs.hIndex leafDataCpy) with
  | .error err => .error err
  | .ok proof => if proof.Existence then .error .ErrRevokedClaim else .ok proof

namespace ServiceImpl

/-- The method `GetClaimProofByHi`: the leaf at `hi` of the relay tree with its proof
of existence and of non-revocation, under the signed root. -/
def GetClaimProofByHi (env : Env) (now : Nat) (cs : ServiceImpl) (hi : Hash) :
    Except Error ProofOfClaim :=
  match cs.mt.Snapshot env.hs (cs.mt.RootKey env.hs) with
  | .error err => .error err
  | .ok mt =>
    match mt.GetDataByIndex env.hs hi with
    | .error err => .error err
    | .ok leafData =>
      match mt.GenerateProof env.hs hi with
      | .error err => .error err
      | .ok mtpExist =>
        match getNonRevocationMTProof env.hs mt leafData hi with
        | .error err => .error err
        | .ok mtpNonExist =>
          let rootKey := mt.RootKey env.hs
          match SignBytesDate env now (Hash.Bytes rootKey) with
          | .error err => .error err
          | .ok (sig, date) =>
            let proofClaimPartial : ProofOfClaimPartial :=
              { Mtp0 := mtpExist, Mtp1 := mtpNonExist, Root := rootKey, Aux := none }
            .ok { Proofs := [proofClaimPartial], Leaf := leafData, Date := date, Signature := sig }

/-- The method `GetClaimProofUserByHi`: the leaf at `hi` of the sub-tree of `idAddr`
with its proofs there, followed by the proofs in the relay tree of the
`ClaimSetRootKey` of the sub-tree's root. -/
def GetClaimProofUserByHi (env : Env) (fuel now : Nat) (cs : ServiceImpl) (idAddr : ID)
    (hi : Hash) : Option (Except Error ProofOfClaim) :=
  match cs.NewMerkleTreeUser idAddr 140 with
  | .error err => some (.error err)
  | .ok userMT =>
    match userMT.GetDataByIndex env.hs hi with
    | .error err => some (.error err)
    | .ok leafData =>
      match userMT.GenerateProof env.hs hi with
      | .error err => some (.error err)
      | .ok mtpExistUser =>
        match getNonRevocationMTProof env.hs userMT leafData hi with
        | .error err => some (.error err)
        | .ok mtpNonExistUser =>
          let claimSetRootKey := NewClaimSetRootKey idAddr (userMT.RootKey env.hs)
          match GetNextVersion env.hs cs.mt fuel (env.hs.hIndex claimSetRootKey.Entry) with
          | none => none
          | some (.error err) => some (.error err)
          | some (.ok version) =>
            let claimSetRootKey :=
              { claimSetRootKey with Version := subU32 version 1 }
            match cs.GetClaimProofByHi env now (env.hs.hIndex claimSetRootKey.Entry) with
            | .error err => some (.error err)
            | .ok proofClaim =>
              let proofClaimUserPartial : ProofOfClaimPartial :=
                { Mtp0 := mtpExistUser, Mtp1 := mtpNonExistUser, Root := userMT.RootKey env.hs,
                  Aux := some { Version := claimSetRootKey.Version, Era := 0, IdAddr := idAddr } }
              match proofClaim.Proofs with
              | [] => some (.error .indexOutOfRange)
              | p0 :: _ =>
                some (.ok { proofClaim with
                  Proofs := [proofClaimUserPartial, p0], Leaf := leafData })

end ServiceImpl

/-- The 128 bytes of a leaf, slot by slot, as `Data.String()` prints them. -/
def Data.Bytes (d : Data) : List Nat :=
  beBytes 32 d.d0 ++ beBytes 32 d.d1 ++ beBytes 32 d.d2 ++ beBytes 32 d.d3

/-! ## The other mutating operations of the service -/

/-- Modelled from the spec: `core.ClaimBasic` is not among the sources. The table of
claim kinds gives it the type 0, an index slot of 400 bits and a data slot of 496 bits;
the slots are laid out here from the low end, 248 bits to a slot, the index slot after
the 12 header bytes. -/
structure ClaimBasic where
  Version : Nat
  IndexSlot : Nat
  DataSlot : Nat
  deriving DecidableEq, Repr

/-- Modelled from the spec: the claim type of `ClaimBasic`, from the table of claim
kinds. -/
def ClaimTypeBasic : Nat := 0

/-- Modelled from the spec: `ClaimBasic.Entry()` is not among the sources. -/
def ClaimBasic.Entry (c : ClaimBasic) : Data :=
  { d0 := c.DataSlot % 2 ^ 248
    d1 := c.DataSlot / 2 ^ 248 % 2 ^ 248
    d2 := c.IndexSlot % 2 ^ 248
    d3 := c.IndexSlot / 2 ^ 248 % 2 ^ 152 * 2 ^ 96 + c.Version % 2 ^ 32 * 2 ^ 64
            + ClaimTypeBasic }

/-- Modelled from the spec: `core.ClaimAuthorizeKSign` is not among the sources, and
the service uses nothing of such a claim but its entry: the claim is given here by
that entry. -/
structure ClaimAuthorizeKSign where
  entry : Data
  deriving DecidableEq, Repr

/-- The method `ClaimAuthorizeKSign.Entry()`. -/
def ClaimAuthorizeKSign.Entry (c : ClaimAuthorizeKSign) : Data := c.entry

/-- Modelled from the spec: `core.ClaimAuthorizeKSignSecp256k1` is not among the
sources, and the service uses nothing of such a claim but its entry: the claim is
given here by that entry. -/
structure ClaimAuthorizeKSignSecp256k1 where
  entry : Data
  deriving DecidableEq, Repr

/-- The method `ClaimAuthorizeKSignSecp256k1.Entry()`. -/
def ClaimAuthorizeKSignSecp256k1.Entry (c : ClaimAuthorizeKSignSecp256k1) : Data := c.entry

/-- Modelled from the spec: `claimsrv.ClaimAuthorizeKSignMsg` is not among the sources;
it has the three fields the service reads. -/
structure ClaimAuthorizeKSignMsg where
  ClaimAuthorizeKSign : ClaimAuthorizeKSign
  Signature : SignatureEthMsg
  KSignPk : PublicKey
  deriving DecidableEq, Repr

/-- Modelled from the spec: `claimsrv.ClaimValueMsg` is not among the sources; it has
the three fields the service reads, the claim value being a tree entry. -/
structure ClaimValueMsg where
  ClaimValue : Data
  Signature : SignatureEthMsg
  KSignPk : PublicKey
  deriving DecidableEq, Repr

/-- Modelled from the spec: `Entry.Bytes()` is not among the sources; it is the 128
bytes of the leaf. -/
def Data.EntryBytes (d : Data) : List Nat := d.Bytes

namespace ServiceImpl

/-- The method `AddClaimAuthorizeKSign`: checks the key and the signature of the
message, adds the claim to the sub-tree of the identity, then adds to the relay tree
the `ClaimSetRootKey` of the new root of the sub-tree at its next version. -/
def AddClaimAuthorizeKSign (env : Env) (fuel : Nat) (cs : ServiceImpl) (idAddr : ID)
    (claimAuthorizeKSignMsg : ClaimAuthorizeKSignMsg) :
    Option (Except Error Unit × ServiceImpl) :=
  match cs.NewMerkleTreeUser idAddr 140 with
  | .error err => some (.error err, cs)
  | .ok userMT =>
    if !env.CheckKSignInIddb userMT claimAuthorizeKSignMsg.KSignPk then
      some (.error .canNotVerifyKSign, cs)
    else if !env.VerifySigEthMsg (env.PubkeyToAddress claimAuthorizeKSignMsg.KSignPk)
        claimAuthorizeKSignMsg.Signature
        claimAuthorizeKSignMsg.ClaimAuthorizeKSign.Entry.EntryBytes then
      some (.error .signatureCanNotBeVerified, cs)
    else
      match userMT.Add env.hs claimAuthorizeKSignMsg.ClaimAuthorizeKSign.Entry with
      | .error err => some (.error err, cs)
      | .ok userMT =>
        let cs := cs.setUserTree idAddr userMT
        let claimSetRootKey := NewClaimSetRootKey idAddr (userMT.RootKey env.hs)
        match GetNextVersion env.hs cs.mt fuel (env.hs.hIndex claimSetRootKey.Entry) with
        | none => none
        | some (.error err) => some (.error err, cs)
        | some (.ok version) =>
          let claimSetRootKey := { claimSetRootKey with Version := version }
          match cs.mt.Add env.hs claimSetRootKey.Entry with
          | .error err => some (.error err, cs)
          | .ok mt =>
            let cs := { cs with mt := mt }
            let cs := { cs with rootsrv := cs.rootsrv.SetRoot (cs.mt.RootKey env.hs) }
            some (.ok (), cs)

/-- The method `AddClaimAuthorizeKSignFirst`: adds the claim to the sub-tree of the
identity, with no check, then adds to the relay tree the `ClaimSetRootKey` of the new
root of the sub-tree at its next version. -/
def AddClaimAuthorizeKSignFirst (env : Env) (fuel : Nat) (cs : ServiceImpl) (idAddr : ID)
    (claimAuthorizeKSign : ClaimAuthorizeKSign) : Option (Except Error Unit × ServiceImpl) :=
  match cs.NewMerkleTreeUser idAddr 140 with
  | .error err => some (.error err, cs)
  | .ok userMT =>
    match userMT.Add env.hs claimAuthorizeKSign.Entry with
    | .error err => some (.error err, cs)
    | .ok userMT =>
      let cs := cs.setUserTree idAddr userMT
      let claimSetRootKey := NewClaimSetRootKey idAddr (userMT.RootKey env.hs)
      match GetNextVersion env.hs cs.mt fuel (env.hs.hIndex claimSetRootKey.Entry) with
      | none => none
      | some (.error err) => some (.error err, cs)
      | some (.ok version) =>
        let claimSetRootKey := { claimSetRootKey with Version := version }
        match cs.mt.Add env.hs claimSetRootKey.Entry with
        | .error err => some (.error err, cs)
        | .ok mt =>
          let cs := { cs with mt := mt }
          let cs := { cs with rootsrv := cs.rootsrv.SetRoot (cs.mt.RootKey env.hs) }
          some (.ok (), cs)

/-- The method `AddClaimAuthorizeKSignSecp256k1First`: as `AddClaimAuthorizeKSignFirst`,
for a claim of the secp256k1 kind. -/
def AddClaimAuthorizeKSignSecp256k1First (env : Env) (fuel : Nat) (cs : ServiceImpl)
    (idAddr : ID) (claimAuthorizeKSignSecp256k1 : ClaimAuthorizeKSignSecp256k1) :
    Option (Except Error Unit × ServiceImpl) :=
  match cs.NewMerkleTreeUser idAddr 140 with
  | .error err => some (.error err, cs)
  | .ok userMT =>
    match userMT.Add env.hs claimAuthorizeKSignSecp256k1.Entry with
    | .error err => some (.error err, cs)
    | .ok userMT =>
      let cs := cs.setUserTree idAddr userMT
      let claimSetRootKey := NewClaimSetRootKey idAddr (userMT.RootKey env.hs)
      match GetNextVersion env.hs cs.mt fuel (env.hs.hIndex claimSetRootKey.Entry) with
      | none => none
      | some (.error err) => some (.error err, cs)
      | some (.ok version) =>
        let claimSetRootKey := { claimSetRootKey with Version := version }
        match cs.mt.Add env.hs claimSetRootKey.Entry with
        | .error err => some (.error err, cs)
        | .ok mt =>
          let cs := { cs with mt := mt }
          let cs := { cs with rootsrv := cs.rootsrv.SetRoot (cs.mt.RootKey env.hs) }
          some (.ok (), cs)

/-- The method `AddUserIdClaim`: checks the key and the signature of the message, adds
the entry to the sub-tree of the identity, then adds to the relay tree the
`ClaimSetRootKey` of the new root of the sub-tree at its next version. -/
def AddUserIdClaim (env : Env) (fuel : Nat) (cs : ServiceImpl) (idAddr : ID)
    (claimValueMsg : ClaimValueMsg) : Option (Except Error Unit × ServiceImpl) :=
  match cs.NewMerkleTreeUser idAddr 140 with
  | .error err => some (.error err, cs)
  | .ok userMT =>
    if !env.CheckKSignInIddb userMT claimValueMsg.KSignPk then
      some (.error .canNotVerifyKSign, cs)
    else if !env.VerifySigEthMsg (env.PubkeyToAddress claimValueMsg.KSignPk)
        claimValueMsg.Signature claimValueMsg.ClaimValue.EntryBytes then
      some (.error .signatureCanNotBeVerified, cs)
    else
      match userMT.Add env.hs claimValueMsg.ClaimValue with
      | .error err => some (.error err, cs)
      | .ok userMT =>
        let cs := cs.setUserTree idAddr userMT
        let claimSetRootKey := NewClaimSetRootKey idAddr (userMT.RootKey env.hs)
        match GetNextVersion env.hs cs.mt fuel (env.hs.hIndex claimSetRootKey.Entry) with
        | none => none
        | some (.error err) => some (.error err, cs)
        | some (.ok version) =>
          let claimSetRootKey := { claimSetRootKey with Version := version }
          match cs.mt.Add env.hs claimSetRootKey.Entry with
          | .error err => some (.error err, cs)
          | .ok mt =>
            let cs := { cs with mt := mt }
            let cs := { cs with rootsrv := cs.rootsrv.SetRoot (cs.mt.RootKey env.hs) }
            some (.ok (), cs)

/-- The method `AddDirectClaim`: adds the claim to the relay tree as it is given. -/
def AddDirectClaim (env : Env) (cs : ServiceImpl) (claim : ClaimBasic) :
    Except Error Unit × ServiceImpl :=
  match cs.mt.Add env.hs claim.Entry with
  | .error err => (.error err, cs)
  | .ok mt =>
    let cs := { cs with mt := mt }
    let cs := { cs with rootsrv := cs.rootsrv.SetRoot (cs.mt.RootKey env.hs) }
    (.ok (), cs)

end ServiceImpl

/-- A call of one of the mutating methods of `claimsrv.Service`, with its
arguments. -/
inductive Call where
  | CommitNewIdRoot (idaddr : ID) (kSignPk : PublicKey) (root : Hash) (timestamp : Nat)
      (signature : SignatureEthMsg)
  | AddClaimAssignName (claimAssignName : ClaimAssignName)
  | AddClaimAuthorizeKSign (idAddr : ID) (claimAuthorizeKSignMsg : ClaimAuthorizeKSignMsg)
  | AddClaimAuthorizeKSignFirst (idAddr : ID) (claimAuthorizeKSign : ClaimAuthorizeKSign)
  | AddClaimAuthorizeKSignSecp256k1First (idAddr : ID)
      (claimAuthorizeKSignSecp256k1 : ClaimAuthorizeKSignSecp256k1)
  | AddUserIdClaim (idAddr : ID) (claimValueMsg : ClaimValueMsg)
  | AddDirectClaim (claim : ClaimBasic)
  deriving DecidableEq, Repr

/-- The service after a call made at the time `now`, with the error of the call if
it failed. -/
def ServiceImpl.call (env : Env) (fuel now : Nat) (cs : ServiceImpl) :
    Call → Option (Except Error Unit × ServiceImpl)
  | .CommitNewIdRoot idaddr kSignPk root timestamp signature =>
    match cs.CommitNewIdRoot env fuel now idaddr kSignPk root timestamp signature with
    | none => none
    | some (.ok _, cs) => some (.ok (), cs)
    | some (.error err, cs) => some (.error err, cs)
  | .AddClaimAssignName claimAssignName => cs.AddClaimAssignName env fuel claimAssignName
  | .AddClaimAuthorizeKSign idAddr msg => cs.AddClaimAuthorizeKSign env fuel idAddr msg
  | .AddClaimAuthorizeKSignFirst idAddr c => cs.AddClaimAuthorizeKSignFirst env fuel idAddr c
  | .AddClaimAuthorizeKSignSecp256k1First idAddr c =>
    cs.AddClaimAuthorizeKSignSecp256k1First env fuel idAddr c
  | .AddUserIdClaim idAddr msg => cs.AddUserIdClaim env fuel idAddr msg
  | .AddDirectClaim claim => some (cs.AddDirectClaim env claim)

/-- The tail all the methods that write a sub-tree share: the `ClaimSetRootKey` of the
identity for the root `root` is added to the relay tree at its next version and the
root service is told the new root. -/
def ServiceImpl.addSetRootKey (env : Env) (fuel : Nat) (cs : ServiceImpl) (idAddr : ID)
    (root : Hash) : Option (Except Error Unit × ServiceImpl) :=
  match GetNextVersion env.hs cs.mt fuel (env.hs.hIndex (NewClaimSetRootKey idAddr root).Entry) with
  | none => none
  | some (.error err) => some (.error err, cs)
  | some (.ok version) =>
    match cs.mt.Add env.hs
        ({ NewClaimSetRootKey idAddr root with Version := version } : ClaimSetRootKey).Entry with
    | .error err => some (.error err, cs)
    | .ok mt =>
      some (.ok (), { cs with mt := mt, rootsrv := cs.rootsrv.SetRoot (mt.RootKey env.hs) })

/-- What a successful call does to the relay tree and the root service: one entry `e`
is added to the relay tree and the root service is told the new root. -/
def RelayInsert (env : Env) (cs cs' : ServiceImpl) (e : Data) : Prop :=
  ∃ mt, cs.mt.Add env.hs e = .ok mt ∧ cs'.mt = mt ∧
    cs'.rootsrv = cs.rootsrv.SetRoot (mt.RootKey env.hs)

/-- The entry `e` is the next version of the claim `d` as `GetNextVersion` counts it on
the relay tree: `d` rewritten to the version the call returned at the index of `d`. -/
def NextVersionOf (env : Env) (fuel : Nat) (cs : ServiceImpl) (d e : Data) : Prop :=
  ∃ k, GetNextVersion env.hs cs.mt fuel (env.hs.hIndex d) = some (.ok k) ∧ e = d.withVersion k

/-- The service as `LoadMerkele` and `rootsrv.New` set it up: an empty relay tree of depth
140, no sub-tree, and a root service that holds the zero hash. -/
def ServiceImpl.init : ServiceImpl :=
  { mt := MerkleTree.empty 140, rootsrv := { lastRoot := 0, notified := [] }, userTrees := [] }

/-- The states of the service that calls other than `AddDirectClaim` lead to from the
initial one, whether the calls succeed or fail. -/
inductive Reachable (env : Env) : ServiceImpl → Prop where
  | init : Reachable env ServiceImpl.init
  | step (cs cs' : ServiceImpl) (fuel now : Nat) (c : Call) (r : Except Error Unit) :
      Reachable env cs → (∀ claim, c ≠ Call.AddDirectClaim claim) →
      cs.call env fuel now c = some (r, cs') → Reachable env cs'

/-- The leaf `e` is at version 0 or the tree holds a leaf at the index of its previous
version. -/
def HasPrevVersion (hs : Hasher) (mt : MerkleTree) (e : Data) : Prop :=
  e.version = 0 ∨ mt.Has hs (hs.hIndex (e.withVersion (e.version - 1)))

/-! ## `GetNextVersion` over pointers -/

/-- The memory `GetNextVersion` runs in: the tree, the cells that hold a
`merkletree.Hash` and the cells that hold a `merkletree.Data`. A pointer is the
position of a cell. -/
structure Memory where
  mt : MerkleTree
  hashes : List Hash
  datas : List Data

namespace Memory

/-- The hash a `*merkletree.Hash` points to. -/
def hashAt (m : Memory) (p : Nat) : Hash := m.hashes.getD p 0

/-- The data a `*merkletree.Data` points to. -/
def dataAt (m : Memory) (p : Nat) : Data := m.datas.getD p { d0 := 0, d1 := 0, d2 := 0, d3 := 0 }

/-- A fresh cell that holds the hash `h`. -/
def newHash (m : Memory) (h : Hash) : Nat × Memory :=
  (m.hashes.length, { m with hashes := m.hashes ++ [h] })

/-- A fresh cell that holds the data `d`. -/
def newData (m : Memory) (d : Data) : Nat × Memory :=
  (m.datas.length, { m with datas := m.datas ++ [d] })

/-- Modelled from the spec: `mt.GetDataByIndex(hi)` with its pointers; the package
`merkletree` is not among the sources. The tree keeps its nodes in the storage, so
the read decodes the leaf into a fresh cell and gives the pointer to that cell. -/
def GetDataByIndex (hs : Hasher) (m : Memory) (hi : Nat) : Except Error Nat × Memory :=
  match m.mt.GetDataByIndex hs (m.hashAt hi) with
  | .error err => (.error err, m)
  | .ok d => (.ok (m.newData d).1, (m.newData d).2)

/-- Modelled from the spec: `core.SetClaimTypeVersionInData(data, claimType, version)`
with its pointer; `core/claims.go` is not among the sources. It writes the header
into the cell `data` points to. -/
def SetClaimTypeVersionInData (m : Memory) (data claimType version : Nat) : Memory :=
  { m with
    datas := (m.datas.set data
      (Iden3.SetClaimTypeVersionInData (m.dataAt data) claimType version)) }

/-- Modelled from the spec: `entry.HIndex()` with its pointer; the package
`merkletree` is not among the sources. The hash is returned in a fresh cell. -/
def HIndex (hs : Hasher) (m : Memory) (entry : Data) : Nat × Memory :=
  m.newHash (hs.hIndex entry)

end Memory

/-- The loop of `GetNextVersion` over the memory, with `fuel` iterations left: the
local pointer `hi` and the local `version`. -/
def GetNextVersionMemLoop (hs : Hasher) :
    Nat → Memory → Nat → Nat → Option (Except Error Nat × Memory)
  | 0, _, _, _ => none
  | fuel + 1, m, hi, version =>
    match Memory.GetDataByIndex hs m hi with
    | (.error .ErrEntryIndexNotFound, m) => some (.ok version, m)
    | (.error err, m) => some (.error err, m)
    | (.ok leafData, m) =>
      let claimType := (GetClaimTypeVersionFromData (m.dataAt leafData)).1
      let version := ((GetClaimTypeVersionFromData (m.dataAt leafData)).2 + 1) % 2 ^ 32
      let m := m.SetClaimTypeVersionInData leafData claimType version
      let entry := m.dataAt leafData
      GetNextVersionMemLoop hs fuel (Memory.HIndex hs m entry).2 (Memory.HIndex hs m entry).1
        version

/-- The function `GetNextVersion(mt, hi)` over the memory: `mt` is the tree of the
memory, `hi` a pointer to a hash cell. -/
def GetNextVersionMem (hs : Hasher) (fuel : Nat) (m : Memory) (hi : Nat) :
    Option (Except Error Nat × Memory) :=
  GetNextVersionMemLoop hs fuel m hi 0

/-! ## The root publisher (`rootsrv/service.go`) -/

/-- The value `merkletree.Hash{}`: 32 zero bytes. -/
def zeroHash : Hash := 0

/-- The method `rootsrv.ServiceImpl.getLastRoot()`. -/
def RootService.getLastRoot (s : RootService) : Hash := s.lastRoot

/-- The goroutine of `rootsrv.ServiceImpl.Start`: its local `lastRoot` and, to tell a
call from no call, the trace of the roots `updateRoot` was called with. -/
structure Publisher where
  lastRoot : Hash
  updated : List Hash
  deriving DecidableEq, Repr

/-- The goroutine before its loop: `lastRoot := s.getLastRoot()`. -/
def Publisher.start (s : RootService) : Publisher :=
  { lastRoot := s.getLastRoot, updated := [] }

/-- One pass of the loop of `Start` through the case `time.After(time.Second)`, with
the service as it is at that moment; `updateRootFails` tells whether `updateRoot`,
if this pass calls it, returns an error. -/
def Publisher.tick (p : Publisher) (s : RootService) (updateRootFails : Bool) : Publisher :=
  let sLastRoot := s.getLastRoot
  if p.lastRoot ≠ sLastRoot then
    let lastRoot := sLastRoot
    let updated := p.updated ++ [lastRoot]
    if updateRootFails then
      { lastRoot := zeroHash, updated := updated }
    else
      { lastRoot := lastRoot, updated := updated }
  else
    p

/-! ## `LoadGenesis` (`cmd/genericserver/load.go`) -/

/-- Modelled from the spec: `core.ProofClaim` is not among the sources; `LoadGenesis`
reads its field `Leaf` only. -/
structure ProofClaim where
  Leaf : Data
  deriving DecidableEq, Repr

/-- Modelled from the spec: `core.GenesisProofClaims` is not among the sources; it
holds the proof claims of the four genesis keys. -/
structure GenesisProofClaims where
  KOp : ProofClaim
  KDis : ProofClaim
  KReen : ProofClaim
  KUpdateRoot : ProofClaim
  deriving DecidableEq, Repr

/-- Modelled from the spec: `Data.Equal` of the package `merkletree` is not among the
sources; it compares the four slots. -/
def Data.Equal (d data : Data) : Bool := decide (d = data)

/-- The errors `LoadGenesis` returns, one for each of its messages; those that wrap
an error carry it. -/
inductive LoadError where
  /-- The error "Configuration id doesn't match calculated genesis id" -/
  | idMismatch
  /-- The error "Error creating level DB storage" -/
  | creatingStorage (err : Nat)
  /-- The error "Error creating merkle tree" -/
  | creatingMerkleTree (err : Nat)
  /-- The error "Error listing level DB storage" -/
  | listingStorage (err : Nat)
  /-- The error "Error adding claim to merkle tree" -/
  | addingClaim (err : Error)
  /-- The error "Error getting claim from the merkle tree" -/
  | gettingClaim (err : Error)
  /-- The error "Claim from the merkle tree doesn't match the expected claim" -/
  | claimDoesNotMatch
  deriving DecidableEq, Repr

/-- What `LoadGenesis` reads outside itself: the configuration `C` and the answers of
the functions that are not among the sources. -/
structure GenesisEnv where
  /-- The hashes of the `merkletree` package. -/
  hs : Hasher
  /-- The configured identity `C.Id` -/
  Id : ID
  /-- The identity and the proof claims `core.CalculateIdGenesis` gives for the
  configured keys -/
  CalculateIdGenesis : ID × GenesisProofClaims
  /-- The error of `db.NewLevelDbStorage`, if any -/
  NewLevelDbStorage : Except Nat Unit
  /-- The tree `merkletree.NewMerkleTree(mtstorage, 140)` opens, or its error -/
  NewMerkleTree : Except Nat MerkleTree
  /-- The length of `kvs`, the answer of `mtstorage.List(1)`, or its error -/
  StorageList : Except Nat Nat

/-- The first loop of `LoadGenesis`: the genesis claims are added to the tree. -/
def addGenesisClaims (hs : Hasher) : MerkleTree → List ProofClaim → Except LoadError MerkleTree
  | mt, [] => .ok mt
  | mt, proofClaim :: rest =>
    match mt.Add hs proofClaim.Leaf with
    | .error err => .error (.addingClaim err)
    | .ok mt => addGenesisClaims hs mt rest

/-- The second loop of `LoadGenesis`: the genesis claims are read back from the
tree. -/
def checkGenesisClaims (hs : Hasher) (mt : MerkleTree) : List ProofClaim → Except LoadError Unit
  | [] => .ok ()
  | proofClaim :: rest =>
    let entry := proofClaim.Leaf
    match mt.GetDataByIndex hs (hs.hIndex entry) with
    | .error err => .error (.gettingClaim err)
    | .ok data =>
      if entry.Equal data then .error .claimDoesNotMatch
      else checkGenesisClaims hs mt rest

/-- The function `LoadGenesis()`. -/
def LoadGenesis (env : GenesisEnv) : Except LoadError GenesisProofClaims :=
  let id := env.CalculateIdGenesis.1
  let proofClaims := env.CalculateIdGenesis.2
  if id ≠ env.Id then .error .idMismatch
  else
    match env.NewLevelDbStorage with
    | .error err => .error (.creatingStorage err)
    | .ok _ =>
      match env.NewMerkleTree with
      | .error err => .error (.creatingMerkleTree err)
      | .ok mt =>
        match env.StorageList with
        | .error err => .error (.listingStorage err)
        | .ok len =>
          let proofClaimsList :=
            [proofClaims.KOp, proofClaims.KDis, proofClaims.KReen, proofClaims.KUpdateRoot]
          if len = 0 then
            match addGenesisClaims env.hs mt proofClaimsList with
            | .error err => .error err
            | .ok _ => .ok proofClaims
          else
            match checkGenesisClaims env.hs mt proofClaimsList with
            | .error err => .error err
            | .ok _ => .ok proofClaims

/-! ## Decoding claims -/

/-- Modelled from the spec: `core.NewClaimSetRootKeyFromEntry` is not among the sources;
it reads the fields back from where the test vector of `core/claimSetRootKey_test.go`
shows them. -/
def NewClaimSetRootKeyFromEntry (e : Data) : ClaimSetRootKey :=
  { Version := (GetClaimTypeVersionFromData e).2
    Era := e.d3 / 2 ^ 96 % 2 ^ 32
    Id := beBytes 31 e.d2
    RootKey := e.d1 }

/-- The claim type of `ClaimLinkObjectIdentity`, as the test vector of
`core/claimLinkObjectIdentity_test.go` shows it in the last 8 bytes of the header. -/
def ClaimTypeLinkObjectIdentity : Nat := 5

/-- Modelled from the spec: the constant `ObjectTypeAddress` is not among the sources;
with an index type of zero, the test vector of `core/claimLinkObjectIdentity_test.go`
shows the byte 1 above the version. -/
def ObjectTypeAddress : Nat := 1

/-- Modelled from the spec: `core.ClaimLinkObjectIdentity` is not among the sources; its
fields are those of the table of claim kinds, with the version the test sets. The
object hash and the auxiliary data are kept as the numbers their bytes write. -/
structure ClaimLinkObjectIdentity where
  Version : Nat
  ObjectType : Nat
  IndexType : Nat
  Id : ID
  ObjectHash : Nat
  AuxData : Nat
  deriving DecidableEq, Repr

/-- Modelled from the spec: `core.NewClaimLinkObjectIdentity` is not among the sources.
The version starts at zero. Of the object hash the last 31 bytes are kept: the test
of `core/claimLinkObjectIdentity_test.go` gives 32 bytes, finds the first one zero in
the entry and the decoded claim equal to the claim built here. -/
def NewClaimLinkObjectIdentity (objectType indexType : Nat) (id : ID)
    (objectHash auxData : List Nat) : ClaimLinkObjectIdentity :=
  { Version := 0
    ObjectType := objectType
    IndexType := indexType
    Id := id
    ObjectHash := beNat objectHash % 2 ^ 248
    AuxData := beNat auxData }

/-- Modelled from the spec: `ClaimLinkObjectIdentity.Entry()` is not among the sources;
it is given the layout of the test vector of `core/claimLinkObjectIdentity_test.go`:
the auxiliary data, the object hash, the id, and the header slot holding index type
(`u16`), object type (`u8`), version and claim type. -/
def ClaimLinkObjectIdentity.Entry (c : ClaimLinkObjectIdentity) : Data :=
  { d0 := c.AuxData % 2 ^ 256
    d1 := c.ObjectHash % 2 ^ 248
    d2 := beNat c.Id
    d3 := c.IndexType % 2 ^ 16 * 2 ^ 104 + c.ObjectType % 2 ^ 8 * 2 ^ 96
      + c.Version % 2 ^ 32 * 2 ^ 64 + ClaimTypeLinkObjectIdentity }

/-- Modelled from the spec: `core.NewClaimLinkObjectIdentityFromEntry` is not among the
sources; it reads the fields back from where `Entry` writes them. -/
def NewClaimLinkObjectIdentityFromEntry (e : Data) : ClaimLinkObjectIdentity :=
  { Version := (GetClaimTypeVersionFromData e).2
    ObjectType := e.d3 / 2 ^ 96 % 2 ^ 8
    IndexType := e.d3 / 2 ^ 104 % 2 ^ 16
    Id := beBytes 31 e.d2
    ObjectHash := e.d1
    AuxData := e.d0 }

/-- The claims `NewClaimFromEntry` returns: a claim of one of the two kinds whose
tests are among the sources, or a claim of another kind, kept as its entry. -/
inductive Claim where
  | SetRootKey (c : ClaimSetRootKey)
  | LinkObjectIdentity (c : ClaimLinkObjectIdentity)
  | other (e : Data)
  deriving DecidableEq, Repr

/-- Modelled from the spec: `core.NewClaimFromEntry` is not among the sources; the
spec has it match on the claim type of the header. What it does for the kinds other
than `ClaimSetRootKey` and `ClaimLinkObjectIdentity` is left to `rest`. -/
def NewClaimFromEntry (rest : Data → Except Error Claim) (e : Data) : Except Error Claim :=
  let claimType := (GetClaimTypeVersionFromData e).1
  if claimType = ClaimTypeSetRootKey then
    .ok (.SetRootKey (NewClaimSetRootKeyFromEntry e))
  else if claimType = ClaimTypeLinkObjectIdentity then
    .ok (.LinkObjectIdentity (NewClaimLinkObjectIdentityFromEntry e))
  else
    rest e

/-! ## Runs of the root publisher -/

/-- The function `rootsrv.New`: the service starts with `merkletree.Hash{}` as its
last root. -/
def RootService.New : RootService := { lastRoot := zeroHash, notified := [] }

/-- The service after `SetRoot` was called with each of `roots`, in turn. -/
def RootService.SetRoots (s : RootService) (roots : List Hash) : RootService :=
  roots.foldl RootService.SetRoot s

/-- A run of the loop of `Start` beside the service: each round is the roots `SetRoot`
was called with since the pass before, followed by one pass of the loop, for which
the round tells whether `updateRoot`, if called, fails. -/
def Publisher.run : Publisher → RootService → List (List Hash × Bool) → Publisher × RootService
  | p, s, [] => (p, s)
  | p, s, round :: rest =>
    Publisher.run (p.tick (s.SetRoots round.1) round.2) (s.SetRoots round.1) rest

/-! ## `LoadSignedPacketSigner` (`cmd/genericserver/load.go`) -/

/-- Modelled from the spec: `signedpacketsrv.SignedPacketSigner` is not among the
sources; beside the signer it keeps what `NewSignedPacketSigner` is given: the proof
of the key claim and the identity. -/
structure SignedPacketSigner where
  proofKSign : ProofOfClaim
  id : ID
  deriving DecidableEq, Repr

/-- The end of a call that returns a value or stops in `panic(err)`. -/
inductive Panics (α : Type) where
  | returned (a : α)
  | panicked (err : Error)
  deriving DecidableEq, Repr

/-- The function `LoadSignedPacketSigner`, with the service afterwards. The method
`claimservice.AddClaim` is not among the sources and is the parameter `AddClaim`: it
gives the error, `none` for `nil`, and the service afterwards. The claim is the one
`core.NewClaimAuthorizeKSignBabyJub(pk)` gives, `configId` is `C.Id`. -/
def LoadSignedPacketSigner (env : Env) (now : Nat) (configId : ID)
    (AddClaim : ServiceImpl → Data → Option Error × ServiceImpl)
    (claimservice : ServiceImpl) (claim : ClaimAuthorizeKSign) :
    Panics SignedPacketSigner × ServiceImpl :=
  let added := AddClaim claimservice claim.Entry
  let claimservice := added.2
  match added.1 with
  | some err =>
    if err ≠ .ErrEntryIndexAlreadyExists then (.panicked err, claimservice)
    else
      match claimservice.GetClaimProofByHi env now (env.hs.hIndex claim.Entry) with
      | .error err => (.panicked err, claimservice)
      | .ok proofKSign => (.returned { proofKSign := proofKSign, id := configId }, claimservice)
  | none =>
    match claimservice.GetClaimProofByHi env now (env.hs.hIndex claim.Entry) with
    | .error err => (.panicked err, claimservice)
    | .ok proofKSign => (.returned { proofKSign := proofKSign, id := configId }, claimservice)

/-! ## The entry of the next version -/

/-- The entry `getNonRevocationMTProof` builds from a leaf: a copy of the leaf with its
header rewritten to the same claim type and the next version. -/
def nonRevocationEntry (leafData : Data) : Data :=
  let claimType := (GetClaimTypeVersionFromData leafData).1
  let claimVersion := (GetClaimTypeVersionFromData leafData).2
  SetClaimTypeVersionInData leafData claimType ((claimVersion + 1) % 2 ^ 32)

/-! ## The storage of the trees -/

/-- The entries of the database all the trees are kept in, the latest write first: a
key and its value, both of bytes. -/
abbrev Store := List (List Nat × List Nat)

/-- Modelled from the spec: `db.Storage` is not among the sources. It is a view of the
database under a prefix of bytes: the keys it reads and writes are the keys it is
given, each behind the prefix. -/
structure Storage where
  pre : List Nat
  deriving DecidableEq, Repr

namespace Storage

/-- Modelled from the spec: `storage.WithPrefix(p)`, the view under the prefix of
`storage` followed by `p`. -/
def WithPrefix (s : Storage) (p : List Nat) : Storage := { pre := s.pre ++ p }

/-- Modelled from the spec: `storage.Get(k)` on the database `st`. -/
def Get (s : Storage) (st : Store) (k : List Nat) : Option (List Nat) :=
  st.lookup (s.pre ++ k)

/-- Modelled from the spec: a write of `v` under `k` through the view, on the database
`st`. -/
def Put (s : Storage) (st : Store) (k v : List Nat) : Store :=
  (s.pre ++ k, v) :: st

/-- Modelled from the spec: a batch of writes through the view, as the one in which
`Add` writes the new nodes of a tree and then its root. -/
def PutAll (s : Storage) : Store → List (List Nat × List Nat) → Store
  | st, [] => st
  | st, kv :: rest => PutAll s (s.Put st kv.1 kv.2) rest

end Storage

/-- The prefix `dbMerkletreePrefix` of `cmd/genericserver/load.go`, under which
`LoadMerkele` opens the relay tree. -/
def dbMerkletreePrefix : List Nat := [0]

/-- Modelled from the spec: the reserved key "currentroot" of a tree, by its bytes;
the package `merkletree` is not among the sources. -/
def rootNodeValue : List Nat := [99, 117, 114, 114, 101, 110, 116, 114, 111, 111, 116]

/-- Modelled from the spec: the keys a tree reads and writes in its storage, the 32
bytes of the hash of a node or the reserved key of the root. -/
def isTreeKey (k : List Nat) : Bool := k.length == 32 || k == rootNodeValue

/-! ## `Counterfactual` (`counterfactualsrv/service.go`) -/

/-- The constant `CompressedPkLen`. -/
def CompressedPkLen : Nat := 33

/-- The errors of `Counterfactual.Encode` and `Counterfactual.Decode`. -/
inductive CodecError where
  /-- The error `io.EOF` -/
  | EOF
  /-- An error of `crypto.DecompressPubkey` -/
  | invalidPublicKey (code : Nat)
  /-- Go's run-time panic on a nil pointer. -/
  | nilPointer
  deriving DecidableEq, Repr

/-- The functions of the library `go-ethereum/crypto` that the codec calls. -/
structure Secp where
  /-- The function `crypto.CompressPubkey(pubkey)` -/
  CompressPubkey : PublicKey → List Nat
  /-- The function `crypto.DecompressPubkey(pubkey)`, failing with an error code -/
  DecompressPubkey : List Nat → Except Nat PublicKey

/-- The type `Counterfactual`: five addresses of 20 bytes and the pointer
`OperationalPk`, which is `none` when nil. -/
structure Counterfactual where
  Operational : List Nat
  OperationalPk : Option PublicKey
  Relayer : List Nat
  Recoverer : List Nat
  Revokator : List Nat
  Impl : List Nat
  deriving DecidableEq, Repr

/-- The method `bytes.Buffer.Read(p)` of Go's library, on a buffer whose unread bytes
are `b`: when the buffer is empty it returns `io.EOF`, or no error if `p` is empty;
otherwise it copies as many bytes as `p` and the buffer both hold to the front of
`p`, without error. The result is the count and the error, `p` afterwards and the
unread bytes afterwards. -/
def bufferRead (b p : List Nat) : (Nat × Option CodecError) × List Nat × List Nat :=
  if b.isEmpty then
    if p.length = 0 then ((0, none), p, b) else ((0, some .EOF), p, b)
  else
    ((min p.length b.length, none), b.take (min p.length b.length) ++ p.drop (min p.length b.length),
      b.drop (min p.length b.length))

/-- The method `Counterfactual.Encode`. -/
def Counterfactual.Encode (secp : Secp) (i : Counterfactual) : Except CodecError (List Nat) :=
  match i.OperationalPk with
  | none => .error .nilPointer
  | some pk =>
    .ok (i.Operational ++ secp.CompressPubkey pk ++ i.Relayer ++ i.Recoverer ++ i.Revokator
      ++ i.Impl)

/-- The method `Counterfactual.Decode`, on the receiver `i`: the error, `none` for
nil, and the receiver afterwards. -/
def Counterfactual.Decode (secp : Secp) (i : Counterfactual) (encoded : List Nat) :
    Option CodecError × Counterfactual :=
  let b := encoded
  let r := bufferRead b i.Operational
  let i := { i with Operational := r.2.1 }
  match r.1.2 with
  | some err => (some err, i)
  | none =>
    let b := r.2.2
    let r := bufferRead b (List.replicate CompressedPkLen 0)
    match r.1.2 with
    | some err => (some err, i)
    | none =>
      let operationalPkComp := r.2.1
      let b := r.2.2
      match secp.DecompressPubkey operationalPkComp with
      | .error code => (some (.invalidPublicKey code), i)
      | .ok pk =>
        let i := { i with OperationalPk := some pk }
        let r := bufferRead b i.Relayer
        let i := { i with Relayer := r.2.1 }
        match r.1.2 with
        | some err => (some err, i)
        | none =>
          let b := r.2.2
          let r := bufferRead b i.Recoverer
          let i := { i with Recoverer := r.2.1 }
          match r.1.2 with
          | some err => (some err, i)
          | none =>
            let b := r.2.2
            let r := bufferRead b i.Revokator
            let i := { i with Revokator := r.2.1 }
            match r.1.2 with
            | some err => (some err, i)
            | none =>
              let b := r.2.2
              let r := bufferRead b i.Impl
              let i := { i with Impl := r.2.1 }
              match r.1.2 with
              | some err => (some err, i)
              | none => (none, i)

/-! ## Predicates of the statements -/

/-- The entries of `ls` part ways pairwise at one of the `n` levels from `lvl` on. -/
def Separated (hs : Hasher) (n lvl : Nat) (ls : List Data) : Prop :=
  ls.Pairwise (fun a b =>
    ∃ i, lvl ≤ i ∧ i < lvl + n ∧ pathBit (hs.hIndex a) i ≠ pathBit (hs.hIndex b) i)

/-- The node hashes are free of collisions and tell the three kinds of node apart. -/
structure Hasher.Ideal (hs : Hasher) : Prop where
  mid_inj : ∀ a b c d, hs.hashMid a b = hs.hashMid c d → a = c ∧ b = d
  leaf_ne_empty : ∀ a b, hs.hashLeaf a b ≠ hs.emptyHash
  mid_ne_leaf : ∀ a b c d, hs.hashMid a b ≠ hs.hashLeaf c d

/-- The leaves the tree holds at the indexes of the versions of the claim `d` are
versions of that claim: the leaf at the index of version `j` has header version `j`,
and its next version has the index of version `j + 1` of `d`. -/
def ChainSound (hs : Hasher) (mt : MerkleTree) (d : Data) : Prop :=
  ∀ j leaf, j < 2 ^ 32 → mt.GetDataByIndex hs (hs.hIndex (d.withVersion j)) = .ok leaf →
    leaf.version = j ∧ hs.hIndex (leaf.withVersion (j + 1)) = hs.hIndex (d.withVersion (j + 1))

/-- The versions below `k` of the claim `d` are in the tree at their indexes, and
version `k` is not. -/
def NextVersionIs (hs : Hasher) (mt : MerkleTree) (d : Data) (k : Nat) : Prop :=
  (∀ j, j < k → mt.Has hs (hs.hIndex (d.withVersion j))) ∧
    ¬ mt.Has hs (hs.hIndex (d.withVersion k))

/-- The message `CommitNewIdRoot` checks the signature of. -/
def commitMsg (idaddr : ID) (root : Hash) (timestamp : Nat) : List Nat :=
  ID.Bytes idaddr ++ Hash.Bytes root ++ Uint64ToEthBytes timestamp

/-- The five addresses of a counterfactual have the 20 bytes of `common.Address`. -/
def Counterfactual.Sized (c : Counterfactual) : Prop :=
  c.Operational.length = 20 ∧ c.Relayer.length = 20 ∧ c.Recoverer.length = 20 ∧
    c.Revokator.length = 20 ∧ c.Impl.length = 20

/-! ## A small instance

A hasher and an environment on which the definitions can be run: hashes are
pairings, so they are collision-free. -/

/-- A hasher made of pairing functions: the index is taken from the slots 2 and 3 of
a leaf, the value from the slots 0 and 1. The index reads the header slot: the loop of
`GetNextVersion` relies on the index of a leaf changing with its version. -/
def pairHasher : Hasher :=
  { hIndex := fun d => Nat.pair d.d2 d.d3
    hValue := fun d => Nat.pair d.d0 d.d1
    emptyHash := 0
    hashLeaf := fun a b => 3 * Nat.pair a b + 1
    hashMid := fun a b => 3 * Nat.pair a b + 2 }

/-- An environment over `pairHasher`: a key is authorised when the sub-tree is not
empty, a signature is valid when it repeats the message, and the signer signs by
repeating the message. -/
def pairEnv : Env :=
  { hs := pairHasher
    CheckKSignInIddb := fun userMT _ => !userMT.leaves.isEmpty
    PubkeyToAddress := fun pk => [pk.1, pk.2]
    VerifySigEthMsg := fun _ sig msg => sig == msg
    SignEthMsg := fun msg => .ok msg }

/-- A name claim at version 0. -/
def nameV0 : ClaimAssignName := { Version := 0, NameHash := 7, Id := [1, 2] }

/-- The same name claim with the version field set to 1. -/
def nameV1 : ClaimAssignName := { Version := 1, NameHash := 7, Id := [1, 2] }

/-- A relay tree that holds `nameV0` and nothing else. -/
def treeV0 : MerkleTree := { leaves := [nameV0.Entry], maxLevels := 140 }

/-- A relay tree that holds the versions 0 and 1 of the name claim. -/
def treeV01 : MerkleTree := { leaves := [nameV1.Entry, nameV0.Entry], maxLevels := 140 }

/-- A service over `treeV0`, with no sub-tree and a root service never notified. -/
def srvV0 : ServiceImpl :=
  { mt := treeV0, rootsrv := { lastRoot := 0, notified := [] }, userTrees := [] }

/-- A service over `treeV01`. -/
def srvV01 : ServiceImpl :=
  { mt := treeV01, rootsrv := { lastRoot := 0, notified := [] }, userTrees := [] }

/-- The proof `GetClaimProofByHi` gives on `srvV0` for the name claim at time 1000. -/
def proofV0 : ProofOfClaim :=
  { Proofs :=
      [{ Mtp0 := { Existence := true, depthBitmap := [], Siblings := [], NodeAux := none }
         Mtp1 := { Existence := false, depthBitmap := [], Siblings := [],
                   NodeAux := some (pairHasher.hIndex nameV0.Entry, pairHasher.hValue nameV0.Entry) }
         Root := treeV0.RootKey pairHasher
         Aux := none }]
    Leaf := nameV0.Entry
    Date := 1000
    Signature := Hash.Bytes (treeV0.RootKey pairHasher) ++ Uint64ToEthBytes 1000 }

/-- An identity. -/
def userId : ID := [5]

/-- A leaf of the sub-tree of `userId`. -/
def keyLeaf : Data := { d0 := 0, d1 := 0, d2 := 11, d3 := 2 }

/-- The sub-tree of `userId`: it holds `keyLeaf`. -/
def userTree : MerkleTree := { leaves := [keyLeaf], maxLevels := 140 }

/-- The `ClaimSetRootKey` of `userId` for the root of `userTree`, at version 0. -/
def rootClaimV0 : ClaimSetRootKey := NewClaimSetRootKey userId (userTree.RootKey pairHasher)

/-- A relay tree that holds `rootClaimV0`. -/
def relayTree : MerkleTree := { leaves := [rootClaimV0.Entry], maxLevels := 140 }

/-- A service over `relayTree` with the sub-tree of `userId`. -/
def srvUser : ServiceImpl :=
  { mt := relayTree, rootsrv := { lastRoot := 0, notified := [] },
    userTrees := [(userId, userTree)] }

/-- The proof `GetClaimProofUserByHi` gives on `srvUser` for `keyLeaf` at time 1000. -/
def proofUser : ProofOfClaim :=
  { Proofs :=
      [{ Mtp0 := { Existence := true, depthBitmap := [], Siblings := [], NodeAux := none }
         Mtp1 := { Existence := false, depthBitmap := [], Siblings := [],
                   NodeAux := some (pairHasher.hIndex keyLeaf, pairHasher.hValue keyLeaf) }
         Root := userTree.RootKey pairHasher
         Aux := some { Version := 0, Era := 0, IdAddr := userId } },
       { Mtp0 := { Existence := true, depthBitmap := [], Siblings := [], NodeAux := none }
         Mtp1 := { Existence := false, depthBitmap := [], Siblings := [],
                   NodeAux := some (pairHasher.hIndex rootClaimV0.Entry,
                     pairHasher.hValue rootClaimV0.Entry) }
         Root := relayTree.RootKey pairHasher
         Aux := none }]
    Leaf := keyLeaf
    Date := 1000
    Signature := Hash.Bytes (relayTree.RootKey pairHasher) ++ Uint64ToEthBytes 1000 }

/-- The claim of the test `TestClaimSetRootKey`: the id and the root key of the test,
version 1 and era 1. -/
def testClaimSetRootKey : ClaimSetRootKey :=
  { Version := 1
    Era := 1
    Id := [0x00, 0x00, 0x3c, 0xc1, 0xc9, 0x68, 0xfa] ++ List.replicate 22 0x00 ++ [0x03, 0x28]
    RootKey := beNat (List.replicate 31 0x0b ++ [0x0c]) }

/-- The `ClaimSetRootKey` of `userId` for the root 77, at version 1. -/
def rootClaimV1 : ClaimSetRootKey := { Version := 1, Era := 0, Id := userId, RootKey := 77 }

/-- The relay tree `relayTree` after `rootClaimV1` was added to it. -/
def relayTree1 : MerkleTree :=
  { leaves := [rootClaimV1.Entry, rootClaimV0.Entry], maxLevels := 140 }

/-- The service `srvUser` after `rootClaimV1` was committed. -/
def srvUser1 : ServiceImpl :=
  { mt := relayTree1
    rootsrv := { lastRoot := relayTree1.RootKey pairHasher,
                 notified := [relayTree1.RootKey pairHasher] }
    userTrees := [(userId, userTree)] }

/-- The claim that authorises a key, with the entry `keyLeaf`. -/
def keyClaim : ClaimAuthorizeKSign := { entry := keyLeaf }

/-- The relay tree `treeV0` after `rootClaimV0` was added to it. -/
def relayFirst : MerkleTree := { leaves := [rootClaimV0.Entry, nameV0.Entry], maxLevels := 140 }

/-- The service `srvV0` after `keyClaim` was added for `userId` as a first claim. -/
def srvFirst : ServiceImpl :=
  { mt := relayFirst
    rootsrv := { lastRoot := relayFirst.RootKey pairHasher,
                 notified := [relayFirst.RootKey pairHasher] }
    userTrees := [(userId, userTree)] }

/-- A message that asks to add `keyClaim`, signed by nobody. -/
def keyMsg : ClaimAuthorizeKSignMsg :=
  { ClaimAuthorizeKSign := keyClaim, Signature := [], KSignPk := (1, 1) }

/-- A message that asks to add the entry `keyLeaf`, signed by nobody. -/
def valueMsg : ClaimValueMsg := { ClaimValue := keyLeaf, Signature := [], KSignPk := (1, 1) }

/-- A basic claim at version 0. -/
def basicV0 : ClaimBasic := { Version := 0, IndexSlot := 9, DataSlot := 4 }

/-- The same basic claim at version 1. -/
def basicV1 : ClaimBasic := { Version := 1, IndexSlot := 9, DataSlot := 4 }

/-- A service with empty trees. -/
def srvEmpty : ServiceImpl :=
  { mt := MerkleTree.empty 140, rootsrv := { lastRoot := 0, notified := [] }, userTrees := [] }

/-- A relay tree that holds `basicV0`. -/
def treeBasic0 : MerkleTree := { leaves := [basicV0.Entry], maxLevels := 140 }

/-- A service over `treeBasic0`. -/
def srvBasic0 : ServiceImpl :=
  { mt := treeBasic0, rootsrv := { lastRoot := 0, notified := [] }, userTrees := [] }

/-- A relay tree that holds `basicV1` and nothing else. -/
def treeBasic1 : MerkleTree := { leaves := [basicV1.Entry], maxLevels := 140 }

/-- The service `srvEmpty` after `basicV1` was added directly. -/
def srvBasic1 : ServiceImpl :=
  { mt := treeBasic1
    rootsrv := { lastRoot := treeBasic1.RootKey pairHasher,
                 notified := [treeBasic1.RootKey pairHasher] }
    userTrees := [] }

/-- The service `ServiceImpl.init` after `nameV0` was added to it. -/
def srvNamed : ServiceImpl :=
  { mt := treeV0
    rootsrv := { lastRoot := treeV0.RootKey pairHasher,
                 notified := [treeV0.RootKey pairHasher] }
    userTrees := [] }

/-- A memory over `treeV01` where the caller's hash, in cell 0, is the index of
`nameV0`. -/
def memV01 : Memory :=
  { mt := treeV01, hashes := [pairHasher.hIndex nameV0.Entry], datas := [] }

/-- A root service that was given the root 5 and then the zero hash. -/
def rootsrvZero : RootService :=
  (RootService.SetRoot (RootService.SetRoot { lastRoot := zeroHash, notified := [] } 5) zeroHash)

/-- A root service that was given the root 5. -/
def rootsrvFive : RootService :=
  RootService.SetRoot { lastRoot := zeroHash, notified := [] } 5

/-- The publisher started on a fresh root service, after a pass that published the
root 5. -/
def publisherFive : Publisher :=
  (Publisher.start { lastRoot := zeroHash, notified := [] }).tick rootsrvFive false

/-- The proof claims of four genesis keys. -/
def genesisClaims : GenesisProofClaims :=
  { KOp := { Leaf := { d0 := 0, d1 := 0, d2 := 21, d3 := 0 } }
    KDis := { Leaf := { d0 := 0, d1 := 0, d2 := 22, d3 := 0 } }
    KReen := { Leaf := { d0 := 0, d1 := 0, d2 := 23, d3 := 0 } }
    KUpdateRoot := { Leaf := { d0 := 0, d1 := 0, d2 := 24, d3 := 0 } } }

/-- The tree after the first run of `LoadGenesis` added `genesisClaims` to it. -/
def genesisTree : MerkleTree :=
  { leaves := [genesisClaims.KUpdateRoot.Leaf, genesisClaims.KReen.Leaf,
      genesisClaims.KDis.Leaf, genesisClaims.KOp.Leaf]
    maxLevels := 140 }

/-- A first start of the server: the storage is empty. -/
def genesisFirstRun : GenesisEnv :=
  { hs := pairHasher
    Id := userId
    CalculateIdGenesis := (userId, genesisClaims)
    NewLevelDbStorage := .ok ()
    NewMerkleTree := .ok (MerkleTree.empty 140)
    StorageList := .ok 0 }

/-- A later start of the server: the storage holds the tree of the first run. -/
def genesisSecondRun : GenesisEnv :=
  { hs := pairHasher
    Id := userId
    CalculateIdGenesis := (userId, genesisClaims)
    NewLevelDbStorage := .ok ()
    NewMerkleTree := .ok genesisTree
    StorageList := .ok 1 }

/-- The identity of the tests of `core`, by its 31 bytes. -/
def testId : ID :=
  [0x00, 0x00, 0x3c, 0xc1, 0xc9, 0x68, 0xfa] ++ List.replicate 22 0x00 ++ [0x03, 0x28]

/-- The claim of the test `TestClaimLinkObjectIdentity`: the test's identity, object
hash and auxiliary data, at version 1. -/
def testClaimLinkObjectIdentity : ClaimLinkObjectIdentity :=
  { NewClaimLinkObjectIdentity ObjectTypeAddress 0 testId
      (List.replicate 31 0x0b ++ [0x0c])
      [0x00, 0x01, 0x02, 0x03, 0x04, 0x05, 0x06, 0x07, 0x08, 0x09, 0x0a, 0x0b, 0x0c, 0x0d,
        0x0e, 0x0f, 0x01, 0x02, 0x03, 0x04, 0x05, 0x06, 0x07, 0x09, 0x0a, 0x0b, 0x0c, 0x0d,
        0x0e, 0x0f, 0x01, 0x02] with
    Version := 1 }

/-- Three rounds in which `SetRoot` is only called with the root 5. -/
def roundsFive : List (List Hash × Bool) := [([], false), ([5], true), ([5, 5], false)]

/-- A method `AddClaim` that adds the entry to the relay tree and gives the new root
to the root service, as `AddDirectClaim` does. -/
def addClaimDirect (cs : ServiceImpl) (e : Data) : Option Error × ServiceImpl :=
  match cs.mt.Add pairHasher e with
  | .error err => (some err, cs)
  | .ok mt => (none, { cs with mt := mt, rootsrv := cs.rootsrv.SetRoot (mt.RootKey pairHasher) })

/-- A service whose relay tree holds `keyLeaf`, the entry of `keyClaim`. -/
def srvKey : ServiceImpl :=
  { mt := userTree, rootsrv := RootService.New, userTrees := [] }

/-- The environment `pairEnv` with another signer, which signs by reversing the
message. -/
def pairEnvReverse : Env := { pairEnv with SignEthMsg := fun msg => .ok msg.reverse }

/-- The basic claim of `basicV0` at the last version a `uint32` holds. -/
def basicMax : ClaimBasic := { Version := 2 ^ 32 - 1, IndexSlot := 9, DataSlot := 4 }

/-- A relay tree that holds the basic claim at its last version and at version 0. -/
def treeWrap : MerkleTree := { leaves := [basicV0.Entry, basicMax.Entry], maxLevels := 140 }

/-- The view of the relay tree, as `LoadMerkele` opens it. -/
def relayStorage : Storage := Storage.WithPrefix { pre := [] } dbMerkletreePrefix

/-- An identity of 20 bytes. -/
def addrOne : ID := List.replicate 19 0 ++ [1]

/-- Another identity of 20 bytes. -/
def addrTwo : ID := List.replicate 19 0 ++ [2]

/-- A batch of writes of a tree: a node under its hash, then the root. -/
def treeBatch : List (List Nat × List Nat) :=
  [(List.replicate 32 7, [1, 2, 3]), (rootNodeValue, List.replicate 32 7)]

/-- A database in which the relay tree and the sub-tree of `addrTwo` have a root. -/
def storeTwo : Store :=
  [(dbMerkletreePrefix ++ addrTwo ++ rootNodeValue, List.replicate 32 5),
    (dbMerkletreePrefix ++ rootNodeValue, List.replicate 32 6)]

/-- A stand-in for the curve: a key is a number below `2^256` and a parity; it is
compressed to a byte 2 or 3 and the 32 bytes of the number. -/
def toySecp : Secp :=
  { CompressPubkey := fun pk => (2 + pk.2 % 2) :: beBytes 32 pk.1
    DecompressPubkey := fun bs =>
      match bs with
      | [] => .error 1
      | t :: rest =>
        if (t = 2 ∨ t = 3) ∧ rest.length = 32 then .ok (beNat rest, t - 2) else .error 1 }

/-- A counterfactual with five addresses of 20 bytes and a key of `toySecp`. -/
def testCounterfactual : Counterfactual :=
  { Operational := List.replicate 20 1
    OperationalPk := some (77, 1)
    Relayer := List.replicate 20 2
    Recoverer := List.replicate 20 3
    Revokator := List.replicate 20 4
    Impl := List.replicate 20 5 }

/-- The zero value of `Counterfactual`. -/
def zeroCounterfactual : Counterfactual :=
  { Operational := List.replicate 20 0
    OperationalPk := none
    Relayer := List.replicate 20 0
    Recoverer := List.replicate 20 0
    Revokator := List.replicate 20 0
    Impl := List.replicate 20 0 }

/-- The 133 bytes of `testCounterfactual`. -/
def testEncoded : List Nat :=
  List.replicate 20 1 ++ (3 :: beBytes 32 77) ++ List.replicate 20 2 ++ List.replicate 20 3
    ++ List.replicate 20 4 ++ List.replicate 20 5

/-- The publisher after a run that published the root 5: it holds that root. -/
def publisherHeld : Publisher := { lastRoot := 5, updated := [5] }

/-- Two rounds in which `SetRoot` is only called with the root 9. -/
def roundsNine : List (List Hash × Bool) := [([9], true), ([], false)]

/-! # Theorems -/

/-! ## The claim header -/

theorem getClaimTypeVersion_set (d : Data) (t v : Nat) :
    GetClaimTypeVersionFromData (SetClaimTypeVersionInData d t v) = (t % 2 ^ 64, v % 2 ^ 32) := by
  simp only [GetClaimTypeVersionFromData, SetClaimTypeVersionInData, Prod.mk.injEq]
  constructor <;> omega

theorem version_withVersion (d : Data) (v : Nat) : (d.withVersion v).version = v % 2 ^ 32 := by
  simp [Data.version, Data.withVersion, getClaimTypeVersion_set]

theorem withVersion_mod (d : Data) (v : Nat) : d.withVersion (v % 2 ^ 32) = d.withVersion v := by
  simp [Data.withVersion, SetClaimTypeVersionInData]

theorem withVersion_withVersion (d : Data) (v w : Nat) :
    (d.withVersion v).withVersion w = d.withVersion w := by
  cases d
  simp only [Data.withVersion, SetClaimTypeVersionInData, GetClaimTypeVersionFromData,
    Data.mk.injEq, true_and]
  omega

theorem withVersion_version (d : Data) : d.withVersion d.version = d := by
  cases d
  simp only [Data.withVersion, Data.version, SetClaimTypeVersionInData,
    GetClaimTypeVersionFromData, Data.mk.injEq, true_and]
  omega

/-- The entry of the claim of `TestClaimSetRootKey` has the bytes the test expects: an
empty slot, the root key, a zero byte and the id, and a header that ends with the era,
the version and the claim type. -/
theorem claimSetRootKey_entry_testVector :
    testClaimSetRootKey.Entry.Bytes =
      List.replicate 32 0x00
        ++ (List.replicate 31 0x0b ++ [0x0c])
        ++ ([0x00, 0x00, 0x00, 0x3c, 0xc1, 0xc9, 0x68, 0xfa] ++ List.replicate 22 0x00
            ++ [0x03, 0x28])
        ++ (List.replicate 16 0x00 ++ [0, 0, 0, 1] ++ [0, 0, 0, 1]
            ++ [0, 0, 0, 0, 0, 0, 0, 2]) := by
  decide

/-! ## The walk of the tree -/

theorem samePath_eq_false_iff (n : Nat) (a b : Hash) :
    MerkleTree.samePath n a b = false ↔ ∃ i, 0 ≤ i ∧ i < 0 + n ∧ pathBit a i ≠ pathBit b i := by
  simp [MerkleTree.samePath, List.all_eq_false]

theorem samePath_eq_true_iff (n : Nat) (a b : Hash) :
    MerkleTree.samePath n a b = true ↔ ∀ i, i < n → pathBit a i = pathBit b i := by
  simp [MerkleTree.samePath, List.all_eq_true]

theorem wf_iff_separated (hs : Hasher) (mt : MerkleTree) :
    mt.WF hs ↔ Separated hs mt.maxLevels 0 mt.leaves := by
  unfold MerkleTree.WF Separated
  constructor
  · intro h
    exact h.imp (fun {a b} hab => (samePath_eq_false_iff _ _ _).1 hab)
  · intro h
    exact h.imp (fun {a b} hab => (samePath_eq_false_iff _ _ _).2 hab)

theorem separated_filter (hs : Hasher) (n lvl : Nat) (b : Bool) (ls : List Data)
    (h : Separated hs (n + 1) lvl ls) :
    Separated hs n (lvl + 1) (ls.filter (fun d => pathBit (hs.hIndex d) lvl == b)) := by
  unfold Separated at *
  refine (h.filter _).imp_of_mem ?_
  intro x y hx hy hxy
  obtain ⟨i, h1, h2, h3⟩ := hxy
  have hxb : pathBit (hs.hIndex x) lvl = b := by simpa using (List.mem_filter.1 hx).2
  have hyb : pathBit (hs.hIndex y) lvl = b := by simpa using (List.mem_filter.1 hy).2
  have hne : i ≠ lvl := by
    intro hi
    subst hi
    exact h3 (hxb.trans hyb.symm)
  exact ⟨i, by omega, by omega, h3⟩

theorem separated_sameSide (hs : Hasher) (n lvl : Nat) (hi : Hash) (ls : List Data)
    (h : Separated hs (n + 1) lvl ls) : Separated hs n (lvl + 1) (sameSide hs lvl hi ls) :=
  separated_filter hs n lvl (pathBit hi lvl) ls h

theorem separated_onSide (hs : Hasher) (n lvl : Nat) (b : Bool) (ls : List Data)
    (h : Separated hs (n + 1) lvl ls) : Separated hs n (lvl + 1) (onSide hs lvl b ls) :=
  separated_filter hs n lvl b ls h

theorem not_separated_zero (hs : Hasher) (lvl : Nat) (x y : Data) (ls : List Data) :
    ¬ Separated hs 0 lvl (x :: y :: ls) := by
  intro h
  unfold Separated at h
  obtain ⟨i, h1, h2, _⟩ := (List.pairwise_cons.1 h).1 y (List.mem_cons_self _ _)
  omega

theorem walk_mem (hs : Hasher) (n : Nat) :
    ∀ (lvl : Nat) (ls : List Data) (hi : Hash) (d : Data),
      walk hs n lvl ls hi = some d → d ∈ ls := by
  induction n with
  | zero =>
    intro lvl ls hi d h
    match ls, h with
    | [x], h =>
      simp only [walk, Option.some.injEq] at h
      simp [h]
  | succ n ih =>
    intro lvl ls hi d h
    match ls, h with
    | [x], h =>
      simp only [walk, Option.some.injEq] at h
      simp [h]
    | x :: y :: r, h =>
      simp only [walk] at h
      have := ih _ _ _ _ h
      exact (List.mem_filter.1 this).1

theorem walk_of_mem (hs : Hasher) (n : Nat) :
    ∀ (lvl : Nat) (ls : List Data) (hi : Hash) (d : Data),
      Separated hs n lvl ls → d ∈ ls →
      (∀ i, lvl ≤ i → i < lvl + n → pathBit (hs.hIndex d) i = pathBit hi i) →
      walk hs n lvl ls hi = some d := by
  induction n with
  | zero =>
    intro lvl ls hi d hsep hd _
    match ls, hsep, hd with
    | [x], _, hd =>
      simp only [List.mem_singleton] at hd
      simp [walk, hd]
    | x :: y :: r, hsep, _ => exact absurd hsep (not_separated_zero hs lvl x y r)
  | succ n ih =>
    intro lvl ls hi d hsep hd hpath
    match ls, hsep, hd with
    | [x], _, hd =>
      simp only [List.mem_singleton] at hd
      simp [walk, hd]
    | x :: y :: r, hsep, hd =>
      simp only [walk]
      refine ih _ _ _ _ (separated_sameSide hs n lvl hi _ hsep) ?_ ?_
      · refine List.mem_filter.2 ⟨hd, ?_⟩
        simpa using hpath lvl (le_refl _) (by omega)
      · intro i h1 h2
        exact hpath i (by omega) (by omega)

theorem getDataByIndex_ok (hs : Hasher) (mt : MerkleTree) (hi : Hash) (d : Data)
    (h : mt.GetDataByIndex hs hi = .ok d) : d ∈ mt.leaves ∧ hs.hIndex d = hi := by
  unfold MerkleTree.GetDataByIndex at h
  split at h
  · rename_i d' hw
    split at h
    · rename_i heq
      injection h with h
      subst h
      exact ⟨walk_mem hs _ _ _ _ _ hw, heq⟩
    · cases h
  · cases h

theorem getDataByIndex_error (hs : Hasher) (mt : MerkleTree) (hi : Hash) (err : Error)
    (h : mt.GetDataByIndex hs hi = .error err) : err = .ErrEntryIndexNotFound := by
  unfold MerkleTree.GetDataByIndex at h
  split at h
  · split at h
    · cases h
    · injection h with h
      exact h.symm
  · injection h with h
    exact h.symm

theorem not_has_iff (hs : Hasher) (mt : MerkleTree) (hi : Hash) :
    ¬ mt.Has hs hi ↔ mt.GetDataByIndex hs hi = .error .ErrEntryIndexNotFound := by
  unfold MerkleTree.Has
  constructor
  · intro h
    cases hg : mt.GetDataByIndex hs hi with
    | ok d => exact absurd ⟨d, hg⟩ h
    | error err => rw [getDataByIndex_error hs mt hi err hg]
  · rintro h ⟨d, hd⟩
    rw [h] at hd
    cases hd

theorem generateProof_existence (hs : Hasher) (mt : MerkleTree) (hi : Hash) :
    ∃ proof, mt.GenerateProof hs hi = .ok proof ∧ (proof.Existence = true ↔ mt.Has hs hi) := by
  unfold MerkleTree.GenerateProof MerkleTree.Has MerkleTree.GetDataByIndex
  cases hw : walk hs mt.maxLevels 0 mt.leaves hi with
  | none => exact ⟨_, rfl, by simp⟩
  | some d =>
    by_cases hd : hs.hIndex d = hi
    · simp only [hd, if_true]
      exact ⟨_, rfl, by simp⟩
    · simp only [hd, if_false]
      exact ⟨_, rfl, by simp⟩

theorem add_ok_leaves (hs : Hasher) (mt mt' : MerkleTree) (e : Data)
    (h : mt.Add hs e = .ok mt') : mt' = { mt with leaves := e :: mt.leaves } := by
  unfold MerkleTree.Add at h
  split at h
  · split at h
    · cases h
    · split at h
      · cases h
      · injection h with h
        exact h.symm
  · injection h with h
    exact h.symm

theorem add_ok_fresh (hs : Hasher) (mt mt' : MerkleTree) (e : Data) (hwf : mt.WF hs)
    (h : mt.Add hs e = .ok mt') :
    ∀ d, d ∈ mt.leaves → MerkleTree.samePath mt.maxLevels (hs.hIndex e) (hs.hIndex d) = false := by
  intro d hd
  by_contra hne
  have hsame : MerkleTree.samePath mt.maxLevels (hs.hIndex e) (hs.hIndex d) = true := by
    simpa using hne
  rw [samePath_eq_true_iff] at hsame
  have hw : walk hs mt.maxLevels 0 mt.leaves (hs.hIndex e) = some d :=
    walk_of_mem hs _ _ _ _ _ ((wf_iff_separated hs mt).1 hwf) hd
      (fun i _ h2 => (hsame i (by omega)).symm)
  have hsame' : MerkleTree.samePath mt.maxLevels (hs.hIndex d) (hs.hIndex e) = true := by
    rw [samePath_eq_true_iff]
    exact fun i hi => (hsame i hi).symm
  unfold MerkleTree.Add at h
  rw [hw] at h
  simp only [hsame', if_true] at h
  split at h <;> cases h

theorem add_ok_wf (hs : Hasher) (mt mt' : MerkleTree) (e : Data) (hwf : mt.WF hs)
    (h : mt.Add hs e = .ok mt') : mt'.WF hs := by
  have hfresh := add_ok_fresh hs mt mt' e hwf h
  rw [add_ok_leaves hs mt mt' e h]
  unfold MerkleTree.WF at *
  exact List.pairwise_cons.2 ⟨hfresh, hwf⟩

theorem add_ok_get (hs : Hasher) (mt mt' : MerkleTree) (e : Data) (hwf : mt.WF hs)
    (h : mt.Add hs e = .ok mt') : mt'.GetDataByIndex hs (hs.hIndex e) = .ok e := by
  have hwf' := (wf_iff_separated hs mt').1 (add_ok_wf hs mt mt' e hwf h)
  have hmem : e ∈ mt'.leaves := by
    rw [add_ok_leaves hs mt mt' e h]
    exact List.mem_cons_self _ _
  unfold MerkleTree.GetDataByIndex
  rw [walk_of_mem hs _ _ _ _ _ hwf' hmem (fun _ _ _ => rfl)]
  simp

theorem nodeHash_cons_ne (hs : Hasher) (hid : hs.Ideal) (n : Nat) :
    ∀ (lvl : Nat) (ls : List Data) (e : Data), Separated hs n lvl (e :: ls) →
      nodeHash hs n lvl (e :: ls) ≠ nodeHash hs n lvl ls := by
  induction n with
  | zero =>
    intro lvl ls e hsep
    match ls, hsep with
    | [], _ =>
      simp only [nodeHash]
      exact hid.leaf_ne_empty _ _
    | x :: r, hsep => exact absurd hsep (not_separated_zero hs lvl e x r)
  | succ n ih =>
    intro lvl ls e hsep
    match ls, hsep with
    | [], _ =>
      simp only [nodeHash]
      exact hid.leaf_ne_empty _ _
    | [x], _ =>
      simp only [nodeHash]
      exact hid.mid_ne_leaf _ _ _ _
    | x :: y :: r, hsep =>
      simp only [nodeHash]
      intro heq
      obtain ⟨hl, hr⟩ := hid.mid_inj _ _ _ _ heq
      cases hb : pathBit (hs.hIndex e) lvl with
      | false =>
        have hside := separated_onSide hs n lvl false _ hsep
        have hcons : onSide hs lvl false (e :: x :: y :: r)
            = e :: onSide hs lvl false (x :: y :: r) := by
          simp [onSide, List.filter_cons, hb]
        rw [hcons] at hside hl
        exact ih _ _ _ hside hl
      | true =>
        have hside := separated_onSide hs n lvl true _ hsep
        have hcons : onSide hs lvl true (e :: x :: y :: r)
            = e :: onSide hs lvl true (x :: y :: r) := by
          simp [onSide, List.filter_cons, hb]
        rw [hcons] at hside hr
        exact ih _ _ _ hside hr

theorem add_ok_rootKey_ne (hs : Hasher) (hid : hs.Ideal) (mt mt' : MerkleTree) (e : Data)
    (hwf : mt.WF hs) (h : mt.Add hs e = .ok mt') : mt'.RootKey hs ≠ mt.RootKey hs := by
  have hwf' := (wf_iff_separated hs mt').1 (add_ok_wf hs mt mt' e hwf h)
  rw [add_ok_leaves hs mt mt' e h] at hwf' ⊢
  exact nodeHash_cons_ne hs hid _ _ _ _ hwf'

/-! ## `GetNextVersion` -/

theorem loop_stop (hs : Hasher) (mt : MerkleTree) (fuel : Nat) (hi : Hash) (v : Nat)
    (h : ¬ mt.Has hs hi) : GetNextVersionLoop hs mt (fuel + 1) hi v = some (.ok v) := by
  rw [not_has_iff] at h
  simp [GetNextVersionLoop, h]

theorem loop_step (hs : Hasher) (mt : MerkleTree) (d : Data) (hc : ChainSound hs mt d)
    (fuel j v : Nat) (hj : j < 2 ^ 32) (h : mt.Has hs (hs.hIndex (d.withVersion j))) :
    GetNextVersionLoop hs mt (fuel + 1) (hs.hIndex (d.withVersion j)) v
      = GetNextVersionLoop hs mt fuel (hs.hIndex (d.withVersion ((j + 1) % 2 ^ 32)))
          ((j + 1) % 2 ^ 32) := by
  obtain ⟨leaf, hleaf⟩ := h
  obtain ⟨hv, hidx⟩ := hc j leaf hj hleaf
  have hv' : (GetClaimTypeVersionFromData leaf).2 = j := hv
  have hnext : SetClaimTypeVersionInData leaf (GetClaimTypeVersionFromData leaf).1
      ((j + 1) % 2 ^ 32) = leaf.withVersion (j + 1) := by
    rw [← withVersion_mod leaf (j + 1)]
    rfl
  simp only [GetNextVersionLoop, hleaf, hv', hnext, hidx, withVersion_mod]

theorem loop_returns (hs : Hasher) (mt : MerkleTree) (d : Data) (hc : ChainSound hs mt d)
    (k : Nat) (hk : k < 2 ^ 32) (hspec : NextVersionIs hs mt d k) :
    ∀ (fuel j : Nat), j ≤ k → k - j < fuel →
      GetNextVersionLoop hs mt fuel (hs.hIndex (d.withVersion j)) j = some (.ok k) := by
  intro fuel
  induction fuel with
  | zero => intro j _ h; omega
  | succ fuel ih =>
    intro j hjk hfuel
    by_cases hj : j = k
    · subst hj
      exact loop_stop hs mt fuel _ _ hspec.2
    · have hlt : j < k := by omega
      rw [loop_step hs mt d hc fuel j j (by omega) (hspec.1 j hlt)]
      have hmod : (j + 1) % 2 ^ 32 = j + 1 := Nat.mod_eq_of_lt (by omega)
      rw [hmod]
      exact ih (j + 1) (by omega) (by omega)

theorem loop_result_absent (hs : Hasher) (mt : MerkleTree) (d : Data)
    (hc : ChainSound hs mt d) :
    ∀ (fuel j r : Nat), j < 2 ^ 32 →
      GetNextVersionLoop hs mt fuel (hs.hIndex (d.withVersion j)) j = some (.ok r) →
      ¬ mt.Has hs (hs.hIndex (d.withVersion r)) := by
  intro fuel
  induction fuel with
  | zero => intro j r _ h; simp [GetNextVersionLoop] at h
  | succ fuel ih =>
    intro j r hj h
    by_cases hhas : mt.Has hs (hs.hIndex (d.withVersion j))
    · rw [loop_step hs mt d hc fuel j j hj hhas] at h
      exact ih _ r (Nat.mod_lt _ (by norm_num)) h
    · rw [loop_stop hs mt fuel _ _ hhas] at h
      simp only [Option.some.injEq, Except.ok.injEq] at h
      subst h
      exact hhas

theorem loop_result_below (hs : Hasher) (mt : MerkleTree) (d : Data)
    (hc : ChainSound hs mt d) (k : Nat) (hk : k < 2 ^ 32) :
    ∀ (fuel j : Nat), j ≤ k →
      GetNextVersionLoop hs mt fuel (hs.hIndex (d.withVersion j)) j = some (.ok k) →
      ∀ i, j ≤ i → i < k → mt.Has hs (hs.hIndex (d.withVersion i)) := by
  intro fuel
  induction fuel with
  | zero => intro j _ h; simp [GetNextVersionLoop] at h
  | succ fuel ih =>
    intro j hjk h i hji hik
    have habs := loop_result_absent hs mt d hc (fuel + 1) j k (by omega) h
    by_cases hhas : mt.Has hs (hs.hIndex (d.withVersion j))
    · have hne : j ≠ k := by
        intro hjk'
        subst hjk'
        exact habs hhas
      rw [loop_step hs mt d hc fuel j j (by omega) hhas] at h
      have hmod : (j + 1) % 2 ^ 32 = j + 1 := Nat.mod_eq_of_lt (by omega)
      rw [hmod] at h
      by_cases hij : i = j
      · subst hij
        exact hhas
      · exact ih (j + 1) (by omega) h i (by omega) hik
    · rw [loop_stop hs mt fuel _ _ hhas] at h
      simp only [Option.some.injEq, Except.ok.injEq] at h
      omega

theorem getNextVersion_never_fails (hs : Hasher) (mt : MerkleTree) :
    ∀ (fuel : Nat) (hi : Hash) (v : Nat) (err : Error),
      GetNextVersionLoop hs mt fuel hi v ≠ some (.error err) := by
  intro fuel
  induction fuel with
  | zero => intro hi v err h; simp [GetNextVersionLoop] at h
  | succ fuel ih =>
    intro hi v err h
    unfold GetNextVersionLoop at h
    cases hg : mt.GetDataByIndex hs hi with
    | ok leaf =>
      rw [hg] at h
      exact ih _ _ _ h
    | error e =>
      rw [hg, getDataByIndex_error hs mt hi e hg] at h
      simp at h

/-- Why the index hash is a parameter that has to read the header: with an index hash
that ignores the header of the leaf, the loop of `GetNextVersion` comes back to the
same index for ever, whatever the fuel, as soon as the index it starts from is in the
tree. -/
theorem getNextVersion_diverges (hs : Hasher) (mt : MerkleTree)
    (hignore : ∀ d t v, hs.hIndex (SetClaimTypeVersionInData d t v) = hs.hIndex d) :
    ∀ (fuel : Nat) (hi : Hash) (v : Nat), mt.Has hs hi →
      GetNextVersionLoop hs mt fuel hi v = none := by
  intro fuel
  induction fuel with
  | zero => intro hi v _; rfl
  | succ fuel ih =>
    intro hi v hhas
    obtain ⟨leaf, hleaf⟩ := hhas
    have hidx := (getDataByIndex_ok hs mt hi leaf hleaf).2
    simp only [GetNextVersionLoop, hleaf, hignore, hidx]
    exact ih hi _ ⟨leaf, hleaf⟩

theorem empty_wf (hs : Hasher) (maxLevels : Nat) : (MerkleTree.empty maxLevels).WF hs := by
  simp [MerkleTree.WF, MerkleTree.empty]

/-- With `pairHasher` every tree is sound for every claim: an index fixes the slots
2 and 3 of the leaf, the header among them. -/
theorem pairHasher_chainSound (mt : MerkleTree) (d : Data) : ChainSound pairHasher mt d := by
  intro j leaf hj hget
  obtain ⟨_, hidx⟩ := getDataByIndex_ok pairHasher mt _ leaf hget
  have hpair : leaf.d2 = (d.withVersion j).d2 ∧ leaf.d3 = (d.withVersion j).d3 :=
    Nat.pair_eq_pair.1 hidx
  have hver : leaf.version = (d.withVersion j).version := by
    simp only [Data.version, GetClaimTypeVersionFromData, hpair.2]
  have hnext : ∀ v, pairHasher.hIndex (leaf.withVersion v)
      = pairHasher.hIndex ((d.withVersion j).withVersion v) := by
    intro v
    simp only [pairHasher, Data.withVersion, SetClaimTypeVersionInData,
      GetClaimTypeVersionFromData, hpair.1, hpair.2]
  refine ⟨?_, ?_⟩
  · rw [hver, version_withVersion]
    exact Nat.mod_eq_of_lt hj
  · rw [hnext, withVersion_withVersion]

theorem loop_result_lt (hs : Hasher) (mt : MerkleTree) :
    ∀ (fuel : Nat) (hi : Hash) (v r : Nat),
      GetNextVersionLoop hs mt fuel hi v = some (.ok r) → r = v ∨ r < 2 ^ 32 := by
  intro fuel
  induction fuel with
  | zero => intro hi v r h; simp [GetNextVersionLoop] at h
  | succ fuel ih =>
    intro hi v r h
    unfold GetNextVersionLoop at h
    cases hg : mt.GetDataByIndex hs hi with
    | ok leaf =>
      rw [hg] at h
      rcases ih _ _ _ h with h1 | h1
      · right
        rw [h1]
        exact Nat.mod_lt _ (by norm_num)
      · exact Or.inr h1
    | error e =>
      rw [hg, getDataByIndex_error hs mt hi e hg] at h
      simp only [Option.some.injEq, Except.ok.injEq] at h
      exact Or.inl h.symm

theorem nextVersionIs_lt (hs : Hasher) (mt : MerkleTree) (d : Data) (k : Nat)
    (h : NextVersionIs hs mt d k) : k < 2 ^ 32 := by
  by_contra hk
  have hlt : k % 2 ^ 32 < k := lt_of_lt_of_le (Nat.mod_lt _ (by norm_num)) (by omega)
  have hhas := h.1 _ hlt
  rw [withVersion_mod] at hhas
  exact h.2 hhas

/-- C1, as amended: when the index handed to `GetNextVersion` is that of version 0 of
a claim, and the leaves at the indexes of the claim's versions are versions of that
claim, the call returns `k` (for any fuel above `k`) if and only if the versions
`0..k-1` of the claim are in the tree at their indexes and version `k` is not. -/
theorem getNextVersion_eq_iff (hs : Hasher) (mt : MerkleTree) (d : Data) (k fuel : Nat)
    (hfuel : k < fuel) (hc : ChainSound hs mt d) :
    GetNextVersion hs mt fuel (hs.hIndex (d.withVersion 0)) = some (.ok k)
      ↔ NextVersionIs hs mt d k := by
  unfold GetNextVersion
  constructor
  · intro h
    have hk : k < 2 ^ 32 := by
      rcases loop_result_lt hs mt fuel _ 0 k h with h0 | h0
      · rw [h0]
        norm_num
      · exact h0
    refine ⟨fun j hj => ?_, ?_⟩
    · exact loop_result_below hs mt d hc k hk fuel 0 (Nat.zero_le _) h j (Nat.zero_le _) hj
    · exact loop_result_absent hs mt d hc fuel 0 k (by norm_num) h
  · intro h
    exact loop_returns hs mt d hc k (nextVersionIs_lt hs mt d k h) h fuel 0 (Nat.zero_le _)
      (by omega)

/-- The amended C1 at the tree that holds version 0 of a name claim: the next version
is 1. -/
theorem getNextVersion_eq_iff_witness :
    (1 < 2 ∧ ChainSound pairHasher treeV0 nameV0.Entry) ∧
      (GetNextVersion pairHasher treeV0 2 (pairHasher.hIndex (nameV0.Entry.withVersion 0))
          = some (.ok 1)
        ↔ NextVersionIs pairHasher treeV0 nameV0.Entry 1) :=
  ⟨⟨by norm_num, pairHasher_chainSound treeV0 nameV0.Entry⟩,
    getNextVersion_eq_iff pairHasher treeV0 nameV0.Entry 1 2 (by norm_num)
      (pairHasher_chainSound treeV0 nameV0.Entry)⟩

/-- C1 fails as stated: in the tree that holds version 0 of the name claim, the
versions `0..0` are present and version 1 is not, yet `GetNextVersion` at the index of
the claim with its version field at 1 never returns 1 (it returns 0). -/
theorem getNextVersion_counterexample :
    ¬ ((∃ fuel, GetNextVersion pairHasher treeV0 fuel (pairHasher.hIndex nameV1.Entry)
          = some (.ok 1))
        ↔ NextVersionIs pairHasher treeV0 nameV1.Entry 1) := by
  intro h
  have hspec : NextVersionIs pairHasher treeV0 nameV1.Entry 1 := by
    refine ⟨fun j hj => ?_, ?_⟩
    · have hj0 : j = 0 := by omega
      subst hj0
      exact ⟨nameV0.Entry, rfl⟩
    · rw [not_has_iff]
      rfl
  obtain ⟨fuel, hfuel⟩ := h.2 hspec
  cases fuel with
  | zero => simp [GetNextVersion, GetNextVersionLoop] at hfuel
  | succ n =>
    have h0 : GetNextVersion pairHasher treeV0 (n + 1) (pairHasher.hIndex nameV1.Entry)
        = some (.ok 0) := rfl
    rw [h0] at hfuel
    simp at hfuel

/-! ## Proofs of claims -/

theorem snapshot_current (hs : Hasher) (mt : MerkleTree) :
    mt.Snapshot hs (mt.RootKey hs) = .ok mt := by
  simp [MerkleTree.Snapshot]

theorem signBytesDate_ne_revoked (env : Env) (now : Nat) (msg : List Nat) :
    SignBytesDate env now msg ≠ .error .ErrRevokedClaim := by
  unfold SignBytesDate
  split <;> simp

theorem getNonRevocationMTProof_revoked_iff (hs : Hasher) (mt : MerkleTree) (leaf : Data)
    (hi : Hash) :
    getNonRevocationMTProof hs mt leaf hi = .error .ErrRevokedClaim
      ↔ mt.Has hs (hs.hIndex (leaf.withVersion (leaf.version + 1))) := by
  have hnext : SetClaimTypeVersionInData leaf (GetClaimTypeVersionFromData leaf).1
      (((GetClaimTypeVersionFromData leaf).2 + 1) % 2 ^ 32)
      = leaf.withVersion (leaf.version + 1) := by
    rw [← withVersion_mod leaf (leaf.version + 1)]
    rfl
  obtain ⟨proof, hproof, hex⟩ :=
    generateProof_existence hs mt (hs.hIndex (leaf.withVersion (leaf.version + 1)))
  simp only [getNonRevocationMTProof, hnext, hproof]
  rw [← hex]
  cases proof.Existence <;> simp

theorem getNonRevocationMTProof_error (hs : Hasher) (mt : MerkleTree) (leaf : Data)
    (hi : Hash) (err : Error) (h : getNonRevocationMTProof hs mt leaf hi = .error err) :
    err = .ErrRevokedClaim := by
  obtain ⟨proof, hproof, _⟩ := generateProof_existence hs mt
    (hs.hIndex (SetClaimTypeVersionInData leaf (GetClaimTypeVersionFromData leaf).1
      (((GetClaimTypeVersionFromData leaf).2 + 1) % 2 ^ 32)))
  simp only [getNonRevocationMTProof, hproof] at h
  split at h
  · injection h with h
    exact h.symm
  · cases h

/-- C2: when the relay tree holds a leaf at `hi` with header version `v`,
`GetClaimProofByHi(hi)` fails with `ErrRevokedClaim` exactly when the tree holds a
leaf at the index of the same data with header version `v + 1`, that is, exactly when
the proof generated for that index is an existence proof. -/
theorem getClaimProofByHi_revoked_iff (env : Env) (now : Nat) (cs : ServiceImpl) (hi : Hash)
    (leaf : Data) (v : Nat) (hleaf : cs.mt.GetDataByIndex env.hs hi = .ok leaf)
    (hv : leaf.version = v) :
    (cs.GetClaimProofByHi env now hi = .error .ErrRevokedClaim
        ↔ cs.mt.Has env.hs (env.hs.hIndex (leaf.withVersion (v + 1)))) ∧
      (cs.GetClaimProofByHi env now hi = .error .ErrRevokedClaim
        ↔ ∃ proof, cs.mt.GenerateProof env.hs (env.hs.hIndex (leaf.withVersion (v + 1)))
            = .ok proof ∧ proof.Existence = true) := by
  subst hv
  obtain ⟨mtp0, hmtp0, _⟩ := generateProof_existence env.hs cs.mt hi
  obtain ⟨mtp1, hmtp1, hex⟩ := generateProof_existence env.hs cs.mt
    (env.hs.hIndex (leaf.withVersion (leaf.version + 1)))
  have hrev := getNonRevocationMTProof_revoked_iff env.hs cs.mt leaf hi
  have hmain : cs.GetClaimProofByHi env now hi = .error .ErrRevokedClaim
      ↔ cs.mt.Has env.hs (env.hs.hIndex (leaf.withVersion (leaf.version + 1))) := by
    rw [← hrev]
    simp only [ServiceImpl.GetClaimProofByHi, snapshot_current, hleaf, hmtp0]
    cases hnr : getNonRevocationMTProof env.hs cs.mt leaf hi with
    | error err =>
      have := getNonRevocationMTProof_error env.hs cs.mt leaf hi err hnr
      subst this
      simp
    | ok mtp =>
      simp only
      cases hsig : SignBytesDate env now (Hash.Bytes (cs.mt.RootKey env.hs)) with
      | error err =>
        have hne := signBytesDate_ne_revoked env now (Hash.Bytes (cs.mt.RootKey env.hs))
        rw [hsig] at hne
        have herr : err ≠ .ErrRevokedClaim := fun he => hne (by rw [he])
        simp [herr]
      | ok r => simp
  refine ⟨hmain, ?_⟩
  rw [hmain, ← hex, hmtp1]
  simp

theorem getClaimProofByHi_partials (env : Env) (now : Nat) (cs : ServiceImpl) (hi : Hash)
    (p : ProofOfClaim) (h : cs.GetClaimProofByHi env now hi = .ok p) :
    ∃ q, p.Proofs = [q] ∧ q.Aux = none ∧ q.Root = cs.mt.RootKey env.hs := by
  simp only [ServiceImpl.GetClaimProofByHi, snapshot_current] at h
  split at h
  · cases h
  · split at h
    · cases h
    · split at h
      · cases h
      · split at h
        · cases h
        · simp only [Except.ok.injEq] at h
          subst h
          exact ⟨_, rfl, rfl, rfl⟩

/-- C2 at the tree that holds the versions 0 and 1 of a name claim: the proof of
version 0 is refused as revoked. -/
theorem getClaimProofByHi_revoked_iff_witness :
    (srvV01.mt.GetDataByIndex pairEnv.hs (pairHasher.hIndex nameV0.Entry) = .ok nameV0.Entry ∧
        nameV0.Entry.version = 0) ∧
      ((srvV01.GetClaimProofByHi pairEnv 1000 (pairHasher.hIndex nameV0.Entry)
            = .error .ErrRevokedClaim
          ↔ srvV01.mt.Has pairEnv.hs (pairEnv.hs.hIndex (nameV0.Entry.withVersion (0 + 1)))) ∧
        (srvV01.GetClaimProofByHi pairEnv 1000 (pairHasher.hIndex nameV0.Entry)
            = .error .ErrRevokedClaim
          ↔ ∃ proof, srvV01.mt.GenerateProof pairEnv.hs
              (pairEnv.hs.hIndex (nameV0.Entry.withVersion (0 + 1))) = .ok proof ∧
              proof.Existence = true)) :=
  ⟨⟨rfl, rfl⟩,
    getClaimProofByHi_revoked_iff pairEnv 1000 srvV01 (pairHasher.hIndex nameV0.Entry)
      nameV0.Entry 0 rfl rfl⟩

/-- C3: a successful `GetClaimProofByHi(hi)` returns exactly one partial proof, with
no `Aux` and with the root of the relay tree; its leaf is the data the relay tree holds
at `hi`, and its signature and date are those the signer gave for that root. -/
theorem getClaimProofByHi_ok (env : Env) (now : Nat) (cs : ServiceImpl) (hi : Hash)
    (p : ProofOfClaim) (h : cs.GetClaimProofByHi env now hi = .ok p) :
    (∃ q, p.Proofs = [q] ∧ q.Aux = none ∧ q.Root = cs.mt.RootKey env.hs) ∧
      cs.mt.GetDataByIndex env.hs hi = .ok p.Leaf ∧
      SignBytesDate env now (Hash.Bytes (cs.mt.RootKey env.hs)) = .ok (p.Signature, p.Date) := by
  simp only [ServiceImpl.GetClaimProofByHi, snapshot_current] at h
  cases hleaf : cs.mt.GetDataByIndex env.hs hi with
  | error err => simp [hleaf] at h
  | ok leaf =>
    cases hmtp0 : cs.mt.GenerateProof env.hs hi with
    | error err => simp [hleaf, hmtp0] at h
    | ok mtp0 =>
      cases hmtp1 : getNonRevocationMTProof env.hs cs.mt leaf hi with
      | error err => simp [hleaf, hmtp0, hmtp1] at h
      | ok mtp1 =>
        cases hsig : SignBytesDate env now (Hash.Bytes (cs.mt.RootKey env.hs)) with
        | error err => simp [hleaf, hmtp0, hmtp1, hsig] at h
        | ok r =>
          obtain ⟨sig, date⟩ := r
          simp only [hleaf, hmtp0, hmtp1, hsig, Except.ok.injEq] at h
          subst h
          exact ⟨⟨_, rfl, rfl, rfl⟩, rfl, rfl⟩

/-- C3 at the service over the tree that holds one name claim. -/
theorem getClaimProofByHi_ok_witness :
    srvV0.GetClaimProofByHi pairEnv 1000 (pairHasher.hIndex nameV0.Entry) = .ok proofV0 ∧
      ((∃ q, proofV0.Proofs = [q] ∧ q.Aux = none ∧ q.Root = srvV0.mt.RootKey pairEnv.hs) ∧
        srvV0.mt.GetDataByIndex pairEnv.hs (pairHasher.hIndex nameV0.Entry)
          = .ok proofV0.Leaf ∧
        SignBytesDate pairEnv 1000 (Hash.Bytes (srvV0.mt.RootKey pairEnv.hs))
          = .ok (proofV0.Signature, proofV0.Date)) :=
  ⟨rfl, getClaimProofByHi_ok pairEnv 1000 srvV0 (pairHasher.hIndex nameV0.Entry) proofV0 rfl⟩

/-- C4: a successful `GetClaimProofUserByHi(id, hi)` returns two partial proofs, that
of the sub-tree first: it carries the root of the sub-tree and, as `Aux`, the version
of the `ClaimSetRootKey` used, era 0 and the id; the second is the one partial proof
`GetClaimProofByHi` returned for that `ClaimSetRootKey`, with no `Aux`; the leaf is
the data the sub-tree holds at `hi`. -/
theorem getClaimProofUserByHi_ok (env : Env) (fuel now : Nat) (cs : ServiceImpl) (idAddr : ID)
    (hi : Hash) (p : ProofOfClaim)
    (h : cs.GetClaimProofUserByHi env fuel now idAddr hi = some (.ok p)) :
    ∃ userMT version relayProof q mtp0 mtp1,
      cs.NewMerkleTreeUser idAddr 140 = .ok userMT ∧
      GetNextVersion env.hs cs.mt fuel
        (env.hs.hIndex (NewClaimSetRootKey idAddr (userMT.RootKey env.hs)).Entry)
          = some (.ok version) ∧
      cs.GetClaimProofByHi env now
        (env.hs.hIndex
          ({ NewClaimSetRootKey idAddr (userMT.RootKey env.hs) with
              Version := subU32 version 1 } : ClaimSetRootKey).Entry)
          = .ok relayProof ∧
      relayProof.Proofs = [q] ∧ q.Aux = none ∧ q.Root = cs.mt.RootKey env.hs ∧
      p.Proofs =
        [{ Mtp0 := mtp0, Mtp1 := mtp1, Root := userMT.RootKey env.hs,
           Aux := some { Version := subU32 version 1, Era := 0, IdAddr := idAddr } },
          q] ∧
      userMT.GetDataByIndex env.hs hi = .ok p.Leaf := by
  unfold ServiceImpl.GetClaimProofUserByHi at h
  split at h
  · cases h
  · rename_i userMT hopen
    split at h
    · cases h
    · rename_i leaf hleaf
      split at h
      · cases h
      · rename_i mtp0 hmtp0
        split at h
        · cases h
        · rename_i mtp1 hmtp1
          dsimp only at h
          split at h
          · cases h
          · cases h
          · rename_i version hver
            split at h
            · cases h
            · rename_i relayProof hrelay
              obtain ⟨q, hq, haux, hroot⟩ :=
                getClaimProofByHi_partials env now cs _ relayProof hrelay
              split at h
              · cases h
              · rename_i p0 tl hp
                rw [hq] at hp
                simp only [List.cons.injEq] at hp
                obtain ⟨hp0, _⟩ := hp
                subst hp0
                simp only [Option.some.injEq, Except.ok.injEq] at h
                subst h
                exact ⟨userMT, version, relayProof, q, mtp0, mtp1, hopen, hver, hrelay, hq, haux,
                  hroot, rfl, hleaf⟩

/-- C4 at the service that holds a sub-tree with one leaf and, in the relay tree, the
`ClaimSetRootKey` of its root. -/
theorem getClaimProofUserByHi_ok_witness :
    srvUser.GetClaimProofUserByHi pairEnv 3 1000 userId (pairHasher.hIndex keyLeaf)
        = some (.ok proofUser) ∧
      ∃ userMT version relayProof q mtp0 mtp1,
        srvUser.NewMerkleTreeUser userId 140 = .ok userMT ∧
        GetNextVersion pairEnv.hs srvUser.mt 3
          (pairEnv.hs.hIndex (NewClaimSetRootKey userId (userMT.RootKey pairEnv.hs)).Entry)
            = some (.ok version) ∧
        srvUser.GetClaimProofByHi pairEnv 1000
          (pairEnv.hs.hIndex
            ({ NewClaimSetRootKey userId (userMT.RootKey pairEnv.hs) with
                Version := subU32 version 1 } : ClaimSetRootKey).Entry)
            = .ok relayProof ∧
        relayProof.Proofs = [q] ∧ q.Aux = none ∧ q.Root = srvUser.mt.RootKey pairEnv.hs ∧
        proofUser.Proofs =
          [{ Mtp0 := mtp0, Mtp1 := mtp1, Root := userMT.RootKey pairEnv.hs,
             Aux := some { Version := subU32 version 1, Era := 0,
                           IdAddr := userId } },
            q] ∧
        userMT.GetDataByIndex pairEnv.hs (pairHasher.hIndex keyLeaf) = .ok proofUser.Leaf :=
  ⟨rfl, getClaimProofUserByHi_ok pairEnv 3 1000 srvUser userId (pairHasher.hIndex keyLeaf)
    proofUser rfl⟩

/-! ## `GetIdRoot` -/

theorem setRootKey_entry_withVersion (c : ClaimSetRootKey) (v : Nat) :
    c.Entry.withVersion v = ({ c with Version := v } : ClaimSetRootKey).Entry := by
  simp only [ClaimSetRootKey.Entry, Data.withVersion, SetClaimTypeVersionInData,
    GetClaimTypeVersionFromData, ClaimTypeSetRootKey, Data.mk.injEq, true_and]
  omega

/-- What `GetIdRoot` does for an identity the relay knows: when the relay tree holds a
`ClaimSetRootKey` of the identity (`GetNextVersion` gives `k > 0`) and the leaves at
the indexes of its versions are versions of it, `GetIdRoot` returns an existence
proof, that of version `k - 1`. -/
theorem getIdRoot_inclusion (env : Env) (fuel : Nat) (cs : ServiceImpl) (idAddr : ID)
    (userMT : MerkleTree) (k : Nat) (hopen : cs.NewMerkleTreeUser idAddr 140 = .ok userMT)
    (hc : ChainSound env.hs cs.mt (NewClaimSetRootKey idAddr (userMT.RootKey env.hs)).Entry)
    (hver : GetNextVersion env.hs cs.mt fuel
      (env.hs.hIndex (NewClaimSetRootKey idAddr (userMT.RootKey env.hs)).Entry) = some (.ok k))
    (hk : 0 < k) :
    ∃ proof, cs.GetIdRoot env fuel idAddr = some (.ok (userMT.RootKey env.hs, proof)) ∧
      proof.Existence = true ∧
      cs.mt.GenerateProof env.hs
        (env.hs.hIndex ({ NewClaimSetRootKey idAddr (userMT.RootKey env.hs) with
          Version := k - 1 } : ClaimSetRootKey).Entry) = .ok proof := by
  have hentry0 : (NewClaimSetRootKey idAddr (userMT.RootKey env.hs)).Entry.withVersion 0
      = (NewClaimSetRootKey idAddr (userMT.RootKey env.hs)).Entry := by
    rw [setRootKey_entry_withVersion]
    rfl
  have hloop : GetNextVersionLoop env.hs cs.mt fuel
      (env.hs.hIndex ((NewClaimSetRootKey idAddr (userMT.RootKey env.hs)).Entry.withVersion 0)) 0
      = some (.ok k) := by
    rw [hentry0]
    exact hver
  have hk32 : k < 2 ^ 32 := by
    rcases loop_result_lt env.hs cs.mt fuel _ 0 k hloop with h0 | h0
    · omega
    · exact h0
  have hhas := loop_result_below env.hs cs.mt _ hc k hk32 fuel 0 (Nat.zero_le _) hloop (k - 1)
    (Nat.zero_le _) (by omega)
  rw [setRootKey_entry_withVersion] at hhas
  have hsub : subU32 k 1 = k - 1 := by
    unfold subU32
    omega
  obtain ⟨proof, hproof, hex⟩ := generateProof_existence env.hs cs.mt
    (env.hs.hIndex ({ NewClaimSetRootKey idAddr (userMT.RootKey env.hs) with
      Version := k - 1 } : ClaimSetRootKey).Entry)
  refine ⟨proof, ?_, hex.2 hhas, hproof⟩
  simp only [ServiceImpl.GetIdRoot, hopen, hver, hsub, hproof]

/-- C5 fails on the code: for an identity with no `ClaimSetRootKey` in the relay tree,
`GetNextVersion` gives 0, the version asked for wraps to `2 ^ 32 - 1`, and `GetIdRoot`
returns without error a proof of non-existence. -/
theorem getIdRoot_without_setRootKey :
    GetNextVersion pairHasher srvV0.mt 3
        (pairHasher.hIndex
          (NewClaimSetRootKey userId ((MerkleTree.empty 140).RootKey pairHasher)).Entry)
        = some (.ok 0) ∧
      subU32 0 1 = 4294967295 ∧
      ∃ proof, srvV0.GetIdRoot pairEnv 3 userId
          = some (.ok ((MerkleTree.empty 140).RootKey pairHasher, proof)) ∧
        proof.Existence = false :=
  ⟨rfl, rfl, _, rfl, rfl⟩

/-! ## `CommitNewIdRoot` -/

/-- C6: when `CheckKSignInIddb` is false on the sub-tree of the identity,
`CommitNewIdRoot` returns an error and leaves the service as it was: the relay tree
and its root are unchanged and the root service is not notified, whatever the
timestamp and the signature are. -/
theorem commitNewIdRoot_unauthorised (env : Env) (fuel now : Nat) (cs : ServiceImpl)
    (idaddr : ID) (kSignPk : PublicKey) (root : Hash) (timestamp : Nat)
    (signature : SignatureEthMsg)
    (hk : ∀ userMT, cs.NewMerkleTreeUser idaddr 140 = .ok userMT →
      env.CheckKSignInIddb userMT kSignPk = false) :
    ∃ err cs', cs.CommitNewIdRoot env fuel now idaddr kSignPk root timestamp signature
        = some (.error err, cs') ∧
      cs'.mt = cs.mt ∧ cs'.mt.RootKey env.hs = cs.mt.RootKey env.hs ∧
      cs'.rootsrv.notified = cs.rootsrv.notified ∧ cs' = cs := by
  unfold ServiceImpl.CommitNewIdRoot
  cases hopen : cs.NewMerkleTreeUser idaddr 140 with
  | error err => exact ⟨err, cs, rfl, rfl, rfl, rfl, rfl⟩
  | ok userMT =>
    simp only [hk userMT hopen, Bool.not_false, if_true]
    exact ⟨_, cs, rfl, rfl, rfl, rfl, rfl⟩

/-- C6 at a service where the identity has no sub-tree, so that no key is
authorised. -/
theorem commitNewIdRoot_unauthorised_witness :
    (∀ userMT, srvV0.NewMerkleTreeUser userId 140 = .ok userMT →
        pairEnv.CheckKSignInIddb userMT (1, 1) = false) ∧
      ∃ err cs', srvV0.CommitNewIdRoot pairEnv 3 1000 userId (1, 1) 77 990 (commitMsg userId 77 990)
          = some (.error err, cs') ∧
        cs'.mt = srvV0.mt ∧ cs'.mt.RootKey pairEnv.hs = srvV0.mt.RootKey pairEnv.hs ∧
        cs'.rootsrv.notified = srvV0.rootsrv.notified ∧ cs' = srvV0 :=
  have hk : ∀ userMT, srvV0.NewMerkleTreeUser userId 140 = .ok userMT →
      pairEnv.CheckKSignInIddb userMT (1, 1) = false := by
    intro userMT h
    have h' : MerkleTree.empty 140 = userMT := by
      simpa [ServiceImpl.NewMerkleTreeUser, srvV0] using h
    subst h'
    rfl
  ⟨hk, commitNewIdRoot_unauthorised pairEnv 3 1000 srvV0 userId (1, 1) 77 990
    (commitMsg userId 77 990) hk⟩

/-- C7: a timestamp more than 30 seconds away from the current time makes
`CommitNewIdRoot` fail with an error that is not that of the signature check, and
leaves the service as it was; this holds for every environment, so whatever the
signature check would answer. -/
theorem commitNewIdRoot_stale (env : Env) (fuel now : Nat) (cs : ServiceImpl)
    (idaddr : ID) (kSignPk : PublicKey) (root : Hash) (timestamp : Nat)
    (signature : SignatureEthMsg) (hgap : 30 < max now timestamp - min now timestamp) :
    ∃ err, cs.CommitNewIdRoot env fuel now idaddr kSignPk root timestamp signature
        = some (.error err, cs) ∧
      err ≠ .signatureCanNotBeVerified := by
  have htime : VerifyTimestamp now timestamp 30000 = false := by
    unfold VerifyTimestamp
    rw [decide_eq_false_iff_not]
    omega
  unfold ServiceImpl.CommitNewIdRoot
  cases hopen : cs.NewMerkleTreeUser idaddr 140 with
  | error err =>
    refine ⟨err, rfl, ?_⟩
    unfold ServiceImpl.NewMerkleTreeUser at hopen
    split at hopen
    · split at hopen
      · cases hopen
      · injection hopen with hopen
        subst hopen
        simp
    · cases hopen
  | ok userMT =>
    cases hcheck : env.CheckKSignInIddb userMT kSignPk with
    | false => exact ⟨.canNotVerifyKSign, by simp [hcheck], by simp⟩
    | true => exact ⟨.timestampTooOld, by simp [hcheck, htime], by simp⟩

/-- C7 at a request 100 seconds old. -/
theorem commitNewIdRoot_stale_witness :
    30 < max 1000 900 - min 1000 900 ∧
      ∃ err, srvUser.CommitNewIdRoot pairEnv 3 1000 userId (1, 1) 77 900 (commitMsg userId 77 900)
          = some (.error err, srvUser) ∧
        err ≠ .signatureCanNotBeVerified :=
  ⟨by decide, commitNewIdRoot_stale pairEnv 3 1000 srvUser userId (1, 1) 77 900
    (commitMsg userId 77 900) (by decide)⟩

theorem beNat_uint64ToEthBytes (u : Nat) : beNat (Uint64ToEthBytes u) = u % 2 ^ 64 := by
  simp only [Uint64ToEthBytes, beBytes, beNat, List.range, List.range.loop, List.reverse_cons,
    List.reverse_nil, List.nil_append, List.cons_append, List.map_cons, List.map_nil,
    List.foldl_cons, List.foldl_nil]
  omega

theorem length_beBytes (len n : Nat) : (beBytes len n).length = len := by
  simp [beBytes]

theorem commitNewIdRoot_ok_verified (env : Env) (fuel now : Nat) (cs cs' : ServiceImpl)
    (idaddr : ID) (kSignPk : PublicKey) (root : Hash) (timestamp : Nat)
    (signature : SignatureEthMsg) (c : ClaimSetRootKey)
    (h : cs.CommitNewIdRoot env fuel now idaddr kSignPk root timestamp signature
      = some (.ok c, cs')) :
    env.VerifySigEthMsg (env.PubkeyToAddress kSignPk) signature
      (commitMsg idaddr root timestamp) = true := by
  unfold ServiceImpl.CommitNewIdRoot at h
  split at h
  · cases h
  · split at h
    · cases h
    · split at h
      · cases h
      · dsimp only at h
        split at h
        · cases h
        · rename_i hv
          simpa [commitMsg] using hv

/-- C8: the signature check of `CommitNewIdRoot` is made on the address of `kSignPk`
and on the bytes of the id followed by the 32 bytes of the root followed by the 8
big-endian bytes of the timestamp, and on nothing else: a verifier that answers the
same on that one input gives the same result of the call, and a successful call has
had that input verified. -/
theorem commitNewIdRoot_signed_message (env : Env)
    (verify : List Nat → SignatureEthMsg → List Nat → Bool) (fuel now : Nat)
    (cs : ServiceImpl) (idaddr : ID) (kSignPk : PublicKey) (root : Hash) (timestamp : Nat)
    (signature : SignatureEthMsg)
    (hagree : verify (env.PubkeyToAddress kSignPk) signature (commitMsg idaddr root timestamp)
      = env.VerifySigEthMsg (env.PubkeyToAddress kSignPk) signature
          (commitMsg idaddr root timestamp)) :
    cs.CommitNewIdRoot { env with VerifySigEthMsg := verify } fuel now idaddr kSignPk root
        timestamp signature
        = cs.CommitNewIdRoot env fuel now idaddr kSignPk root timestamp signature ∧
      (∀ c cs', cs.CommitNewIdRoot env fuel now idaddr kSignPk root timestamp signature
          = some (.ok c, cs') →
        env.VerifySigEthMsg (env.PubkeyToAddress kSignPk) signature
          (commitMsg idaddr root timestamp) = true) ∧
      commitMsg idaddr root timestamp
        = ID.Bytes idaddr ++ Hash.Bytes root ++ Uint64ToEthBytes timestamp ∧
      (Hash.Bytes root).length = 32 ∧ (Uint64ToEthBytes timestamp).length = 8 ∧
      beNat (Uint64ToEthBytes timestamp) = timestamp % 2 ^ 64 := by
  refine ⟨?_, ?_, rfl, length_beBytes _ _, length_beBytes _ _, beNat_uint64ToEthBytes _⟩
  · unfold commitMsg at hagree
    simp only [ServiceImpl.CommitNewIdRoot, hagree]
  · intro c cs' h
    exact commitNewIdRoot_ok_verified env fuel now cs cs' idaddr kSignPk root timestamp
      signature c h

/-- C8 at a request with a valid signature, against the verifier that accepts
everything. -/
theorem commitNewIdRoot_signed_message_witness :
    (true = pairEnv.VerifySigEthMsg (pairEnv.PubkeyToAddress (1, 1)) (commitMsg userId 77 990)
        (commitMsg userId 77 990)) ∧
      (srvUser.CommitNewIdRoot { pairEnv with VerifySigEthMsg := fun _ _ _ => true } 3 1000
          userId (1, 1) 77 990 (commitMsg userId 77 990)
          = srvUser.CommitNewIdRoot pairEnv 3 1000 userId (1, 1) 77 990
              (commitMsg userId 77 990) ∧
        (∀ c cs', srvUser.CommitNewIdRoot pairEnv 3 1000 userId (1, 1) 77 990
            (commitMsg userId 77 990) = some (.ok c, cs') →
          pairEnv.VerifySigEthMsg (pairEnv.PubkeyToAddress (1, 1)) (commitMsg userId 77 990)
            (commitMsg userId 77 990) = true) ∧
        commitMsg userId 77 990 = ID.Bytes userId ++ Hash.Bytes 77 ++ Uint64ToEthBytes 990 ∧
        (Hash.Bytes 77).length = 32 ∧ (Uint64ToEthBytes 990).length = 8 ∧
        beNat (Uint64ToEthBytes 990) = 990 % 2 ^ 64) :=
  ⟨rfl, commitNewIdRoot_signed_message pairEnv (fun _ _ _ => true) 3 1000 srvUser userId (1, 1)
    77 990 (commitMsg userId 77 990) rfl⟩

theorem pairHasher_ideal : pairHasher.Ideal where
  mid_inj := by
    intro a b c d h
    have h3 : 3 * Nat.pair a b + 2 = 3 * Nat.pair c d + 2 := h
    have h' : Nat.pair a b = Nat.pair c d := by omega
    exact Nat.pair_eq_pair.1 h'
  leaf_ne_empty := by
    intro a b
    simp [pairHasher]
  mid_ne_leaf := by
    intro a b c d h
    have h3 : 3 * Nat.pair a b + 2 = 3 * Nat.pair c d + 1 := h
    omega

/-- C9: a successful `CommitNewIdRoot` returns the `ClaimSetRootKey` of the id and the
root at the version `GetNextVersion` gave on the relay tree before the insertion;
afterwards the relay tree holds the entry of that claim at its index, and its root is
not the root from before the call. -/
theorem commitNewIdRoot_ok (env : Env) (fuel now : Nat) (cs cs' : ServiceImpl)
    (idaddr : ID) (kSignPk : PublicKey) (root : Hash) (timestamp : Nat)
    (signature : SignatureEthMsg) (c : ClaimSetRootKey)
    (hid : env.hs.Ideal) (hwf : cs.mt.WF env.hs)
    (h : cs.CommitNewIdRoot env fuel now idaddr kSignPk root timestamp signature
      = some (.ok c, cs')) :
    ∃ version,
      GetNextVersion env.hs cs.mt fuel (env.hs.hIndex (NewClaimSetRootKey idaddr root).Entry)
        = some (.ok version) ∧
      c = { Version := version, Era := 0, Id := idaddr, RootKey := root } ∧
      cs'.mt.GetDataByIndex env.hs (env.hs.hIndex c.Entry) = .ok c.Entry ∧
      cs'.mt.RootKey env.hs ≠ cs.mt.RootKey env.hs := by
  unfold ServiceImpl.CommitNewIdRoot at h
  split at h
  · cases h
  · split at h
    · cases h
    · split at h
      · cases h
      · dsimp only at h
        split at h
        · cases h
        · split at h
          · cases h
          · cases h
          · rename_i version hver
            split at h
            · cases h
            · rename_i mt' hadd
              simp only [Option.some.injEq, Prod.mk.injEq, Except.ok.injEq] at h
              obtain ⟨hc, hcs⟩ := h
              subst hc
              subst hcs
              exact ⟨version, hver, rfl, add_ok_get env.hs cs.mt mt' _ hwf hadd,
                add_ok_rootKey_ne env.hs hid cs.mt mt' _ hwf hadd⟩

/-- C9 at the second root committed for an identity: it goes in at version 1. -/
theorem commitNewIdRoot_ok_witness :
    (pairEnv.hs.Ideal ∧ srvUser.mt.WF pairEnv.hs ∧
        srvUser.CommitNewIdRoot pairEnv 3 1000 userId (1, 1) 77 990 (commitMsg userId 77 990)
          = some (.ok rootClaimV1, srvUser1)) ∧
      ∃ version,
        GetNextVersion pairEnv.hs srvUser.mt 3
            (pairEnv.hs.hIndex (NewClaimSetRootKey userId 77).Entry) = some (.ok version) ∧
        rootClaimV1 = { Version := version, Era := 0, Id := userId, RootKey := 77 } ∧
        srvUser1.mt.GetDataByIndex pairEnv.hs (pairEnv.hs.hIndex rootClaimV1.Entry)
          = .ok rootClaimV1.Entry ∧
        srvUser1.mt.RootKey pairEnv.hs ≠ srvUser.mt.RootKey pairEnv.hs :=
  have hwf : srvUser.mt.WF pairEnv.hs := by
    simp [MerkleTree.WF, srvUser, relayTree]
  ⟨⟨pairHasher_ideal, hwf, rfl⟩,
    commitNewIdRoot_ok pairEnv 3 1000 srvUser srvUser1 userId (1, 1) 77 990
      (commitMsg userId 77 990) rootClaimV1 pairHasher_ideal hwf rfl⟩

/-! ## `AddClaimAssignName` -/

/-- C10 fails on the code: the relay tree holds version 0 of a name claim and not
version 1, so the claim should go in at version 1; called with the version field at 1,
`AddClaimAssignName` looks up the index of version 1, gets 0 from `GetNextVersion`,
tries to add version 0 again and ends in `log.Fatal` with the tree unchanged; called
with the version field at 0 it adds version 1. -/
theorem addClaimAssignName_supplied_version :
    NextVersionIs pairHasher srvV0.mt nameV1.Entry 1 ∧
      GetNextVersion pairHasher srvV0.mt 3 (pairHasher.hIndex nameV1.Entry) = some (.ok 0) ∧
      srvV0.mt.Add pairHasher nameV0.Entry = .error .ErrEntryIndexAlreadyExists ∧
      srvV0.AddClaimAssignName pairEnv 3 nameV1 = some (.error (.logFatal 1), srvV0) ∧
      ∃ cs', srvV0.AddClaimAssignName pairEnv 3 nameV0 = some (.ok (), cs') ∧
        cs'.mt.GetDataByIndex pairHasher (pairHasher.hIndex nameV1.Entry) = .ok nameV1.Entry := by
  refine ⟨⟨fun j hj => ?_, ?_⟩, rfl, rfl, rfl, _, rfl, rfl⟩
  · have hj0 : j = 0 := by omega
    subst hj0
    exact ⟨nameV0.Entry, rfl⟩
  · rw [not_has_iff]
    rfl

/-! ## The methods that write a sub-tree -/

theorem addSetRootKey_tail (env : Env) (fuel : Nat) (cs : ServiceImpl) (idAddr : ID)
    (userMT : MerkleTree) :
    (match GetNextVersion env.hs (cs.setUserTree idAddr userMT).mt fuel
        (env.hs.hIndex (NewClaimSetRootKey idAddr (userMT.RootKey env.hs)).Entry) with
      | none => none
      | some (.error err) => some (.error err, cs.setUserTree idAddr userMT)
      | some (.ok version) =>
        match (cs.setUserTree idAddr userMT).mt.Add env.hs
            ({ NewClaimSetRootKey idAddr (userMT.RootKey env.hs) with
                Version := version } : ClaimSetRootKey).Entry with
        | .error err => some (.error err, cs.setUserTree idAddr userMT)
        | .ok mt =>
          some (.ok (),
            { ({ cs.setUserTree idAddr userMT with mt := mt } : ServiceImpl) with
              rootsrv := (cs.setUserTree idAddr userMT).rootsrv.SetRoot (mt.RootKey env.hs) }))
      = (cs.setUserTree idAddr userMT).addSetRootKey env fuel idAddr (userMT.RootKey env.hs) := by
  unfold ServiceImpl.addSetRootKey
  rfl

theorem addClaimAuthorizeKSignFirst_unfold (env : Env) (fuel : Nat) (cs : ServiceImpl)
    (idAddr : ID) (c : ClaimAuthorizeKSign) :
    cs.AddClaimAuthorizeKSignFirst env fuel idAddr c =
      match cs.NewMerkleTreeUser idAddr 140 with
      | .error err => some (.error err, cs)
      | .ok userMT =>
        match userMT.Add env.hs c.Entry with
        | .error err => some (.error err, cs)
        | .ok userMT =>
          (cs.setUserTree idAddr userMT).addSetRootKey env fuel idAddr (userMT.RootKey env.hs) := by
  unfold ServiceImpl.AddClaimAuthorizeKSignFirst
  cases cs.NewMerkleTreeUser idAddr 140 with
  | error err => rfl
  | ok userMT =>
    cases hadd : userMT.Add env.hs c.Entry with
    | error err => simp only [hadd]
    | ok userMT' =>
      simp only [hadd]
      exact addSetRootKey_tail env fuel cs idAddr userMT'

theorem addClaimAuthorizeKSignSecp256k1First_unfold (env : Env) (fuel : Nat)
    (cs : ServiceImpl) (idAddr : ID) (c : ClaimAuthorizeKSignSecp256k1) :
    cs.AddClaimAuthorizeKSignSecp256k1First env fuel idAddr c =
      match cs.NewMerkleTreeUser idAddr 140 with
      | .error err => some (.error err, cs)
      | .ok userMT =>
        match userMT.Add env.hs c.Entry with
        | .error err => some (.error err, cs)
        | .ok userMT =>
          (cs.setUserTree idAddr userMT).addSetRootKey env fuel idAddr (userMT.RootKey env.hs) := by
  unfold ServiceImpl.AddClaimAuthorizeKSignSecp256k1First
  cases cs.NewMerkleTreeUser idAddr 140 with
  | error err => rfl
  | ok userMT =>
    cases hadd : userMT.Add env.hs c.Entry with
    | error err => simp only [hadd]
    | ok userMT' =>
      simp only [hadd]
      exact addSetRootKey_tail env fuel cs idAddr userMT'

theorem addClaimAuthorizeKSign_unfold (env : Env) (fuel : Nat) (cs : ServiceImpl)
    (idAddr : ID) (msg : ClaimAuthorizeKSignMsg) :
    cs.AddClaimAuthorizeKSign env fuel idAddr msg =
      match cs.NewMerkleTreeUser idAddr 140 with
      | .error err => some (.error err, cs)
      | .ok userMT =>
        if !env.CheckKSignInIddb userMT msg.KSignPk then some (.error .canNotVerifyKSign, cs)
        else if !env.VerifySigEthMsg (env.PubkeyToAddress msg.KSignPk) msg.Signature
            msg.ClaimAuthorizeKSign.Entry.EntryBytes then
          some (.error .signatureCanNotBeVerified, cs)
        else
          match userMT.Add env.hs msg.ClaimAuthorizeKSign.Entry with
          | .error err => some (.error err, cs)
          | .ok userMT =>
            (cs.setUserTree idAddr userMT).addSetRootKey env fuel idAddr
              (userMT.RootKey env.hs) := by
  unfold ServiceImpl.AddClaimAuthorizeKSign
  cases cs.NewMerkleTreeUser idAddr 140 with
  | error err => rfl
  | ok userMT =>
    cases hadd : userMT.Add env.hs msg.ClaimAuthorizeKSign.Entry with
    | error err => simp only [hadd]
    | ok userMT' =>
      simp only [hadd]
      rw [← addSetRootKey_tail env fuel cs idAddr userMT']

theorem addUserIdClaim_unfold (env : Env) (fuel : Nat) (cs : ServiceImpl)
    (idAddr : ID) (msg : ClaimValueMsg) :
    cs.AddUserIdClaim env fuel idAddr msg =
      match cs.NewMerkleTreeUser idAddr 140 with
      | .error err => some (.error err, cs)
      | .ok userMT =>
        if !env.CheckKSignInIddb userMT msg.KSignPk then some (.error .canNotVerifyKSign, cs)
        else if !env.VerifySigEthMsg (env.PubkeyToAddress msg.KSignPk) msg.Signature
            msg.ClaimValue.EntryBytes then
          some (.error .signatureCanNotBeVerified, cs)
        else
          match userMT.Add env.hs msg.ClaimValue with
          | .error err => some (.error err, cs)
          | .ok userMT =>
            (cs.setUserTree idAddr userMT).addSetRootKey env fuel idAddr
              (userMT.RootKey env.hs) := by
  unfold ServiceImpl.AddUserIdClaim
  cases cs.NewMerkleTreeUser idAddr 140 with
  | error err => rfl
  | ok userMT =>
    cases hadd : userMT.Add env.hs msg.ClaimValue with
    | error err => simp only [hadd]
    | ok userMT' =>
      simp only [hadd]
      rw [← addSetRootKey_tail env fuel cs idAddr userMT']

theorem addSetRootKey_ok (env : Env) (fuel : Nat) (cs cs' : ServiceImpl) (idAddr : ID)
    (root : Hash) (h : cs.addSetRootKey env fuel idAddr root = some (.ok (), cs')) :
    ∃ version mt,
      GetNextVersion env.hs cs.mt fuel (env.hs.hIndex (NewClaimSetRootKey idAddr root).Entry)
        = some (.ok version) ∧
      cs.mt.Add env.hs
        ({ NewClaimSetRootKey idAddr root with Version := version } : ClaimSetRootKey).Entry
        = .ok mt ∧
      cs' = { cs with mt := mt, rootsrv := cs.rootsrv.SetRoot (mt.RootKey env.hs) } := by
  unfold ServiceImpl.addSetRootKey at h
  split at h
  · cases h
  · cases h
  · rename_i version hver
    split at h
    · cases h
    · rename_i mt hadd
      simp only [Option.some.injEq, Prod.mk.injEq, true_and] at h
      exact ⟨version, mt, hver, hadd, h.symm⟩

theorem addSetRootKey_error (env : Env) (fuel : Nat) (cs cs' : ServiceImpl) (idAddr : ID)
    (root : Hash) (err : Error)
    (h : cs.addSetRootKey env fuel idAddr root = some (.error err, cs')) : cs' = cs := by
  unfold ServiceImpl.addSetRootKey at h
  split at h
  · cases h
  · simp only [Option.some.injEq, Prod.mk.injEq] at h
    exact h.2.symm
  · split at h
    · simp only [Option.some.injEq, Prod.mk.injEq] at h
      exact h.2.symm
    · cases h

theorem newMerkleTreeUser_maxLevels (cs : ServiceImpl) (idAddr : ID) (n : Nat)
    (userMT : MerkleTree) (h : cs.NewMerkleTreeUser idAddr n = .ok userMT) :
    userMT.maxLevels = n := by
  unfold ServiceImpl.NewMerkleTreeUser at h
  split at h
  · split at h
    · rename_i hn
      injection h with h
      rw [← h]
      exact hn
    · cases h
  · injection h with h
    rw [← h]
    rfl

theorem newMerkleTreeUser_setUserTree (cs : ServiceImpl) (idAddr : ID) (userMT : MerkleTree) :
    (cs.setUserTree idAddr userMT).NewMerkleTreeUser idAddr userMT.maxLevels = .ok userMT := by
  simp [ServiceImpl.NewMerkleTreeUser, ServiceImpl.setUserTree, List.lookup]

theorem add_ok_maxLevels (hs : Hasher) (mt mt' : MerkleTree) (e : Data)
    (h : mt.Add hs e = .ok mt') : mt'.maxLevels = mt.maxLevels := by
  rw [add_ok_leaves hs mt mt' e h]

theorem assignName_entry_withVersion (c : ClaimAssignName) (v : Nat) :
    c.Entry.withVersion v = ({ c with Version := v } : ClaimAssignName).Entry := by
  simp only [ClaimAssignName.Entry, Data.withVersion, SetClaimTypeVersionInData,
    GetClaimTypeVersionFromData, ClaimTypeAssignName, Data.mk.injEq, true_and]
  omega

theorem version_lt (d : Data) : d.version < 2 ^ 32 := by
  simp only [Data.version, GetClaimTypeVersionFromData]
  exact Nat.mod_lt _ (by norm_num)

theorem loop_result_pred (hs : Hasher) (mt : MerkleTree) (d : Data)
    (hc : ChainSound hs mt d) :
    ∀ (fuel j v k : Nat), j < 2 ^ 32 →
      GetNextVersionLoop hs mt fuel (hs.hIndex (d.withVersion j)) v = some (.ok k) →
      k = v ∨ k = 0 ∨ mt.Has hs (hs.hIndex (d.withVersion (k - 1))) := by
  intro fuel
  induction fuel with
  | zero => intro j v k _ h; simp [GetNextVersionLoop] at h
  | succ fuel ih =>
    intro j v k hj h
    by_cases hhas : mt.Has hs (hs.hIndex (d.withVersion j))
    · rw [loop_step hs mt d hc fuel j v hj hhas] at h
      rcases ih _ _ k (Nat.mod_lt _ (by norm_num)) h with h1 | h1 | h1
      · by_cases hwrap : j + 1 < 2 ^ 32
        · have hk : k - 1 = j := by
            rw [h1, Nat.mod_eq_of_lt hwrap]
            omega
          right
          right
          rw [hk]
          exact hhas
        · have hk : k = 0 := by
            rw [h1]
            have : j + 1 = 2 ^ 32 := by omega
            rw [this]
            norm_num
          exact Or.inr (Or.inl hk)
      · exact Or.inr (Or.inl h1)
      · exact Or.inr (Or.inr h1)
    · rw [loop_stop hs mt fuel _ _ hhas] at h
      simp only [Option.some.injEq, Except.ok.injEq] at h
      exact Or.inl h.symm

theorem getNextVersion_pred (hs : Hasher) (mt : MerkleTree) (d : Data) (fuel k : Nat)
    (hc : ChainSound hs mt d)
    (h : GetNextVersion hs mt fuel (hs.hIndex d) = some (.ok k)) :
    k < 2 ^ 32 ∧ (k = 0 ∨ mt.Has hs (hs.hIndex (d.withVersion (k - 1)))) := by
  unfold GetNextVersion at h
  have hk : k < 2 ^ 32 := by
    rcases loop_result_lt hs mt fuel _ 0 k h with h0 | h0
    · rw [h0]
      norm_num
    · exact h0
  refine ⟨hk, ?_⟩
  rw [← withVersion_version d] at h
  rcases loop_result_pred hs mt d hc fuel d.version 0 k (version_lt d) h with h1 | h1 | h1
  · exact Or.inl h1
  · exact Or.inl h1
  · exact Or.inr h1

theorem has_add_exists (hs : Hasher) (mt : MerkleTree) (e : Data)
    (h : mt.Has hs (hs.hIndex e)) : mt.Add hs e = .error .ErrEntryIndexAlreadyExists := by
  obtain ⟨d, hd⟩ := h
  unfold MerkleTree.GetDataByIndex at hd
  unfold MerkleTree.Add
  split at hd
  · rename_i d' hw
    split at hd
    · rename_i hidx
      simp [hw, hidx]
    · cases hd
  · cases hd

/-! ## What a successful call does -/

theorem commitNewIdRoot_ok_insert (env : Env) (fuel now : Nat) (cs cs' : ServiceImpl)
    (idaddr : ID) (kSignPk : PublicKey) (root : Hash) (timestamp : Nat)
    (signature : SignatureEthMsg) (c : ClaimSetRootKey)
    (h : cs.CommitNewIdRoot env fuel now idaddr kSignPk root timestamp signature
      = some (.ok c, cs')) :
    ∃ e, RelayInsert env cs cs' e ∧ NextVersionOf env fuel cs (NewClaimSetRootKey idaddr root).Entry e := by
  unfold ServiceImpl.CommitNewIdRoot at h
  split at h
  · cases h
  · split at h
    · cases h
    · split at h
      · cases h
      · dsimp only at h
        split at h
        · cases h
        · split at h
          · cases h
          · cases h
          · rename_i version hver
            split at h
            · cases h
            · rename_i mt hadd
              simp only [Option.some.injEq, Prod.mk.injEq, Except.ok.injEq] at h
              obtain ⟨_, hcs⟩ := h
              subst hcs
              exact ⟨_, ⟨mt, hadd, rfl, rfl⟩, version, hver,
                (setRootKey_entry_withVersion _ _).symm⟩

theorem addClaimAssignName_ok_insert (env : Env) (fuel : Nat) (cs cs' : ServiceImpl)
    (c : ClaimAssignName) (h : cs.AddClaimAssignName env fuel c = some (.ok (), cs')) :
    ∃ e, RelayInsert env cs cs' e ∧ NextVersionOf env fuel cs c.Entry e := by
  unfold ServiceImpl.AddClaimAssignName at h
  dsimp only at h
  split at h
  · cases h
  · cases h
  · rename_i version hver
    split at h
    · cases h
    · rename_i mt hadd
      simp only [Option.some.injEq, Prod.mk.injEq, true_and] at h
      subst h
      exact ⟨_, ⟨mt, hadd, rfl, rfl⟩, version, hver, (assignName_entry_withVersion _ _).symm⟩

theorem addSetRootKey_ok_insert (env : Env) (fuel : Nat) (cs cs' : ServiceImpl) (idAddr : ID)
    (userMT : MerkleTree)
    (h : (cs.setUserTree idAddr userMT).addSetRootKey env fuel idAddr (userMT.RootKey env.hs)
      = some (.ok (), cs')) :
    ∃ e, RelayInsert env cs cs' e ∧
      NextVersionOf env fuel cs (NewClaimSetRootKey idAddr (userMT.RootKey env.hs)).Entry e := by
  obtain ⟨version, mt, hver, hadd, hcs⟩ := addSetRootKey_ok env fuel _ cs' idAddr _ h
  subst hcs
  exact ⟨_, ⟨mt, hadd, rfl, rfl⟩, version, hver, (setRootKey_entry_withVersion _ _).symm⟩

theorem addClaimAuthorizeKSignFirst_ok_insert (env : Env) (fuel : Nat) (cs cs' : ServiceImpl)
    (idAddr : ID) (c : ClaimAuthorizeKSign)
    (h : cs.AddClaimAuthorizeKSignFirst env fuel idAddr c = some (.ok (), cs')) :
    ∃ userMT userMT', cs.NewMerkleTreeUser idAddr 140 = .ok userMT ∧
      userMT.Add env.hs c.Entry = .ok userMT' ∧
      (cs.setUserTree idAddr userMT').addSetRootKey env fuel idAddr (userMT'.RootKey env.hs)
        = some (.ok (), cs') := by
  rw [addClaimAuthorizeKSignFirst_unfold] at h
  split at h
  · cases h
  · rename_i userMT hopen
    split at h
    · cases h
    · rename_i userMT' hadd
      exact ⟨userMT, userMT', hopen, hadd, h⟩

theorem addClaimAuthorizeKSignSecp256k1First_ok_insert (env : Env) (fuel : Nat)
    (cs cs' : ServiceImpl) (idAddr : ID) (c : ClaimAuthorizeKSignSecp256k1)
    (h : cs.AddClaimAuthorizeKSignSecp256k1First env fuel idAddr c = some (.ok (), cs')) :
    ∃ userMT userMT', cs.NewMerkleTreeUser idAddr 140 = .ok userMT ∧
      userMT.Add env.hs c.Entry = .ok userMT' ∧
      (cs.setUserTree idAddr userMT').addSetRootKey env fuel idAddr (userMT'.RootKey env.hs)
        = some (.ok (), cs') := by
  rw [addClaimAuthorizeKSignSecp256k1First_unfold] at h
  split at h
  · cases h
  · rename_i userMT hopen
    split at h
    · cases h
    · rename_i userMT' hadd
      exact ⟨userMT, userMT', hopen, hadd, h⟩

theorem addClaimAuthorizeKSign_ok_insert (env : Env) (fuel : Nat) (cs cs' : ServiceImpl)
    (idAddr : ID) (msg : ClaimAuthorizeKSignMsg)
    (h : cs.AddClaimAuthorizeKSign env fuel idAddr msg = some (.ok (), cs')) :
    ∃ userMT userMT', cs.NewMerkleTreeUser idAddr 140 = .ok userMT ∧
      userMT.Add env.hs msg.ClaimAuthorizeKSign.Entry = .ok userMT' ∧
      (cs.setUserTree idAddr userMT').addSetRootKey env fuel idAddr (userMT'.RootKey env.hs)
        = some (.ok (), cs') := by
  rw [addClaimAuthorizeKSign_unfold] at h
  split at h
  · cases h
  · rename_i userMT hopen
    split at h
    · cases h
    · split at h
      · cases h
      · split at h
        · cases h
        · rename_i userMT' hadd
          exact ⟨userMT, userMT', hopen, hadd, h⟩

theorem addUserIdClaim_ok_insert (env : Env) (fuel : Nat) (cs cs' : ServiceImpl)
    (idAddr : ID) (msg : ClaimValueMsg)
    (h : cs.AddUserIdClaim env fuel idAddr msg = some (.ok (), cs')) :
    ∃ userMT userMT', cs.NewMerkleTreeUser idAddr 140 = .ok userMT ∧
      userMT.Add env.hs msg.ClaimValue = .ok userMT' ∧
      (cs.setUserTree idAddr userMT').addSetRootKey env fuel idAddr (userMT'.RootKey env.hs)
        = some (.ok (), cs') := by
  rw [addUserIdClaim_unfold] at h
  split at h
  · cases h
  · rename_i userMT hopen
    split at h
    · cases h
    · split at h
      · cases h
      · split at h
        · cases h
        · rename_i userMT' hadd
          exact ⟨userMT, userMT', hopen, hadd, h⟩

theorem addDirectClaim_ok_insert (env : Env) (cs cs' : ServiceImpl) (claim : ClaimBasic)
    (h : cs.AddDirectClaim env claim = (.ok (), cs')) : RelayInsert env cs cs' claim.Entry := by
  unfold ServiceImpl.AddDirectClaim at h
  split at h
  · cases h
  · rename_i mt hadd
    simp only [Prod.mk.injEq, true_and] at h
    subst h
    exact ⟨mt, hadd, rfl, rfl⟩

theorem call_ok_insert (env : Env) (fuel now : Nat) (cs cs' : ServiceImpl) (c : Call)
    (h : cs.call env fuel now c = some (.ok (), cs')) :
    ∃ e, RelayInsert env cs cs' e ∧
      ((∃ claim, c = .AddDirectClaim claim ∧ e = claim.Entry) ∨
        ∃ d, NextVersionOf env fuel cs d e) := by
  cases c with
  | CommitNewIdRoot idaddr kSignPk root timestamp signature =>
    simp only [ServiceImpl.call] at h
    split at h
    · cases h
    · rename_i claim cs1 hc
      simp only [Option.some.injEq, Prod.mk.injEq, true_and] at h
      subst h
      obtain ⟨e, h1, h2⟩ := commitNewIdRoot_ok_insert env fuel now cs cs1 idaddr kSignPk root
        timestamp signature claim hc
      exact ⟨e, h1, Or.inr ⟨_, h2⟩⟩
    · cases h
  | AddClaimAssignName claim =>
    obtain ⟨e, h1, h2⟩ := addClaimAssignName_ok_insert env fuel cs cs' claim h
    exact ⟨e, h1, Or.inr ⟨_, h2⟩⟩
  | AddClaimAuthorizeKSign idAddr msg =>
    obtain ⟨_, userMT', _, _, h3⟩ := addClaimAuthorizeKSign_ok_insert env fuel cs cs' idAddr msg h
    obtain ⟨e, h1, h2⟩ := addSetRootKey_ok_insert env fuel cs cs' idAddr userMT' h3
    exact ⟨e, h1, Or.inr ⟨_, h2⟩⟩
  | AddClaimAuthorizeKSignFirst idAddr claim =>
    obtain ⟨_, userMT', _, _, h3⟩ :=
      addClaimAuthorizeKSignFirst_ok_insert env fuel cs cs' idAddr claim h
    obtain ⟨e, h1, h2⟩ := addSetRootKey_ok_insert env fuel cs cs' idAddr userMT' h3
    exact ⟨e, h1, Or.inr ⟨_, h2⟩⟩
  | AddClaimAuthorizeKSignSecp256k1First idAddr claim =>
    obtain ⟨_, userMT', _, _, h3⟩ :=
      addClaimAuthorizeKSignSecp256k1First_ok_insert env fuel cs cs' idAddr claim h
    obtain ⟨e, h1, h2⟩ := addSetRootKey_ok_insert env fuel cs cs' idAddr userMT' h3
    exact ⟨e, h1, Or.inr ⟨_, h2⟩⟩
  | AddUserIdClaim idAddr msg =>
    obtain ⟨_, userMT', _, _, h3⟩ := addUserIdClaim_ok_insert env fuel cs cs' idAddr msg h
    obtain ⟨e, h1, h2⟩ := addSetRootKey_ok_insert env fuel cs cs' idAddr userMT' h3
    exact ⟨e, h1, Or.inr ⟨_, h2⟩⟩
  | AddDirectClaim claim =>
    simp only [ServiceImpl.call, Option.some.injEq] at h
    exact ⟨_, addDirectClaim_ok_insert env cs cs' claim h, Or.inl ⟨claim, rfl, rfl⟩⟩

/-! ## `AddClaimAuthorizeKSignFirst` -/

/-- C11: after a successful `AddClaimAuthorizeKSignFirst(id, c)` on a relay tree built
by `Add`, the sub-tree of `id` is the one `c` was added to, and the relay tree holds, at
its index, the `ClaimSetRootKey` of `id` whose root key is the root of that sub-tree
and whose version is the one `GetNextVersion` returned on the relay tree. -/
theorem addClaimAuthorizeKSignFirst_ok (env : Env) (fuel : Nat) (cs cs' : ServiceImpl)
    (idAddr : ID) (c : ClaimAuthorizeKSign) (hwf : cs.mt.WF env.hs)
    (h : cs.AddClaimAuthorizeKSignFirst env fuel idAddr c = some (.ok (), cs')) :
    ∃ userMT userMT' version,
      cs.NewMerkleTreeUser idAddr 140 = .ok userMT ∧
      userMT.Add env.hs c.Entry = .ok userMT' ∧
      cs'.NewMerkleTreeUser idAddr 140 = .ok userMT' ∧
      GetNextVersion env.hs cs.mt fuel
        (env.hs.hIndex (NewClaimSetRootKey idAddr (userMT'.RootKey env.hs)).Entry)
          = some (.ok version) ∧
      cs'.mt.GetDataByIndex env.hs
        (env.hs.hIndex ({ NewClaimSetRootKey idAddr (userMT'.RootKey env.hs) with
          Version := version } : ClaimSetRootKey).Entry)
        = .ok ({ NewClaimSetRootKey idAddr (userMT'.RootKey env.hs) with
          Version := version } : ClaimSetRootKey).Entry := by
  obtain ⟨userMT, userMT', hopen, hadd, htail⟩ :=
    addClaimAuthorizeKSignFirst_ok_insert env fuel cs cs' idAddr c h
  obtain ⟨version, mt, hver, hrelay, hcs⟩ := addSetRootKey_ok env fuel _ cs' idAddr _ htail
  have hlevels : userMT'.maxLevels = 140 := by
    rw [add_ok_maxLevels env.hs userMT userMT' _ hadd]
    exact newMerkleTreeUser_maxLevels cs idAddr 140 userMT hopen
  refine ⟨userMT, userMT', version, hopen, hadd, ?_, hver, ?_⟩
  · rw [hcs, ← hlevels]
    exact newMerkleTreeUser_setUserTree cs idAddr userMT'
  · rw [hcs]
    exact add_ok_get env.hs cs.mt mt _ hwf hrelay

/-- C11 at the first claim of an identity: its root goes into the relay tree at
version 0. -/
theorem addClaimAuthorizeKSignFirst_ok_witness :
    (srvV0.mt.WF pairEnv.hs ∧
        srvV0.AddClaimAuthorizeKSignFirst pairEnv 3 userId keyClaim = some (.ok (), srvFirst)) ∧
      ∃ userMT userMT' version,
        srvV0.NewMerkleTreeUser userId 140 = .ok userMT ∧
        userMT.Add pairEnv.hs keyClaim.Entry = .ok userMT' ∧
        srvFirst.NewMerkleTreeUser userId 140 = .ok userMT' ∧
        GetNextVersion pairEnv.hs srvV0.mt 3
          (pairEnv.hs.hIndex (NewClaimSetRootKey userId (userMT'.RootKey pairEnv.hs)).Entry)
            = some (.ok version) ∧
        srvFirst.mt.GetDataByIndex pairEnv.hs
          (pairEnv.hs.hIndex ({ NewClaimSetRootKey userId (userMT'.RootKey pairEnv.hs) with
            Version := version } : ClaimSetRootKey).Entry)
          = .ok ({ NewClaimSetRootKey userId (userMT'.RootKey pairEnv.hs) with
            Version := version } : ClaimSetRootKey).Entry :=
  have hwf : srvV0.mt.WF pairEnv.hs := by
    simp [MerkleTree.WF, srvV0, treeV0]
  ⟨⟨hwf, rfl⟩, addClaimAuthorizeKSignFirst_ok pairEnv 3 srvV0 srvFirst userId keyClaim hwf rfl⟩

/-! ## `AddClaimAuthorizeKSign` and `AddUserIdClaim` -/

/-- C12: when the key check fails on the sub-tree of the identity or the signature of
the message does not verify under the key, `AddClaimAuthorizeKSign` and
`AddUserIdClaim` return an error and leave the service as it was: no leaf is added to
the sub-tree or to the relay tree and the root service is not notified. -/
theorem addClaim_unauthorised (env : Env) (fuel : Nat) (cs : ServiceImpl) (idAddr : ID)
    (msgK : ClaimAuthorizeKSignMsg) (msgV : ClaimValueMsg)
    (hK : ∀ userMT, cs.NewMerkleTreeUser idAddr 140 = .ok userMT →
      env.CheckKSignInIddb userMT msgK.KSignPk = false ∨
      env.VerifySigEthMsg (env.PubkeyToAddress msgK.KSignPk) msgK.Signature
        msgK.ClaimAuthorizeKSign.Entry.EntryBytes = false)
    (hV : ∀ userMT, cs.NewMerkleTreeUser idAddr 140 = .ok userMT →
      env.CheckKSignInIddb userMT msgV.KSignPk = false ∨
      env.VerifySigEthMsg (env.PubkeyToAddress msgV.KSignPk) msgV.Signature
        msgV.ClaimValue.EntryBytes = false) :
    (∃ err, cs.AddClaimAuthorizeKSign env fuel idAddr msgK = some (.error err, cs)) ∧
      (∃ err, cs.AddUserIdClaim env fuel idAddr msgV = some (.error err, cs)) := by
  constructor
  · rw [addClaimAuthorizeKSign_unfold]
    cases hopen : cs.NewMerkleTreeUser idAddr 140 with
    | error err => exact ⟨err, rfl⟩
    | ok userMT =>
      cases hcheck : env.CheckKSignInIddb userMT msgK.KSignPk with
      | false => exact ⟨.canNotVerifyKSign, by simp [hcheck]⟩
      | true =>
        rcases hK userMT hopen with h1 | h1
        · rw [hcheck] at h1
          cases h1
        · exact ⟨.signatureCanNotBeVerified, by simp [hcheck, h1]⟩
  · rw [addUserIdClaim_unfold]
    cases hopen : cs.NewMerkleTreeUser idAddr 140 with
    | error err => exact ⟨err, rfl⟩
    | ok userMT =>
      cases hcheck : env.CheckKSignInIddb userMT msgV.KSignPk with
      | false => exact ⟨.canNotVerifyKSign, by simp [hcheck]⟩
      | true =>
        rcases hV userMT hopen with h1 | h1
        · rw [hcheck] at h1
          cases h1
        · exact ⟨.signatureCanNotBeVerified, by simp [hcheck, h1]⟩

/-- C12 at a service where the identity has a sub-tree, so that its key passes the
check, and the messages carry no valid signature. -/
theorem addClaim_unauthorised_witness :
    ((∀ userMT, srvUser.NewMerkleTreeUser userId 140 = .ok userMT →
          pairEnv.CheckKSignInIddb userMT keyMsg.KSignPk = false ∨
          pairEnv.VerifySigEthMsg (pairEnv.PubkeyToAddress keyMsg.KSignPk) keyMsg.Signature
            keyMsg.ClaimAuthorizeKSign.Entry.EntryBytes = false) ∧
        (∀ userMT, srvUser.NewMerkleTreeUser userId 140 = .ok userMT →
          pairEnv.CheckKSignInIddb userMT valueMsg.KSignPk = false ∨
          pairEnv.VerifySigEthMsg (pairEnv.PubkeyToAddress valueMsg.KSignPk)
            valueMsg.Signature valueMsg.ClaimValue.EntryBytes = false)) ∧
      ((∃ err, srvUser.AddClaimAuthorizeKSign pairEnv 3 userId keyMsg
          = some (.error err, srvUser)) ∧
        (∃ err, srvUser.AddUserIdClaim pairEnv 3 userId valueMsg
          = some (.error err, srvUser))) :=
  ⟨⟨fun _ _ => Or.inr (by decide), fun _ _ => Or.inr (by decide)⟩,
    addClaim_unauthorised pairEnv 3 srvUser userId keyMsg valueMsg
      (fun _ _ => Or.inr (by decide)) (fun _ _ => Or.inr (by decide))⟩

/-! ## `AddDirectClaim` -/

/-- C13: `AddDirectClaim` of a claim whose index the relay tree holds fails with
`ErrEntryIndexAlreadyExists` and leaves the service as it was: the relay root is
unchanged and the root service is not notified. -/
theorem addDirectClaim_present (env : Env) (cs : ServiceImpl) (claim : ClaimBasic)
    (h : cs.mt.Has env.hs (env.hs.hIndex claim.Entry)) :
    ∃ cs', cs.AddDirectClaim env claim = (.error .ErrEntryIndexAlreadyExists, cs') ∧
      cs'.mt.RootKey env.hs = cs.mt.RootKey env.hs ∧
      cs'.rootsrv.notified = cs.rootsrv.notified ∧ cs' = cs := by
  refine ⟨cs, ?_, rfl, rfl, rfl⟩
  unfold ServiceImpl.AddDirectClaim
  rw [has_add_exists env.hs cs.mt claim.Entry h]

/-- C13 at a relay tree that holds one basic claim, added a second time. -/
theorem addDirectClaim_present_witness :
    srvBasic0.mt.Has pairEnv.hs (pairEnv.hs.hIndex basicV0.Entry) ∧
      ∃ cs', srvBasic0.AddDirectClaim pairEnv basicV0
          = (.error .ErrEntryIndexAlreadyExists, cs') ∧
        cs'.mt.RootKey pairEnv.hs = srvBasic0.mt.RootKey pairEnv.hs ∧
        cs'.rootsrv.notified = srvBasic0.rootsrv.notified ∧ cs' = srvBasic0 :=
  ⟨⟨basicV0.Entry, rfl⟩, addDirectClaim_present pairEnv srvBasic0 basicV0 ⟨basicV0.Entry, rfl⟩⟩

/-! ## The root service after a call -/

/-- C14: after every successful call of a mutating method of the service, the root
last given to the root service, which is also the last root of its trace, is the root
of the relay tree. -/
theorem call_ok_reported (env : Env) (fuel now : Nat) (cs cs' : ServiceImpl) (c : Call)
    (h : cs.call env fuel now c = some (.ok (), cs')) :
    cs'.rootsrv.lastRoot = cs'.mt.RootKey env.hs ∧
      cs'.rootsrv.notified.getLast? = some (cs'.mt.RootKey env.hs) := by
  obtain ⟨e, ⟨mt, _, hmt, hroot⟩, _⟩ := call_ok_insert env fuel now cs cs' c h
  rw [hroot, hmt]
  simp [RootService.SetRoot]

/-- C14 at the first claim of an identity. -/
theorem call_ok_reported_witness :
    srvV0.call pairEnv 3 1000 (.AddClaimAuthorizeKSignFirst userId keyClaim)
        = some (.ok (), srvFirst) ∧
      (srvFirst.rootsrv.lastRoot = srvFirst.mt.RootKey pairEnv.hs ∧
        srvFirst.rootsrv.notified.getLast? = some (srvFirst.mt.RootKey pairEnv.hs)) :=
  ⟨rfl, call_ok_reported pairEnv 3 1000 srvV0 srvFirst
    (.AddClaimAuthorizeKSignFirst userId keyClaim) rfl⟩

/-! ## The versions the service inserts -/

theorem has_iff_mem (hs : Hasher) (mt : MerkleTree) (hi : Hash) (hwf : mt.WF hs) :
    mt.Has hs hi ↔ ∃ d, d ∈ mt.leaves ∧ hs.hIndex d = hi := by
  constructor
  · rintro ⟨d, hd⟩
    exact ⟨d, getDataByIndex_ok hs mt hi d hd⟩
  · rintro ⟨d, hmem, hidx⟩
    refine ⟨d, ?_⟩
    unfold MerkleTree.GetDataByIndex
    rw [← hidx, walk_of_mem hs _ _ _ _ _ ((wf_iff_separated hs mt).1 hwf) hmem (fun _ _ _ => rfl)]
    simp

theorem add_ok_has_mono (hs : Hasher) (mt mt' : MerkleTree) (e : Data) (hi : Hash)
    (hwf : mt.WF hs) (hadd : mt.Add hs e = .ok mt') (h : mt.Has hs hi) : mt'.Has hs hi := by
  rw [has_iff_mem hs mt hi hwf] at h
  rw [has_iff_mem hs mt' hi (add_ok_wf hs mt mt' e hwf hadd)]
  obtain ⟨d, hmem, hidx⟩ := h
  refine ⟨d, ?_, hidx⟩
  rw [add_ok_leaves hs mt mt' e hadd]
  exact List.mem_cons_of_mem _ hmem

theorem addSetRootKey_relay (env : Env) (fuel : Nat) (cs cs' : ServiceImpl) (idAddr : ID)
    (root : Hash) (r : Except Error Unit)
    (h : cs.addSetRootKey env fuel idAddr root = some (r, cs')) :
    cs'.mt = cs.mt ∨ r = .ok () := by
  cases r with
  | ok u => exact Or.inr rfl
  | error err =>
    left
    rw [addSetRootKey_error env fuel cs cs' idAddr root err h]

theorem call_relay (env : Env) (fuel now : Nat) (cs cs' : ServiceImpl) (c : Call)
    (r : Except Error Unit) (h : cs.call env fuel now c = some (r, cs')) :
    cs'.mt = cs.mt ∨ r = .ok () := by
  cases r with
  | ok u => exact Or.inr rfl
  | error err =>
    left
    cases c with
    | CommitNewIdRoot idaddr kSignPk root timestamp signature =>
      simp only [ServiceImpl.call] at h
      split at h
      · cases h
      · cases h
      · rename_i err1 cs1 hc
        simp only [Option.some.injEq, Prod.mk.injEq] at h
        obtain ⟨_, hcs⟩ := h
        subst hcs
        unfold ServiceImpl.CommitNewIdRoot at hc
        split at hc
        · simp only [Option.some.injEq, Prod.mk.injEq] at hc
          rw [← hc.2]
        · split at hc
          · simp only [Option.some.injEq, Prod.mk.injEq] at hc
            rw [← hc.2]
          · split at hc
            · simp only [Option.some.injEq, Prod.mk.injEq] at hc
              rw [← hc.2]
            · dsimp only at hc
              split at hc
              · simp only [Option.some.injEq, Prod.mk.injEq] at hc
                rw [← hc.2]
              · split at hc
                · cases hc
                · simp only [Option.some.injEq, Prod.mk.injEq] at hc
                  rw [← hc.2]
                · split at hc
                  · simp only [Option.some.injEq, Prod.mk.injEq] at hc
                    rw [← hc.2]
                  · cases hc
    | AddClaimAssignName claim =>
      simp only [ServiceImpl.call, ServiceImpl.AddClaimAssignName] at h
      split at h
      · cases h
      · simp only [Option.some.injEq, Prod.mk.injEq] at h
        rw [← h.2]
      · split at h
        · simp only [Option.some.injEq, Prod.mk.injEq] at h
          rw [← h.2]
        · cases h
    | AddClaimAuthorizeKSign idAddr msg =>
      simp only [ServiceImpl.call] at h
      rw [addClaimAuthorizeKSign_unfold] at h
      split at h
      · simp only [Option.some.injEq, Prod.mk.injEq] at h
        rw [← h.2]
      · split at h
        · simp only [Option.some.injEq, Prod.mk.injEq] at h
          rw [← h.2]
        · split at h
          · simp only [Option.some.injEq, Prod.mk.injEq] at h
            rw [← h.2]
          · split at h
            · simp only [Option.some.injEq, Prod.mk.injEq] at h
              rw [← h.2]
            · rw [addSetRootKey_error env fuel _ cs' idAddr _ err h]
              rfl
    | AddClaimAuthorizeKSignFirst idAddr claim =>
      simp only [ServiceImpl.call] at h
      rw [addClaimAuthorizeKSignFirst_unfold] at h
      split at h
      · simp only [Option.some.injEq, Prod.mk.injEq] at h
        rw [← h.2]
      · split at h
        · simp only [Option.some.injEq, Prod.mk.injEq] at h
          rw [← h.2]
        · rw [addSetRootKey_error env fuel _ cs' idAddr _ err h]
          rfl
    | AddClaimAuthorizeKSignSecp256k1First idAddr claim =>
      simp only [ServiceImpl.call] at h
      rw [addClaimAuthorizeKSignSecp256k1First_unfold] at h
      split at h
      · simp only [Option.some.injEq, Prod.mk.injEq] at h
        rw [← h.2]
      · split at h
        · simp only [Option.some.injEq, Prod.mk.injEq] at h
          rw [← h.2]
        · rw [addSetRootKey_error env fuel _ cs' idAddr _ err h]
          rfl
    | AddUserIdClaim idAddr msg =>
      simp only [ServiceImpl.call] at h
      rw [addUserIdClaim_unfold] at h
      split at h
      · simp only [Option.some.injEq, Prod.mk.injEq] at h
        rw [← h.2]
      · split at h
        · simp only [Option.some.injEq, Prod.mk.injEq] at h
          rw [← h.2]
        · split at h
          · simp only [Option.some.injEq, Prod.mk.injEq] at h
            rw [← h.2]
          · split at h
            · simp only [Option.some.injEq, Prod.mk.injEq] at h
              rw [← h.2]
            · rw [addSetRootKey_error env fuel _ cs' idAddr _ err h]
              rfl
    | AddDirectClaim claim =>
      simp only [ServiceImpl.call, ServiceImpl.AddDirectClaim, Option.some.injEq] at h
      split at h
      · simp only [Prod.mk.injEq] at h
        rw [← h.2]
      · cases h

theorem call_ok_prev_version (env : Env) (fuel now : Nat) (cs cs' : ServiceImpl) (c : Call)
    (hsound : ∀ mt d, ChainSound env.hs mt d) (hdirect : ∀ claim, c ≠ Call.AddDirectClaim claim)
    (h : cs.call env fuel now c = some (.ok (), cs')) :
    ∃ e mt, cs.mt.Add env.hs e = .ok mt ∧ cs'.mt = mt ∧ HasPrevVersion env.hs cs.mt e := by
  obtain ⟨e, ⟨mt, hadd, hmt, _⟩, hsrc⟩ := call_ok_insert env fuel now cs cs' c h
  refine ⟨e, mt, hadd, hmt, ?_⟩
  rcases hsrc with ⟨claim, hc, _⟩ | ⟨d, k, hver, he⟩
  · exact absurd hc (hdirect claim)
  · obtain ⟨hk, hpred⟩ := getNextVersion_pred env.hs cs.mt d fuel k (hsound _ _) hver
    have hversion : e.version = k := by
      rw [he, version_withVersion]
      exact Nat.mod_eq_of_lt hk
    unfold HasPrevVersion
    rw [hversion]
    rcases hpred with h0 | h1
    · exact Or.inl h0
    · right
      rw [he, withVersion_withVersion]
      exact h1

theorem reachable_wf (env : Env) (cs : ServiceImpl) (h : Reachable env cs) :
    cs.mt.WF env.hs := by
  induction h with
  | init => exact empty_wf env.hs 140
  | step cs cs' fuel now c r _ _ hcall ih =>
    rcases call_relay env fuel now cs cs' c r hcall with hsame | hok
    · rw [hsame]
      exact ih
    · subst hok
      obtain ⟨e, ⟨mt, hadd, hmt, _⟩, _⟩ := call_ok_insert env fuel now cs cs' c hcall
      rw [hmt]
      exact add_ok_wf env.hs cs.mt mt e ih hadd

theorem reachable_prev_version (env : Env) (cs : ServiceImpl)
    (hsound : ∀ mt d, ChainSound env.hs mt d) (h : Reachable env cs) :
    ∀ e, e ∈ cs.mt.leaves → HasPrevVersion env.hs cs.mt e := by
  induction h with
  | init =>
    intro e he
    simp [ServiceImpl.init, MerkleTree.empty] at he
  | step cs cs' fuel now c r hreach hdirect hcall ih =>
    rcases call_relay env fuel now cs cs' c r hcall with hsame | hok
    · rw [hsame]
      exact ih
    · subst hok
      obtain ⟨e, mt, hadd, hmt, hprev⟩ :=
        call_ok_prev_version env fuel now cs cs' c hsound hdirect hcall
      have hwf := reachable_wf env cs hreach
      have hmono : ∀ d, HasPrevVersion env.hs cs.mt d → HasPrevVersion env.hs mt d := by
        intro d hd
        rcases hd with h0 | h1
        · exact Or.inl h0
        · exact Or.inr (add_ok_has_mono env.hs cs.mt mt e _ hwf hadd h1)
      intro e' he'
      rw [hmt] at he' ⊢
      rw [add_ok_leaves env.hs cs.mt mt e hadd] at he'
      rcases List.mem_cons.1 he' with heq | hold
      · rw [heq]
        exact hmono e hprev
      · exact hmono e' (ih e' hold)

/-- C15, as amended: with an index hash free of collisions between the versions of a
claim, every successful call other than `AddDirectClaim`, made in a state such calls
lead to, adds to the relay tree an entry that is at version 0 or whose previous
version the relay tree holds; so every leaf of such a relay tree is at version 0 or
has its previous version in the tree. -/
theorem reachable_versions (env : Env) (cs : ServiceImpl)
    (hsound : ∀ mt d, ChainSound env.hs mt d) (h : Reachable env cs) :
    (∀ fuel now c cs', (∀ claim, c ≠ Call.AddDirectClaim claim) →
        cs.call env fuel now c = some (.ok (), cs') →
        ∃ e, cs'.mt.leaves = e :: cs.mt.leaves ∧ HasPrevVersion env.hs cs.mt e) ∧
      (∀ e, e ∈ cs.mt.leaves → HasPrevVersion env.hs cs.mt e) := by
  refine ⟨?_, reachable_prev_version env cs hsound h⟩
  intro fuel now c cs' hdirect hcall
  obtain ⟨e, mt, hadd, hmt, hprev⟩ :=
    call_ok_prev_version env fuel now cs cs' c hsound hdirect hcall
  refine ⟨e, ?_, hprev⟩
  rw [hmt, add_ok_leaves env.hs cs.mt mt e hadd]

/-- The amended C15 at the service after a first name claim. -/
theorem reachable_versions_witness :
    ((∀ mt d, ChainSound pairEnv.hs mt d) ∧ Reachable pairEnv srvNamed) ∧
      ((∀ fuel now c cs', (∀ claim, c ≠ Call.AddDirectClaim claim) →
          srvNamed.call pairEnv fuel now c = some (.ok (), cs') →
          ∃ e, cs'.mt.leaves = e :: srvNamed.mt.leaves ∧
            HasPrevVersion pairEnv.hs srvNamed.mt e) ∧
        (∀ e, e ∈ srvNamed.mt.leaves → HasPrevVersion pairEnv.hs srvNamed.mt e)) :=
  have hreach : Reachable pairEnv srvNamed :=
    Reachable.step ServiceImpl.init srvNamed 3 1000 (.AddClaimAssignName nameV0) (.ok ())
      Reachable.init (fun _ hc => by cases hc) rfl
  ⟨⟨pairHasher_chainSound, hreach⟩,
    reachable_versions pairEnv srvNamed pairHasher_chainSound hreach⟩

/-- C15 fails as stated: `AddDirectClaim` adds a basic claim at version 1 to the empty
relay tree, which does not hold its version 0, neither before nor after. -/
theorem addDirectClaim_any_version :
    srvEmpty.call pairEnv 3 1000 (.AddDirectClaim basicV1) = some (.ok (), srvBasic1) ∧
      srvBasic1.mt.leaves = basicV1.Entry :: srvEmpty.mt.leaves ∧
      basicV1.Entry.version = 0 + 1 ∧
      ¬ srvEmpty.mt.Has pairHasher (pairHasher.hIndex (basicV1.Entry.withVersion 0)) ∧
      ¬ srvBasic1.mt.Has pairHasher (pairHasher.hIndex (basicV1.Entry.withVersion 0)) := by
  refine ⟨rfl, rfl, rfl, ?_, ?_⟩
  · rw [not_has_iff]
    rfl
  · rw [not_has_iff]
    rfl

/-! ## `GetNextVersion` over pointers -/

theorem getD_append_length {α : Type} (l : List α) (a x : α) :
    (l ++ [a]).getD l.length x = a := by
  simp [List.getD]

theorem getD_append_lt {α : Type} (l l' : List α) (x : α) (p : Nat) (h : p < l.length) :
    (l ++ l').getD p x = l.getD p x := by
  simp [List.getD, List.getElem?_append_left h]

theorem set_append_length {α : Type} (l : List α) (a b : α) :
    (l ++ [a]).set l.length b = l ++ [b] := by
  induction l with
  | nil => rfl
  | cons x l ih => simp [ih]

theorem memLoop_frame (hs : Hasher) (fuel : Nat) :
    ∀ (m : Memory) (hi version : Nat), hi < m.hashes.length →
      (GetNextVersionMemLoop hs fuel m hi version).map Prod.fst =
          GetNextVersionLoop hs m.mt fuel (m.hashAt hi) version ∧
        ∀ r m2, GetNextVersionMemLoop hs fuel m hi version = some (r, m2) →
          m2.mt = m.mt ∧ ∃ hs2 ds2, m2.hashes = m.hashes ++ hs2 ∧ m2.datas = m.datas ++ ds2 := by
  induction fuel with
  | zero =>
    intro m hi version _
    simp [GetNextVersionMemLoop, GetNextVersionLoop]
  | succ fuel ih =>
    intro m hi version hhi
    unfold GetNextVersionMemLoop GetNextVersionLoop
    unfold Memory.GetDataByIndex
    cases hread : m.mt.GetDataByIndex hs (m.hashAt hi) with
    | error err =>
      cases err <;> simp
    | ok d =>
      simp only [Memory.newData, Memory.SetClaimTypeVersionInData, Memory.HIndex,
        Memory.newHash, Memory.dataAt, getD_append_length, set_append_length]
      have hstep := ih
        { mt := m.mt
          hashes := m.hashes ++ [hs.hIndex (SetClaimTypeVersionInData d
            (GetClaimTypeVersionFromData d).1
            (((GetClaimTypeVersionFromData d).2 + 1) % 2 ^ 32))]
          datas := m.datas ++ [SetClaimTypeVersionInData d (GetClaimTypeVersionFromData d).1
            (((GetClaimTypeVersionFromData d).2 + 1) % 2 ^ 32)] }
        m.hashes.length (((GetClaimTypeVersionFromData d).2 + 1) % 2 ^ 32) (by simp)
      simp only [Memory.hashAt, getD_append_length] at hstep
      refine ⟨hstep.1, ?_⟩
      intro r m2 hrun
      obtain ⟨hmt, hs2, ds2, hh, hd⟩ := hstep.2 r m2 hrun
      refine ⟨hmt, [hs.hIndex (SetClaimTypeVersionInData d (GetClaimTypeVersionFromData d).1
        (((GetClaimTypeVersionFromData d).2 + 1) % 2 ^ 32))] ++ hs2,
        [SetClaimTypeVersionInData d (GetClaimTypeVersionFromData d).1
          (((GetClaimTypeVersionFromData d).2 + 1) % 2 ^ 32)] ++ ds2, ?_, ?_⟩
      · rw [hh, List.append_assoc]
      · rw [hd, List.append_assoc]

/-- C16: `GetNextVersion` changes neither the tree nor the caller's hash. Run over a
memory where `hi` points to a hash cell, it gives the result of the function of the
tree and of that hash alone, and in the memory it ends in the tree is the one it
started in, with the same root and the same data at every index, the cell `hi`
points to holds the same hash, and so does every cell that existed before: the
header is written into a cell the call made itself. -/
theorem getNextVersion_pure (hs : Hasher) (fuel : Nat) (m : Memory) (hi : Nat)
    (hhi : hi < m.hashes.length) :
    (GetNextVersionMem hs fuel m hi).map Prod.fst = GetNextVersion hs m.mt fuel (m.hashAt hi) ∧
      ∀ r m2, GetNextVersionMem hs fuel m hi = some (r, m2) →
        m2.mt = m.mt ∧ m2.mt.RootKey hs = m.mt.RootKey hs ∧
          (∀ i, m2.mt.GetDataByIndex hs i = m.mt.GetDataByIndex hs i) ∧
          m2.hashAt hi = m.hashAt hi ∧
          (∀ p, p < m.hashes.length → m2.hashAt p = m.hashAt p) ∧
          (∀ p, p < m.datas.length → m2.dataAt p = m.dataAt p) := by
  obtain ⟨hres, hframe⟩ := memLoop_frame hs fuel m hi 0 hhi
  refine ⟨hres, ?_⟩
  intro r m2 hrun
  obtain ⟨hmt, hs2, ds2, hh, hd⟩ := hframe r m2 hrun
  have hhash : ∀ p, p < m.hashes.length → m2.hashAt p = m.hashAt p := by
    intro p hp
    unfold Memory.hashAt
    rw [hh]
    exact getD_append_lt m.hashes hs2 0 p hp
  refine ⟨hmt, by rw [hmt], fun i => by rw [hmt], hhash hi hhi, hhash, ?_⟩
  intro p hp
  unfold Memory.dataAt
  rw [hd]
  exact getD_append_lt m.datas ds2 _ p hp

/-- C16 on the tree with the versions 0 and 1 of the name claim: the call returns 2
and leaves the tree and the caller's hash as they were. -/
theorem getNextVersion_pure_witness :
    0 < memV01.hashes.length ∧
      ((GetNextVersionMem pairHasher 5 memV01 0).map Prod.fst = some (.ok 2) ∧
        (GetNextVersionMem pairHasher 5 memV01 0).map Prod.fst =
          GetNextVersion pairHasher memV01.mt 5 (memV01.hashAt 0) ∧
        ∀ r m2, GetNextVersionMem pairHasher 5 memV01 0 = some (r, m2) →
          m2.mt = memV01.mt ∧ m2.mt.RootKey pairHasher = memV01.mt.RootKey pairHasher ∧
            (∀ i, m2.mt.GetDataByIndex pairHasher i = memV01.mt.GetDataByIndex pairHasher i) ∧
            m2.hashAt 0 = memV01.hashAt 0 ∧
            (∀ p, p < memV01.hashes.length → m2.hashAt p = memV01.hashAt p) ∧
            (∀ p, p < memV01.datas.length → m2.dataAt p = memV01.dataAt p)) :=
  ⟨by decide, rfl, getNextVersion_pure pairHasher 5 memV01 0 (by decide)⟩

/-! ## The root publisher -/

/-- C17, as amended: for every root `r` other than the zero hash, if a pass of the
publisher loop calls `updateRoot` with `r` and the call fails, and the root service
still holds `r` at the next pass, then the next pass calls `updateRoot` with `r`
again, whatever that call returns. -/
theorem publisher_retries (p : Publisher) (s s2 : RootService) (r : Hash) (fails2 : Bool)
    (hr : r ≠ zeroHash) (hcall : (p.tick s true).updated = p.updated ++ [r])
    (hstill : s2.getLastRoot = r) :
    ((p.tick s true).tick s2 fails2).updated = p.updated ++ [r, r] := by
  have hfirst : p.tick s true = { lastRoot := zeroHash, updated := p.updated ++ [r] } := by
    unfold Publisher.tick at hcall ⊢
    by_cases hne : p.lastRoot = s.getLastRoot
    · simp [hne] at hcall
    · simp [hne] at hcall ⊢
      exact hcall
  rw [hfirst]
  unfold Publisher.tick
  have hne : ¬ zeroHash = r := fun h => hr h.symm
  cases fails2 <;> simp [hne, hstill]

/-- The amended C17 on the root 5: the first call fails, the second pass calls
again. -/
theorem publisher_retries_witness :
    ((5 : Hash) ≠ zeroHash ∧
        ((Publisher.start { lastRoot := zeroHash, notified := [] }).tick rootsrvFive true).updated
          = (Publisher.start { lastRoot := zeroHash, notified := [] }).updated ++ [5] ∧
        rootsrvFive.getLastRoot = 5) ∧
      (((Publisher.start { lastRoot := zeroHash, notified := [] }).tick rootsrvFive true).tick
        rootsrvFive false).updated
          = (Publisher.start { lastRoot := zeroHash, notified := [] }).updated ++ [5, 5] :=
  ⟨⟨by decide, rfl, rfl⟩,
    publisher_retries (Publisher.start { lastRoot := zeroHash, notified := [] })
      rootsrvFive rootsrvFive 5 false (by decide) rfl rfl⟩

/-- C17 fails for the zero hash: after the root 5 was published, the service is given
the zero hash; the pass that calls `updateRoot` with it fails, and the next pass,
with the service still at the zero hash, calls nothing. -/
theorem publisher_zero_not_retried :
    publisherFive.updated = [5] ∧
      rootsrvZero.getLastRoot = zeroHash ∧
      (publisherFive.tick rootsrvZero true).updated = publisherFive.updated ++ [zeroHash] ∧
      ((publisherFive.tick rootsrvZero true).tick rootsrvZero false).updated
        = publisherFive.updated ++ [zeroHash] ∧
      ((publisherFive.tick rootsrvZero true).tick rootsrvZero true).updated
        = publisherFive.updated ++ [zeroHash] := by
  decide

/-! ## `LoadGenesis` -/

theorem loadGenesis_equal_fails (env : GenesisEnv) (mt : MerkleTree) (len : Nat)
    (hid : env.CalculateIdGenesis.1 = env.Id) (hstorage : env.NewLevelDbStorage = .ok ())
    (hmt : env.NewMerkleTree = .ok mt) (hlist : env.StorageList = .ok len) (hlen : len ≠ 0)
    (hread : mt.GetDataByIndex env.hs (env.hs.hIndex env.CalculateIdGenesis.2.KOp.Leaf)
      = .ok env.CalculateIdGenesis.2.KOp.Leaf) :
    LoadGenesis env = .error .claimDoesNotMatch := by
  unfold LoadGenesis
  simp [hid, hstorage, hmt, hlist, hlen, checkGenesisClaims, hread, Data.Equal]

/-- C18 fails on the code: on a storage that holds the tree a first start built from
the four genesis claims, each claim is read back equal to its leaf, and `LoadGenesis`
returns the error "Claim from the merkle tree doesn't match the expected claim". -/
theorem loadGenesis_second_run :
    LoadGenesis genesisFirstRun = .ok genesisClaims ∧
      addGenesisClaims pairHasher (MerkleTree.empty 140)
        [genesisClaims.KOp, genesisClaims.KDis, genesisClaims.KReen, genesisClaims.KUpdateRoot]
        = .ok genesisTree ∧
      (∀ proofClaim, proofClaim ∈ [genesisClaims.KOp, genesisClaims.KDis, genesisClaims.KReen,
          genesisClaims.KUpdateRoot] →
        genesisTree.GetDataByIndex pairHasher (pairHasher.hIndex proofClaim.Leaf)
          = .ok proofClaim.Leaf) ∧
      LoadGenesis genesisSecondRun = .error .claimDoesNotMatch := by
  refine ⟨rfl, rfl, ?_, rfl⟩
  intro proofClaim hmem
  simp only [List.mem_cons, List.mem_singleton, List.not_mem_nil, or_false] at hmem
  rcases hmem with h | h | h | h <;> subst h <;> rfl

/-! ## Decoding claims -/

theorem beNat_append_singleton (bs : List Nat) (b : Nat) :
    beNat (bs ++ [b]) = beNat bs * 256 + b := by
  simp [beNat, List.foldl_append]

theorem beBytes_succ (len n : Nat) :
    beBytes (len + 1) n = beBytes len (n / 256) ++ [n % 256] := by
  unfold beBytes
  rw [List.range_succ_eq_map, List.reverse_cons, List.map_append, List.map_reverse,
    List.map_reverse, List.map_map]
  congr 1
  · congr 1
    apply List.map_congr_left
    intro i _
    simp only [Function.comp, pow_succ, Nat.div_div_eq_div_mul]
    rw [Nat.mul_comm]
  · simp

theorem beBytes_beNat (bs : List Nat) (hbytes : ∀ b, b ∈ bs → b < 256) :
    beBytes bs.length (beNat bs) = bs := by
  induction bs using List.reverseRecOn with
  | nil => rfl
  | append_singleton bs b ih =>
    have hb : b < 256 := hbytes b (by simp)
    have hbs : ∀ x, x ∈ bs → x < 256 := fun x hx => hbytes x (by simp [hx])
    rw [List.length_append, List.length_singleton, beBytes_succ, beNat_append_singleton]
    have h1 : (beNat bs * 256 + b) / 256 = beNat bs := by omega
    have h2 : (beNat bs * 256 + b) % 256 = b := by omega
    rw [h1, h2, ih hbs]

theorem beNat_lt (bs : List Nat) (hbytes : ∀ b, b ∈ bs → b < 256) :
    beNat bs < 256 ^ bs.length := by
  induction bs using List.reverseRecOn with
  | nil => simp [beNat]
  | append_singleton bs b ih =>
    have hb : b < 256 := hbytes b (by simp)
    have hbs : ∀ x, x ∈ bs → x < 256 := fun x hx => hbytes x (by simp [hx])
    have := ih hbs
    rw [List.length_append, List.length_singleton, beNat_append_singleton, pow_succ]
    omega

theorem claimLinkObjectIdentity_entry_testVector :
    testClaimLinkObjectIdentity.Entry.Bytes =
      [0x00, 0x01, 0x02, 0x03, 0x04, 0x05, 0x06, 0x07, 0x08, 0x09, 0x0a, 0x0b, 0x0c, 0x0d,
        0x0e, 0x0f, 0x01, 0x02, 0x03, 0x04, 0x05, 0x06, 0x07, 0x09, 0x0a, 0x0b, 0x0c, 0x0d,
        0x0e, 0x0f, 0x01, 0x02]
        ++ ([0x00] ++ List.replicate 30 0x0b ++ [0x0c])
        ++ ([0x00, 0x00, 0x00, 0x3c, 0xc1, 0xc9, 0x68, 0xfa] ++ List.replicate 22 0x00
            ++ [0x03, 0x28])
        ++ (List.replicate 16 0x00 ++ [0, 0, 0, 1] ++ [0, 0, 0, 1]
            ++ [0, 0, 0, 0, 0, 0, 0, 5]) := by
  decide

theorem header_fields (hi a b t : Nat) (ha : a < 2 ^ 32) (hb : b < 2 ^ 32) (ht : t < 2 ^ 64) :
    (hi * 2 ^ 128 + a * 2 ^ 96 + b * 2 ^ 64 + t) % 2 ^ 64 = t ∧
      (hi * 2 ^ 128 + a * 2 ^ 96 + b * 2 ^ 64 + t) / 2 ^ 64 % 2 ^ 32 = b ∧
      (hi * 2 ^ 128 + a * 2 ^ 96 + b * 2 ^ 64 + t) / 2 ^ 96 % 2 ^ 32 = a := by
  omega

/-- C19: for every `ClaimSetRootKey` whose version and era are `uint32` values and
whose id is 31 bytes, decoding its entry gives the claim back, with
`NewClaimSetRootKeyFromEntry` and with `NewClaimFromEntry`, which succeeds. -/
theorem claimSetRootKey_round_trip (rest : Data → Except Error Claim) (c : ClaimSetRootKey)
    (hversion : c.Version < 2 ^ 32) (hera : c.Era < 2 ^ 32) (hlen : c.Id.length = 31)
    (hbytes : ∀ b, b ∈ c.Id → b < 256) :
    NewClaimSetRootKeyFromEntry c.Entry = c ∧
      NewClaimFromEntry rest c.Entry = .ok (.SetRootKey c) := by
  have hid : beBytes 31 (beNat c.Id) = c.Id := by
    rw [← hlen]
    exact beBytes_beNat c.Id hbytes
  have hfields := header_fields 0 c.Era c.Version ClaimTypeSetRootKey hera hversion
    (by decide)
  have hdecode : NewClaimSetRootKeyFromEntry c.Entry = c := by
    cases c with
    | mk Version Era Id RootKey =>
      simp only [NewClaimSetRootKeyFromEntry, ClaimSetRootKey.Entry, GetClaimTypeVersionFromData,
        ClaimSetRootKey.mk.injEq] at hid hfields hversion hera ⊢
      rw [Nat.mod_eq_of_lt hversion, Nat.mod_eq_of_lt hera]
      refine ⟨?_, ?_, hid, trivial⟩
      · have := hfields.2.1
        omega
      · have := hfields.2.2
        omega
  refine ⟨hdecode, ?_⟩
  have htype : (GetClaimTypeVersionFromData c.Entry).1 = ClaimTypeSetRootKey := by
    simp only [GetClaimTypeVersionFromData, ClaimSetRootKey.Entry, ClaimTypeSetRootKey]
    omega
  unfold NewClaimFromEntry
  simp only [htype, if_true, hdecode]

/-- C19 on the claim of the test `TestClaimSetRootKey`. -/
theorem claimSetRootKey_round_trip_witness :
    (testClaimSetRootKey.Version < 2 ^ 32 ∧ testClaimSetRootKey.Era < 2 ^ 32 ∧
        testClaimSetRootKey.Id.length = 31 ∧ ∀ b, b ∈ testClaimSetRootKey.Id → b < 256) ∧
      NewClaimSetRootKeyFromEntry testClaimSetRootKey.Entry = testClaimSetRootKey ∧
      NewClaimFromEntry (fun e => .ok (.other e)) testClaimSetRootKey.Entry
        = .ok (.SetRootKey testClaimSetRootKey) :=
  ⟨⟨by decide, by decide, by decide, by decide⟩,
    claimSetRootKey_round_trip (fun e => .ok (.other e)) testClaimSetRootKey
      (by decide) (by decide) (by decide) (by decide)⟩

theorem link_header_fields (i o v t : Nat) (hi : i < 2 ^ 16) (ho : o < 2 ^ 8)
    (hv : v < 2 ^ 32) (ht : t < 2 ^ 64) :
    (i * 2 ^ 104 + o * 2 ^ 96 + v * 2 ^ 64 + t) % 2 ^ 64 = t ∧
      (i * 2 ^ 104 + o * 2 ^ 96 + v * 2 ^ 64 + t) / 2 ^ 64 % 2 ^ 32 = v ∧
      (i * 2 ^ 104 + o * 2 ^ 96 + v * 2 ^ 64 + t) / 2 ^ 96 % 2 ^ 8 = o ∧
      (i * 2 ^ 104 + o * 2 ^ 96 + v * 2 ^ 64 + t) / 2 ^ 104 % 2 ^ 16 = i := by
  omega

/-- C20: for every claim built by `NewClaimLinkObjectIdentity` from an object type of
one byte, an index type of two bytes, an id of 31 bytes, any object hash and at most
32 bytes of auxiliary data, and then set to any `uint32` version, decoding its entry
gives the claim back, with `NewClaimLinkObjectIdentityFromEntry` and with
`NewClaimFromEntry`, which succeeds. -/
theorem claimLinkObjectIdentity_round_trip (rest : Data → Except Error Claim)
    (objectType indexType version : Nat) (id : ID) (objectHash auxData : List Nat)
    (hobject : objectType < 2 ^ 8) (hindex : indexType < 2 ^ 16) (hversion : version < 2 ^ 32)
    (hlen : id.length = 31) (hbytes : ∀ b, b ∈ id → b < 256)
    (hauxlen : auxData.length ≤ 32) (hauxbytes : ∀ b, b ∈ auxData → b < 256) :
    NewClaimLinkObjectIdentityFromEntry
        ({ NewClaimLinkObjectIdentity objectType indexType id objectHash auxData with
            Version := version } : ClaimLinkObjectIdentity).Entry
        = { NewClaimLinkObjectIdentity objectType indexType id objectHash auxData with
            Version := version } ∧
      NewClaimFromEntry rest
        ({ NewClaimLinkObjectIdentity objectType indexType id objectHash auxData with
            Version := version } : ClaimLinkObjectIdentity).Entry
        = .ok (.LinkObjectIdentity
            { NewClaimLinkObjectIdentity objectType indexType id objectHash auxData with
              Version := version }) := by
  have hid : beBytes 31 (beNat id) = id := by
    rw [← hlen]
    exact beBytes_beNat id hbytes
  have haux : beNat auxData % 2 ^ 256 = beNat auxData := by
    apply Nat.mod_eq_of_lt
    calc beNat auxData < 256 ^ auxData.length := beNat_lt auxData hauxbytes
      _ ≤ 256 ^ 32 := Nat.pow_le_pow_right (by decide) hauxlen
      _ = 2 ^ 256 := by norm_num
  have hfields := link_header_fields indexType objectType version ClaimTypeLinkObjectIdentity
    hindex hobject hversion (by decide)
  have hdecode : NewClaimLinkObjectIdentityFromEntry
      ({ NewClaimLinkObjectIdentity objectType indexType id objectHash auxData with
          Version := version } : ClaimLinkObjectIdentity).Entry
      = { NewClaimLinkObjectIdentity objectType indexType id objectHash auxData with
          Version := version } := by
    simp only [NewClaimLinkObjectIdentityFromEntry, ClaimLinkObjectIdentity.Entry,
      NewClaimLinkObjectIdentity, GetClaimTypeVersionFromData,
      ClaimLinkObjectIdentity.mk.injEq]
    rw [Nat.mod_eq_of_lt hversion, Nat.mod_eq_of_lt hobject, Nat.mod_eq_of_lt hindex]
    exact ⟨hfields.2.1, hfields.2.2.1, hfields.2.2.2, hid, Nat.mod_mod _ _, haux⟩
  refine ⟨hdecode, ?_⟩
  have htype : (GetClaimTypeVersionFromData
      ({ NewClaimLinkObjectIdentity objectType indexType id objectHash auxData with
          Version := version } : ClaimLinkObjectIdentity).Entry).1
      = ClaimTypeLinkObjectIdentity := by
    simp only [GetClaimTypeVersionFromData, ClaimLinkObjectIdentity.Entry,
      NewClaimLinkObjectIdentity, ClaimTypeLinkObjectIdentity]
    omega
  have hne : ClaimTypeLinkObjectIdentity ≠ ClaimTypeSetRootKey := by decide
  unfold NewClaimFromEntry
  simp only [htype, hne, if_true, if_false, hdecode]

/-- C20 on the claim of the test `TestClaimLinkObjectIdentity`, whose object hash
starts with a byte that is not zero. -/
theorem claimLinkObjectIdentity_round_trip_witness :
    (ObjectTypeAddress < 2 ^ 8 ∧ 0 < 2 ^ 16 ∧ 1 < 2 ^ 32 ∧ testId.length = 31 ∧
        (∀ b, b ∈ testId → b < 256)) ∧
      NewClaimLinkObjectIdentityFromEntry testClaimLinkObjectIdentity.Entry
        = testClaimLinkObjectIdentity ∧
      NewClaimFromEntry (fun e => .ok (.other e)) testClaimLinkObjectIdentity.Entry
        = .ok (.LinkObjectIdentity testClaimLinkObjectIdentity) :=
  ⟨⟨by decide, by decide, by decide, by decide, by decide⟩,
    claimLinkObjectIdentity_round_trip (fun e => .ok (.other e)) ObjectTypeAddress 0 1 testId
      (List.replicate 31 0x0b ++ [0x0c])
      [0x00, 0x01, 0x02, 0x03, 0x04, 0x05, 0x06, 0x07, 0x08, 0x09, 0x0a, 0x0b, 0x0c, 0x0d,
        0x0e, 0x0f, 0x01, 0x02, 0x03, 0x04, 0x05, 0x06, 0x07, 0x09, 0x0a, 0x0b, 0x0c, 0x0d,
        0x0e, 0x0f, 0x01, 0x02]
      (by decide) (by decide) (by decide) (by decide) (by decide) (by decide) (by decide)⟩

/-! ## Runs of the root publisher -/

theorem setRoots_getLastRoot (s : RootService) (roots : List Hash) :
    (s.SetRoots roots).getLastRoot = roots.getLast?.getD s.getLastRoot := by
  induction roots generalizing s with
  | nil => rfl
  | cons r rest ih =>
    have hstep : s.SetRoots (r :: rest) = (s.SetRoot r).SetRoots rest := rfl
    rw [hstep, ih]
    cases rest with
    | nil => rfl
    | cons r2 rest2 =>
      cases hlast : (r2 :: rest2).getLast? with
      | none => simp at hlast
      | some x =>
        rw [List.getLast?_cons_cons, hlast]
        rfl

theorem tick_updated (p : Publisher) (s : RootService) (fails : Bool) :
    (p.tick s fails).updated
      = if p.lastRoot = s.getLastRoot then p.updated else p.updated ++ [s.getLastRoot] := by
  unfold Publisher.tick
  by_cases h : p.lastRoot = s.getLastRoot
  · simp [h]
  · cases fails <;> simp [h]

theorem tick_initial (r0 : Hash) (p : Publisher) (s : RootService) (fails : Bool)
    (h : (p.updated = [] ∧ p.lastRoot = r0) ∨ ∃ r rest, p.updated = r :: rest ∧ r ≠ r0) :
    ((p.tick s fails).updated = [] ∧ (p.tick s fails).lastRoot = r0) ∨
      ∃ r rest, (p.tick s fails).updated = r :: rest ∧ r ≠ r0 := by
  unfold Publisher.tick
  by_cases hsame : p.lastRoot = s.getLastRoot
  · simpa [hsame] using h
  · right
    rcases h with ⟨hnil, hlast⟩ | ⟨r, rest, hcons, hne⟩
    · refine ⟨s.getLastRoot, [], ?_, ?_⟩
      · cases fails <;> simp [hsame, hnil]
      · rw [← hlast]
        exact fun h => hsame h.symm
    · refine ⟨r, rest ++ [s.getLastRoot], ?_, hne⟩
      cases fails <;> simp [hsame, hcons]

theorem run_initial (r0 : Hash) (rounds : List (List Hash × Bool)) :
    ∀ (p : Publisher) (s : RootService),
      ((p.updated = [] ∧ p.lastRoot = r0) ∨ ∃ r rest, p.updated = r :: rest ∧ r ≠ r0) →
      (((p.run s rounds).1.updated = [] ∧ (p.run s rounds).1.lastRoot = r0) ∨
        ∃ r rest, (p.run s rounds).1.updated = r :: rest ∧ r ≠ r0) := by
  induction rounds with
  | nil => intro p s h; exact h
  | cons round rest ih =>
    intro p s h
    exact ih _ _ (tick_initial r0 p _ round.2 h)

theorem run_same_root (r0 : Hash) (rounds : List (List Hash × Bool))
    (hall : ∀ round, round ∈ rounds → ∀ r, r ∈ round.1 → r = r0) :
    ∀ (p : Publisher) (s : RootService), p.lastRoot = r0 → s.getLastRoot = r0 →
      (p.run s rounds).1 = p ∧ (p.run s rounds).2.getLastRoot = r0 := by
  induction rounds with
  | nil => intro p s _ hs; exact ⟨rfl, hs⟩
  | cons round rest ih =>
    intro p s hp hs
    have hroot : (s.SetRoots round.1).getLastRoot = r0 := by
      rw [setRoots_getLastRoot]
      cases hlast : round.1.getLast? with
      | none => exact hs
      | some r =>
        exact hall round (List.mem_cons_self _ _) r (List.mem_of_mem_getLast? hlast)
    have htick : p.tick (s.SetRoots round.1) round.2 = p := by
      unfold Publisher.tick
      simp [hp, hroot]
    have hstep : p.run s (round :: rest)
        = (p.tick (s.SetRoots round.1) round.2).run (s.SetRoots round.1) rest := rfl
    rw [hstep, htick]
    exact ih (fun round2 hmem => hall round2 (List.mem_cons_of_mem _ hmem)) p _ hp hroot

/-- C30: started on a service that holds a root, the publisher loop calls `updateRoot`
with nothing as long as `SetRoot` is only called with that root, whatever the number
of passes; and in every run the first root it calls `updateRoot` with is another one
than the root the service held at the start. -/
theorem publisher_initial_root (s : RootService) (rounds : List (List Hash × Bool)) :
    ((∀ round, round ∈ rounds → ∀ r, r ∈ round.1 → r = s.getLastRoot) →
        ((Publisher.start s).run s rounds).1.updated = []) ∧
      (∀ r rest, ((Publisher.start s).run s rounds).1.updated = r :: rest →
        r ≠ s.getLastRoot) := by
  constructor
  · intro hall
    rw [(run_same_root s.getLastRoot rounds hall (Publisher.start s) s rfl rfl).1]
    rfl
  · intro r rest hrun
    rcases run_initial s.getLastRoot rounds (Publisher.start s) s (Or.inl ⟨rfl, rfl⟩) with
      ⟨hnil, _⟩ | ⟨r2, rest2, hcons, hne⟩
    · rw [hnil] at hrun
      cases hrun
    · rw [hcons] at hrun
      injection hrun with hhead _
      rw [← hhead]
      exact hne

/-- C30 on a service that holds the root 5 at the start and is given it three more
times over three passes: nothing is published. -/
theorem publisher_initial_root_witness :
    (∀ round, round ∈ roundsFive → ∀ r, r ∈ round.1 → r = rootsrvFive.getLastRoot) ∧
      ((Publisher.start rootsrvFive).run rootsrvFive roundsFive).1.updated = [] :=
  ⟨by decide, (publisher_initial_root rootsrvFive roundsFive).1 (by decide)⟩

/-! ## `LoadSignedPacketSigner` -/

/-- C22: when `AddClaim` fails with `ErrEntryIndexAlreadyExists`,
`LoadSignedPacketSigner` does not panic on it but goes on to `GetClaimProofByHi` at
the index of the claim, on the service as `AddClaim` left it, and ends as that call
does, as it would after an `AddClaim` without error; when `AddClaim` fails with any
other error, it panics with that error. -/
theorem loadSignedPacketSigner_add_error (env : Env) (now : Nat) (configId : ID)
    (AddClaim : ServiceImpl → Data → Option Error × ServiceImpl) (cs cs2 : ServiceImpl)
    (claim : ClaimAuthorizeKSign) (err : Error)
    (hadd : AddClaim cs claim.Entry = (some err, cs2)) :
    (err = .ErrEntryIndexAlreadyExists →
        LoadSignedPacketSigner env now configId AddClaim cs claim
          = (match cs2.GetClaimProofByHi env now (env.hs.hIndex claim.Entry) with
            | .error e => (.panicked e, cs2)
            | .ok proofKSign => (.returned { proofKSign := proofKSign, id := configId }, cs2)) ∧
        LoadSignedPacketSigner env now configId AddClaim cs claim
          = LoadSignedPacketSigner env now configId (fun _ _ => (none, cs2)) cs claim) ∧
      (err ≠ .ErrEntryIndexAlreadyExists →
        LoadSignedPacketSigner env now configId AddClaim cs claim = (.panicked err, cs2)) := by
  constructor
  · intro herr
    subst herr
    simp only [LoadSignedPacketSigner, hadd, ne_eq, not_true_eq_false, if_false, and_self]
  · intro herr
    simp only [LoadSignedPacketSigner, hadd, ne_eq, herr, not_false_eq_true, if_true]

/-- C22 at a service whose relay tree already holds the claim: the call returns the
signer with the proof of the claim. -/
theorem loadSignedPacketSigner_add_error_witness :
    addClaimDirect srvKey keyClaim.Entry = (some .ErrEntryIndexAlreadyExists, srvKey) ∧
      (∃ signer, LoadSignedPacketSigner pairEnv 1000 userId addClaimDirect srvKey keyClaim
        = (.returned signer, srvKey)) ∧
      ((Error.ErrEntryIndexAlreadyExists = .ErrEntryIndexAlreadyExists →
          LoadSignedPacketSigner pairEnv 1000 userId addClaimDirect srvKey keyClaim
            = (match srvKey.GetClaimProofByHi pairEnv 1000 (pairEnv.hs.hIndex keyClaim.Entry) with
              | .error e => (.panicked e, srvKey)
              | .ok proofKSign =>
                (.returned { proofKSign := proofKSign, id := userId }, srvKey)) ∧
          LoadSignedPacketSigner pairEnv 1000 userId addClaimDirect srvKey keyClaim
            = LoadSignedPacketSigner pairEnv 1000 userId (fun _ _ => (none, srvKey)) srvKey
                keyClaim) ∧
        (Error.ErrEntryIndexAlreadyExists ≠ .ErrEntryIndexAlreadyExists →
          LoadSignedPacketSigner pairEnv 1000 userId addClaimDirect srvKey keyClaim
            = (.panicked .ErrEntryIndexAlreadyExists, srvKey))) :=
  ⟨rfl, ⟨_, rfl⟩,
    loadSignedPacketSigner_add_error pairEnv 1000 userId addClaimDirect srvKey srvKey keyClaim
      .ErrEntryIndexAlreadyExists rfl⟩

/-! ## The bytes of an entry -/

theorem beBytes_zero (len : Nat) : beBytes len 0 = List.replicate len 0 := by
  induction len with
  | zero => rfl
  | succ len ih =>
    rw [beBytes_succ, Nat.zero_div, ih, List.replicate_succ']

theorem beBytes_add (a b : Nat) : ∀ n, beBytes (a + b) n = beBytes a (n / 256 ^ b) ++ beBytes b n := by
  induction b with
  | zero =>
    intro n
    simp [beBytes]
  | succ b ih =>
    intro n
    rw [← Nat.add_assoc, beBytes_succ, ih, beBytes_succ, List.append_assoc, Nat.div_div_eq_div_mul,
      pow_succ, Nat.mul_comm 256]

theorem beBytes_mod (b : Nat) : ∀ n, beBytes b (n % 256 ^ b) = beBytes b n := by
  induction b with
  | zero =>
    intro n
    simp [beBytes]
  | succ b ih =>
    intro n
    rw [beBytes_succ, beBytes_succ]
    have h1 : n % 256 ^ (b + 1) / 256 = n / 256 % 256 ^ b := by
      rw [pow_succ, Nat.mul_comm, Nat.mod_mul_right_div_self]
    have h2 : n % 256 ^ (b + 1) % 256 = n % 256 := by
      rw [pow_succ]
      exact Nat.mod_mul_left_mod n (256 ^ b) 256
    rw [h1, h2, ih]

theorem beBytes_header (n : Nat) :
    beBytes 32 n = beBytes 20 (n / 2 ^ 96) ++ (beBytes 4 (n / 2 ^ 64 % 2 ^ 32) ++ beBytes 8 (n % 2 ^ 64)) := by
  have h1 : beBytes 32 n = beBytes 20 (n / 256 ^ 12) ++ beBytes 12 n := beBytes_add 20 12 n
  have h2 : beBytes 12 n = beBytes 4 (n / 256 ^ 8) ++ beBytes 8 n := beBytes_add 4 8 n
  have h3 : beBytes 4 (n / 256 ^ 8 % 256 ^ 4) = beBytes 4 (n / 256 ^ 8) := beBytes_mod 4 _
  have h4 : beBytes 8 (n % 256 ^ 8) = beBytes 8 n := beBytes_mod 8 n
  have e1 : (256 : Nat) ^ 12 = 2 ^ 96 := by norm_num
  have e2 : (256 : Nat) ^ 8 = 2 ^ 64 := by norm_num
  have e3 : (256 : Nat) ^ 4 = 2 ^ 32 := by norm_num
  rw [e2, e3] at h3
  rw [e2] at h4 h2
  rw [e1] at h1
  rw [h1, h2, h3, h4]

theorem beBytes_id (id : ID) (hlen : id.length = 31) (hbytes : ∀ b, b ∈ id → b < 256) :
    beBytes 32 (beNat id) = [0] ++ id := by
  have h1 : beBytes 32 (beNat id) = beBytes 1 (beNat id / 256 ^ 31) ++ beBytes 31 (beNat id) :=
    beBytes_add 1 31 _
  have hlt : beNat id < 256 ^ 31 := by
    rw [← hlen]
    exact beNat_lt id hbytes
  have hid : beBytes 31 (beNat id) = id := by
    rw [← hlen]
    exact beBytes_beNat id hbytes
  rw [h1, Nat.div_eq_of_lt hlt, hid]
  rfl

/-- C23, as amended: for every `ClaimSetRootKey` with a `uint32` version and era and an
id of 31 bytes, the entry printed slot by slot is an all-zero slot, the 32 bytes of
the root key, a zero byte followed by the 31 bytes of the id, and a header slot of
16 zero bytes, the 4 bytes of the era, the 4 bytes of the version and the 8 bytes of
the claim type, which is 2. -/
theorem claimSetRootKey_entry_bytes (c : ClaimSetRootKey) (hversion : c.Version < 2 ^ 32)
    (hera : c.Era < 2 ^ 32) (hlen : c.Id.length = 31) (hbytes : ∀ b, b ∈ c.Id → b < 256) :
    c.Entry.Bytes =
        List.replicate 32 0 ++ beBytes 32 c.RootKey ++ ([0] ++ c.Id)
          ++ (List.replicate 16 0 ++ beBytes 4 c.Era ++ beBytes 4 c.Version
              ++ beBytes 8 ClaimTypeSetRootKey) ∧
      beBytes 8 ClaimTypeSetRootKey = [0, 0, 0, 0, 0, 0, 0, 2] := by
  refine ⟨?_, by decide⟩
  have hfields := header_fields 0 c.Era c.Version ClaimTypeSetRootKey hera hversion (by decide)
  have hera2 : (c.Era % 2 ^ 32 * 2 ^ 96 + c.Version % 2 ^ 32 * 2 ^ 64 + ClaimTypeSetRootKey)
      / 2 ^ 96 = c.Era := by
    rw [Nat.mod_eq_of_lt hera, Nat.mod_eq_of_lt hversion]
    have : ClaimTypeSetRootKey < 2 ^ 64 := by decide
    omega
  have hversion2 : (c.Era % 2 ^ 32 * 2 ^ 96 + c.Version % 2 ^ 32 * 2 ^ 64 + ClaimTypeSetRootKey)
      / 2 ^ 64 % 2 ^ 32 = c.Version := by
    rw [Nat.mod_eq_of_lt hera, Nat.mod_eq_of_lt hversion]
    have := hfields.2.1
    omega
  have htype : (c.Era % 2 ^ 32 * 2 ^ 96 + c.Version % 2 ^ 32 * 2 ^ 64 + ClaimTypeSetRootKey)
      % 2 ^ 64 = ClaimTypeSetRootKey := by
    have : ClaimTypeSetRootKey < 2 ^ 64 := by decide
    omega
  have h20 : beBytes 20 c.Era = List.replicate 16 0 ++ beBytes 4 c.Era := by
    have h := beBytes_add 16 4 c.Era
    have e : (256 : Nat) ^ 4 = 2 ^ 32 := by norm_num
    rw [e, Nat.div_eq_of_lt hera, beBytes_zero] at h
    exact h
  have hhead := beBytes_header
    (c.Era % 2 ^ 32 * 2 ^ 96 + c.Version % 2 ^ 32 * 2 ^ 64 + ClaimTypeSetRootKey)
  rw [hera2, hversion2, htype, h20] at hhead
  simp only [Data.Bytes, ClaimSetRootKey.Entry]
  rw [beBytes_zero, beBytes_id c.Id hlen hbytes, hhead]
  simp only [List.append_assoc]

/-- The amended C23 on the claim of the test `TestClaimSetRootKey`. -/
theorem claimSetRootKey_entry_bytes_witness :
    (testClaimSetRootKey.Version < 2 ^ 32 ∧ testClaimSetRootKey.Era < 2 ^ 32 ∧
        testClaimSetRootKey.Id.length = 31 ∧ ∀ b, b ∈ testClaimSetRootKey.Id → b < 256) ∧
      (testClaimSetRootKey.Entry.Bytes =
          List.replicate 32 0 ++ beBytes 32 testClaimSetRootKey.RootKey
            ++ ([0] ++ testClaimSetRootKey.Id)
            ++ (List.replicate 16 0 ++ beBytes 4 testClaimSetRootKey.Era
                ++ beBytes 4 testClaimSetRootKey.Version ++ beBytes 8 ClaimTypeSetRootKey) ∧
        beBytes 8 ClaimTypeSetRootKey = [0, 0, 0, 0, 0, 0, 0, 2]) :=
  ⟨⟨by decide, by decide, by decide, by decide⟩,
    claimSetRootKey_entry_bytes testClaimSetRootKey (by decide) (by decide) (by decide)
      (by decide)⟩

/-- C23 fails as stated: in the entry of the claim of the test `TestClaimSetRootKey`,
which the test prints, the last 8 bytes are those of the claim type 2, not 3. -/
theorem claimSetRootKey_type_not_three :
    testClaimSetRootKey.Entry.Bytes.drop 120 = [0, 0, 0, 0, 0, 0, 0, 2] ∧
      testClaimSetRootKey.Entry.Bytes.drop 120 ≠ beBytes 8 3 ∧
      (GetClaimTypeVersionFromData testClaimSetRootKey.Entry).1 = 2 := by
  decide

/-! ## The header of an entry -/

theorem bytes_split (d : Data) :
    d.Bytes = (beBytes 32 d.d0 ++ beBytes 32 d.d1 ++ beBytes 32 d.d2 ++ beBytes 20 (d.d3 / 2 ^ 96))
      ++ (beBytes 4 (d.d3 / 2 ^ 64 % 2 ^ 32) ++ beBytes 8 (d.d3 % 2 ^ 64)) := by
  simp only [Data.Bytes]
  rw [beBytes_header d.d3]
  simp only [List.append_assoc]

theorem bytes_take (d : Data) :
    d.Bytes.take 116
      = beBytes 32 d.d0 ++ beBytes 32 d.d1 ++ beBytes 32 d.d2 ++ beBytes 20 (d.d3 / 2 ^ 96) := by
  rw [bytes_split]
  apply List.take_left'
  simp [length_beBytes]

theorem bytes_drop (d : Data) :
    d.Bytes.drop 116 = beBytes 4 (d.d3 / 2 ^ 64 % 2 ^ 32) ++ beBytes 8 (d.d3 % 2 ^ 64) := by
  rw [bytes_split]
  apply List.drop_left'
  simp [length_beBytes]

theorem bytes_drop_type (d : Data) : d.Bytes.drop 120 = beBytes 8 (d.d3 % 2 ^ 64) := by
  have h : d.Bytes.drop 120 = (d.Bytes.drop 116).drop 4 := by
    rw [List.drop_drop]
  rw [h, bytes_drop]
  apply List.drop_left'
  simp [length_beBytes]

theorem set_header_fields (d : Data) (t v : Nat) :
    (SetClaimTypeVersionInData d t v).d0 = d.d0 ∧ (SetClaimTypeVersionInData d t v).d1 = d.d1 ∧
      (SetClaimTypeVersionInData d t v).d2 = d.d2 ∧
      (SetClaimTypeVersionInData d t v).d3 / 2 ^ 96 = d.d3 / 2 ^ 96 ∧
      (SetClaimTypeVersionInData d t v).d3 / 2 ^ 64 % 2 ^ 32 = v % 2 ^ 32 ∧
      (SetClaimTypeVersionInData d t v).d3 % 2 ^ 64 = t % 2 ^ 64 := by
  simp only [SetClaimTypeVersionInData, true_and]
  omega

theorem set_bytes_take (d : Data) (t v : Nat) :
    (SetClaimTypeVersionInData d t v).Bytes.take 116 = d.Bytes.take 116 := by
  obtain ⟨h0, h1, h2, h3, _, _⟩ := set_header_fields d t v
  rw [bytes_take, bytes_take, h0, h1, h2, h3]

theorem set_bytes_drop (d : Data) (t v : Nat) :
    (SetClaimTypeVersionInData d t v).Bytes.drop 116
      = beBytes 4 (v % 2 ^ 32) ++ beBytes 8 (t % 2 ^ 64) := by
  obtain ⟨_, _, _, _, h4, h5⟩ := set_header_fields d t v
  rw [bytes_drop, h4, h5]

/-- C24: for every data, every claim type of 8 bytes and every `uint32` version,
`SetClaimTypeVersionInData` leaves the first 116 of the 128 printed bytes as they
were, the last 12 are the 4 bytes of the version and the 8 bytes of the type, and
`GetClaimTypeVersionFromData` reads that type and version back; so the entry
`getNonRevocationMTProof` asks the proof for has the bytes of the leaf but for the 4
bytes of the version, which hold the next version. -/
theorem setClaimTypeVersionInData_frame (d : Data) (t v : Nat) (ht : t < 2 ^ 64)
    (hv : v < 2 ^ 32) :
    (SetClaimTypeVersionInData d t v).Bytes.take 116 = d.Bytes.take 116 ∧
      (SetClaimTypeVersionInData d t v).Bytes.drop 116 = beBytes 4 v ++ beBytes 8 t ∧
      GetClaimTypeVersionFromData (SetClaimTypeVersionInData d t v) = (t, v) ∧
      (nonRevocationEntry d).Bytes.take 116 = d.Bytes.take 116 ∧
      (nonRevocationEntry d).Bytes.drop 120 = d.Bytes.drop 120 ∧
      (nonRevocationEntry d).Bytes.drop 116
        = beBytes 4 ((d.version + 1) % 2 ^ 32) ++ d.Bytes.drop 120 ∧
      (∀ hs mt hi, getNonRevocationMTProof hs mt d hi
        = match mt.GenerateProof hs (hs.hIndex (nonRevocationEntry d)) with
          | .error err => .error err
          | .ok proof => if proof.Existence then .error .ErrRevokedClaim else .ok proof) := by
  have htype : (GetClaimTypeVersionFromData d).1 % 2 ^ 64 = d.d3 % 2 ^ 64 := by
    simp only [GetClaimTypeVersionFromData]
    omega
  refine ⟨set_bytes_take d t v, ?_, ?_, set_bytes_take d _ _, ?_, ?_, fun _ _ _ => rfl⟩
  · rw [set_bytes_drop, Nat.mod_eq_of_lt hv, Nat.mod_eq_of_lt ht]
  · rw [getClaimTypeVersion_set, Nat.mod_eq_of_lt hv, Nat.mod_eq_of_lt ht]
  · unfold nonRevocationEntry
    rw [bytes_drop_type, bytes_drop_type, (set_header_fields d _ _).2.2.2.2.2, htype]
  · unfold nonRevocationEntry
    rw [set_bytes_drop, bytes_drop_type, htype, Nat.mod_mod]
    rfl

/-- C24 on the entry of the name claim, rewritten to the type 7 and the version 9. -/
theorem setClaimTypeVersionInData_frame_witness :
    ((7 : Nat) < 2 ^ 64 ∧ (9 : Nat) < 2 ^ 32) ∧
      ((SetClaimTypeVersionInData nameV0.Entry 7 9).Bytes.take 116 = nameV0.Entry.Bytes.take 116 ∧
        (SetClaimTypeVersionInData nameV0.Entry 7 9).Bytes.drop 116 = beBytes 4 9 ++ beBytes 8 7 ∧
        GetClaimTypeVersionFromData (SetClaimTypeVersionInData nameV0.Entry 7 9) = (7, 9) ∧
        (nonRevocationEntry nameV0.Entry).Bytes.take 116 = nameV0.Entry.Bytes.take 116 ∧
        (nonRevocationEntry nameV0.Entry).Bytes.drop 120 = nameV0.Entry.Bytes.drop 120 ∧
        (nonRevocationEntry nameV0.Entry).Bytes.drop 116
          = beBytes 4 ((nameV0.Entry.version + 1) % 2 ^ 32) ++ nameV0.Entry.Bytes.drop 120 ∧
        (∀ hs mt hi, getNonRevocationMTProof hs mt nameV0.Entry hi
          = match mt.GenerateProof hs (hs.hIndex (nonRevocationEntry nameV0.Entry)) with
            | .error err => .error err
            | .ok proof => if proof.Existence then .error .ErrRevokedClaim else .ok proof)) :=
  ⟨⟨by decide, by decide⟩, setClaimTypeVersionInData_frame nameV0.Entry 7 9 (by decide) (by decide)⟩

/-! ## Two runs of `GetClaimProofByHi` -/

theorem getClaimProofByHi_parts (env : Env) (now : Nat) (cs : ServiceImpl) (hi : Hash)
    (p : ProofOfClaim) (h : cs.GetClaimProofByHi env now hi = .ok p) :
    ∃ leaf mtp0 mtp1, cs.mt.GetDataByIndex env.hs hi = .ok leaf ∧
      cs.mt.GenerateProof env.hs hi = .ok mtp0 ∧
      getNonRevocationMTProof env.hs cs.mt leaf hi = .ok mtp1 ∧
      p.Proofs = [{ Mtp0 := mtp0, Mtp1 := mtp1, Root := cs.mt.RootKey env.hs, Aux := none }] ∧
      p.Leaf = leaf := by
  simp only [ServiceImpl.GetClaimProofByHi, snapshot_current] at h
  cases hleaf : cs.mt.GetDataByIndex env.hs hi with
  | error err => simp [hleaf] at h
  | ok leaf =>
    cases hmtp0 : cs.mt.GenerateProof env.hs hi with
    | error err => simp [hleaf, hmtp0] at h
    | ok mtp0 =>
      cases hmtp1 : getNonRevocationMTProof env.hs cs.mt leaf hi with
      | error err => simp [hleaf, hmtp0, hmtp1] at h
      | ok mtp1 =>
        cases hsig : SignBytesDate env now (Hash.Bytes (cs.mt.RootKey env.hs)) with
        | error err => simp [hleaf, hmtp0, hmtp1, hsig] at h
        | ok sd =>
          simp only [hleaf, hmtp0, hmtp1, hsig, Except.ok.injEq] at h
          subst h
          refine ⟨leaf, mtp0, mtp1, ?_, ?_, ?_, rfl, rfl⟩ <;> first | rfl | assumption

/-- C25: two successful runs of `GetClaimProofByHi` at the same `hi`, on services with
the same relay tree and with the same hash functions, whatever their signers, their
clocks, their root services and their sub-trees, return the same `Proofs` and the same
`Leaf`. -/
theorem getClaimProofByHi_deterministic (env1 env2 : Env) (now1 now2 : Nat)
    (cs1 cs2 : ServiceImpl) (hi : Hash) (p1 p2 : ProofOfClaim) (hhs : env1.hs = env2.hs)
    (hmt : cs1.mt = cs2.mt) (h1 : cs1.GetClaimProofByHi env1 now1 hi = .ok p1)
    (h2 : cs2.GetClaimProofByHi env2 now2 hi = .ok p2) :
    p1.Proofs = p2.Proofs ∧ p1.Leaf = p2.Leaf := by
  obtain ⟨leaf1, a1, b1, hl1, ha1, hb1, hp1, hleaf1⟩ :=
    getClaimProofByHi_parts env1 now1 cs1 hi p1 h1
  obtain ⟨leaf2, a2, b2, hl2, ha2, hb2, hp2, hleaf2⟩ :=
    getClaimProofByHi_parts env2 now2 cs2 hi p2 h2
  rw [hhs, hmt] at hl1 ha1 hb1 hp1
  rw [hl1] at hl2
  injection hl2 with hleaf
  subst hleaf
  rw [ha1] at ha2
  injection ha2 with ha
  rw [hb1] at hb2
  injection hb2 with hb
  rw [hp1, hp2, hleaf1, hleaf2, ha, hb]
  exact ⟨rfl, rfl⟩

/-- C25 on two runs with two signers at two times, on services that share the relay
tree only: the proofs and the leaf agree, the dates and the signatures differ. -/
theorem getClaimProofByHi_deterministic_witness :
    (pairEnv.hs = pairEnvReverse.hs ∧ srvV0.mt = srvNamed.mt ∧
        srvV0.GetClaimProofByHi pairEnv 1000 (pairHasher.hIndex nameV0.Entry) = .ok proofV0 ∧
        ∃ p2, srvNamed.GetClaimProofByHi pairEnvReverse 2000 (pairHasher.hIndex nameV0.Entry)
            = .ok p2 ∧
          proofV0.Proofs = p2.Proofs ∧ proofV0.Leaf = p2.Leaf ∧ proofV0.Date ≠ p2.Date ∧
          proofV0.Signature ≠ p2.Signature) :=
  ⟨rfl, rfl, rfl, _, rfl,
    (getClaimProofByHi_deterministic pairEnv pairEnvReverse 1000 2000 srvV0 srvNamed
      (pairHasher.hIndex nameV0.Entry) proofV0 _ rfl rfl rfl rfl).1,
    (getClaimProofByHi_deterministic pairEnv pairEnvReverse 1000 2000 srvV0 srvNamed
      (pairHasher.hIndex nameV0.Entry) proofV0 _ rfl rfl rfl rfl).2,
    by decide, by decide⟩

/-! ## The reads of `GetNextVersion` -/

theorem withVersion_congr (d : Data) (a b : Nat) (h : a % 2 ^ 32 = b % 2 ^ 32) :
    d.withVersion a = d.withVersion b := by
  rw [← withVersion_mod d a, h, withVersion_mod]

theorem loop_run (hs : Hasher) (mt : MerkleTree) (d : Data) (hc : ChainSound hs mt d) :
    ∀ (m fuel j0 v : Nat), j0 < 2 ^ 32 →
      (∀ i, i < m → mt.Has hs (hs.hIndex (d.withVersion (j0 + i)))) →
      ¬ mt.Has hs (hs.hIndex (d.withVersion (j0 + m))) → m < fuel →
      GetNextVersionLoop hs mt fuel (hs.hIndex (d.withVersion j0)) v
        = some (.ok (if m = 0 then v else (j0 + m) % 2 ^ 32)) := by
  intro m
  induction m with
  | zero =>
    intro fuel j0 v _ _ habs hfuel
    obtain ⟨fuel, rfl⟩ : ∃ f, fuel = f + 1 := ⟨fuel - 1, by omega⟩
    simpa using loop_stop hs mt fuel _ v habs
  | succ m ih =>
    intro fuel j0 v hj0 hpres habs hfuel
    obtain ⟨fuel, rfl⟩ : ∃ f, fuel = f + 1 := ⟨fuel - 1, by omega⟩
    have h0 : mt.Has hs (hs.hIndex (d.withVersion j0)) := hpres 0 (by omega)
    rw [loop_step hs mt d hc fuel j0 v hj0 h0]
    have hpres2 : ∀ i, i < m →
        mt.Has hs (hs.hIndex (d.withVersion ((j0 + 1) % 2 ^ 32 + i))) := by
      intro i hi
      rw [withVersion_congr d _ (j0 + (i + 1)) (by omega)]
      exact hpres (i + 1) (by omega)
    have habs2 : ¬ mt.Has hs (hs.hIndex (d.withVersion ((j0 + 1) % 2 ^ 32 + m))) := by
      rw [withVersion_congr d _ (j0 + (m + 1)) (by omega)]
      exact habs
    rw [ih fuel ((j0 + 1) % 2 ^ 32) ((j0 + 1) % 2 ^ 32) (Nat.mod_lt _ (by norm_num)) hpres2 habs2
      (by omega)]
    by_cases hm : m = 0
    · subst hm
      simp
    · have e : ((j0 + 1) % 2 ^ 32 + m) % 2 ^ 32 = (j0 + (m + 1)) % 2 ^ 32 := by omega
      rw [if_neg hm, if_neg (Nat.succ_ne_zero m), e]

theorem present_le_length (hs : Hasher) (mt : MerkleTree) (d : Data) (hc : ChainSound hs mt d)
    (j0 m : Nat) (hm : m ≤ 2 ^ 32)
    (hpres : ∀ i, i < m → mt.Has hs (hs.hIndex (d.withVersion (j0 + i)))) :
    m ≤ mt.leaves.length := by
  have hsub : (Finset.range m).image (fun i => (j0 + i) % 2 ^ 32)
      ⊆ (mt.leaves.map Data.version).toFinset := by
    intro x hx
    obtain ⟨i, hi, rfl⟩ := Finset.mem_image.1 hx
    obtain ⟨leaf, hleaf⟩ := hpres i (Finset.mem_range.1 hi)
    rw [← withVersion_mod] at hleaf
    have hver := (hc _ leaf (Nat.mod_lt _ (by norm_num)) hleaf).1
    rw [List.mem_toFinset, List.mem_map]
    exact ⟨leaf, (getDataByIndex_ok hs mt _ leaf hleaf).1, hver⟩
  have hinj : Set.InjOn (fun i => (j0 + i) % 2 ^ 32) (Finset.range m : Set Nat) := by
    intro a ha b hb hab
    have ha2 : a < m := Finset.mem_range.1 ha
    have hb2 : b < m := Finset.mem_range.1 hb
    have hab2 : (j0 + a) % 2 ^ 32 = (j0 + b) % 2 ^ 32 := hab
    omega
  calc m = (Finset.range m).card := (Finset.card_range m).symm
    _ = ((Finset.range m).image (fun i => (j0 + i) % 2 ^ 32)).card :=
      (Finset.card_image_of_injOn hinj).symm
    _ ≤ (mt.leaves.map Data.version).toFinset.card := Finset.card_le_card hsub
    _ ≤ (mt.leaves.map Data.version).length := List.toFinset_card_le _
    _ = mt.leaves.length := List.length_map _ _

theorem first_absent (hs : Hasher) (mt : MerkleTree) (d : Data) (j0 : Nat) (hj0 : j0 < 2 ^ 32)
    (habs : ∃ j, j < 2 ^ 32 ∧ ¬ mt.Has hs (hs.hIndex (d.withVersion j))) :
    ∃ m, m < 2 ^ 32 ∧ ¬ mt.Has hs (hs.hIndex (d.withVersion (j0 + m))) ∧
      ∀ i, i < m → mt.Has hs (hs.hIndex (d.withVersion (j0 + i))) := by
  classical
  obtain ⟨j, hj, hjabs⟩ := habs
  have hex : ∃ i, ¬ mt.Has hs (hs.hIndex (d.withVersion (j0 + i))) := by
    refine ⟨(j + 2 ^ 32 - j0) % 2 ^ 32, ?_⟩
    rw [withVersion_congr d _ j (by omega)]
    exact hjabs
  refine ⟨Nat.find hex, ?_, Nat.find_spec hex, fun i hi => ?_⟩
  · have hle : Nat.find hex ≤ (j + 2 ^ 32 - j0) % 2 ^ 32 := by
      apply Nat.find_min'
      rw [withVersion_congr d _ j (by omega)]
      exact hjabs
    have : (j + 2 ^ 32 - j0) % 2 ^ 32 < 2 ^ 32 := Nat.mod_lt _ (by norm_num)
    omega
  · exact not_not.1 (Nat.find_min hex hi)

theorem loop_visits (hs : Hasher) (mt : MerkleTree) (d : Data) (hc : ChainSound hs mt d)
    (j0 m : Nat) (hpres : ∀ i, i < m → mt.Has hs (hs.hIndex (d.withVersion (j0 + i)))) :
    ∀ (i fuel : Nat), i ≤ m →
      GetNextVersionLoop hs mt (fuel + i) (hs.hIndex (d.withVersion j0)) 0
        = GetNextVersionLoop hs mt fuel (hs.hIndex (d.withVersion (j0 + i)))
            (if i = 0 then 0 else (j0 + i) % 2 ^ 32) := by
  intro i
  induction i with
  | zero => intro fuel _; rfl
  | succ i ih =>
    intro fuel hi
    have hstep : fuel + (i + 1) = (fuel + 1) + i := by omega
    rw [hstep, ih (fuel + 1) (by omega)]
    have hhas := hpres i (by omega)
    rw [← withVersion_mod d (j0 + i)] at hhas ⊢
    rw [loop_step hs mt d hc fuel _ _ (Nat.mod_lt _ (by norm_num)) hhas]
    have e : ((j0 + i) % 2 ^ 32 + 1) % 2 ^ 32 = (j0 + (i + 1)) % 2 ^ 32 := by omega
    rw [e, withVersion_mod, if_neg (Nat.succ_ne_zero i)]

/-- C26, as amended: when the leaves the tree holds at the indexes of the versions of
a claim are versions of that claim and one of the `2^32` versions is absent,
`GetNextVersion`, started at the index of any version `j0` of the claim, returns after
`m + 1` reads, no fewer, where `m` is at most the number of leaves: with more fuel
than `m` it returns, with less it has not returned. Its read number `i` is at the
index of version `j0 + i` modulo `2^32`; started at version 0 these versions are
`0, 1, ..., m`, in increasing order, and `m` is the result. -/
theorem getNextVersion_terminates (hs : Hasher) (mt : MerkleTree) (d : Data) (j0 : Nat)
    (hj0 : j0 < 2 ^ 32) (hc : ChainSound hs mt d)
    (habs : ∃ j, j < 2 ^ 32 ∧ ¬ mt.Has hs (hs.hIndex (d.withVersion j))) :
    ∃ m, m ≤ mt.leaves.length ∧ m < 2 ^ 32 ∧
      (∀ fuel, m < fuel →
        GetNextVersion hs mt fuel (hs.hIndex (d.withVersion j0))
          = some (.ok (if m = 0 then 0 else (j0 + m) % 2 ^ 32))) ∧
      (∀ fuel, fuel ≤ m → GetNextVersion hs mt fuel (hs.hIndex (d.withVersion j0)) = none) ∧
      (∀ i fuel, i ≤ m →
        GetNextVersionLoop hs mt (fuel + i) (hs.hIndex (d.withVersion j0)) 0
          = GetNextVersionLoop hs mt fuel (hs.hIndex (d.withVersion (j0 + i)))
              (if i = 0 then 0 else (j0 + i) % 2 ^ 32)) ∧
      (j0 = 0 → ∀ fuel, m < fuel →
        GetNextVersion hs mt fuel (hs.hIndex (d.withVersion 0)) = some (.ok m)) := by
  obtain ⟨m, hm, hmabs, hpres⟩ := first_absent hs mt d j0 hj0 habs
  have hrun := loop_run hs mt d hc m
  have hvisits := loop_visits hs mt d hc j0 m hpres
  refine ⟨m, present_le_length hs mt d hc j0 m (by omega) hpres, hm, ?_, ?_, hvisits, ?_⟩
  · intro fuel hfuel
    exact hrun fuel j0 0 hj0 hpres hmabs hfuel
  · intro fuel hfuel
    have h := hvisits fuel 0 hfuel
    rw [Nat.zero_add] at h
    unfold GetNextVersion
    rw [h]
    rfl
  · intro h0 fuel hfuel
    subst h0
    have h := hrun fuel 0 0 hj0 hpres hmabs hfuel
    unfold GetNextVersion
    rw [h]
    by_cases hm0 : m = 0
    · rw [if_pos hm0, hm0]
    · rw [if_neg hm0, Nat.zero_add, Nat.mod_eq_of_lt hm]

/-- The amended C26 on the tree that holds the versions 0 and 1 of the name claim,
from the index of version 0. -/
theorem getNextVersion_terminates_witness :
    ((0 : Nat) < 2 ^ 32 ∧ ChainSound pairHasher treeV01 nameV0.Entry ∧
        ∃ j, j < 2 ^ 32 ∧
          ¬ treeV01.Has pairHasher (pairHasher.hIndex (nameV0.Entry.withVersion j))) ∧
      ∃ m, m ≤ treeV01.leaves.length ∧ m < 2 ^ 32 ∧
        (∀ fuel, m < fuel →
          GetNextVersion pairHasher treeV01 fuel (pairHasher.hIndex (nameV0.Entry.withVersion 0))
            = some (.ok (if m = 0 then 0 else (0 + m) % 2 ^ 32))) ∧
        (∀ fuel, fuel ≤ m →
          GetNextVersion pairHasher treeV01 fuel (pairHasher.hIndex (nameV0.Entry.withVersion 0))
            = none) ∧
        (∀ i fuel, i ≤ m →
          GetNextVersionLoop pairHasher treeV01 (fuel + i)
              (pairHasher.hIndex (nameV0.Entry.withVersion 0)) 0
            = GetNextVersionLoop pairHasher treeV01 fuel
                (pairHasher.hIndex (nameV0.Entry.withVersion (0 + i)))
                (if i = 0 then 0 else (0 + i) % 2 ^ 32)) ∧
        ((0 : Nat) = 0 → ∀ fuel, m < fuel →
          GetNextVersion pairHasher treeV01 fuel (pairHasher.hIndex (nameV0.Entry.withVersion 0))
            = some (.ok m)) :=
  have habs : ∃ j, j < 2 ^ 32 ∧
      ¬ treeV01.Has pairHasher (pairHasher.hIndex (nameV0.Entry.withVersion j)) :=
    ⟨2, by norm_num, (not_has_iff pairHasher treeV01 _).2 rfl⟩
  ⟨⟨by norm_num, pairHasher_chainSound treeV01 nameV0.Entry, habs⟩,
    getNextVersion_terminates pairHasher treeV01 nameV0.Entry 0 (by norm_num)
      (pairHasher_chainSound treeV01 nameV0.Entry) habs⟩

/-- C26 fails as stated: the tree holds a basic claim at its version `2^32 - 1` and at
its version 0, and not at version 1. From the index of the first, `GetNextVersion`
reads the leaf at version `2^32 - 1`, then, its `uint32` version wrapping, the leaf at
version 0, then finds no version 1 and returns 1: three reads for two leaves, at
versions that do not increase. -/
theorem getNextVersion_wraps :
    basicMax.Entry.version = 2 ^ 32 - 1 ∧ basicV0.Entry.version = 0 ∧
      basicMax.Entry.withVersion 0 = basicV0.Entry ∧
      treeWrap.GetDataByIndex pairHasher (pairHasher.hIndex basicMax.Entry)
        = .ok basicMax.Entry ∧
      GetNextVersionLoop pairHasher treeWrap 3 (pairHasher.hIndex basicMax.Entry) 0
        = GetNextVersionLoop pairHasher treeWrap 2 (pairHasher.hIndex basicV0.Entry) 0 ∧
      treeWrap.GetDataByIndex pairHasher (pairHasher.hIndex basicV0.Entry)
        = .ok basicV0.Entry ∧
      GetNextVersionLoop pairHasher treeWrap 2 (pairHasher.hIndex basicV0.Entry) 0
        = GetNextVersionLoop pairHasher treeWrap 1
            (pairHasher.hIndex (basicV0.Entry.withVersion 1)) 1 ∧
      ¬ treeWrap.Has pairHasher (pairHasher.hIndex (basicV0.Entry.withVersion 1)) ∧
      GetNextVersion pairHasher treeWrap 3 (pairHasher.hIndex basicMax.Entry) = some (.ok 1) ∧
      GetNextVersion pairHasher treeWrap 2 (pairHasher.hIndex basicMax.Entry) = none := by
  refine ⟨by decide, by decide, by decide, rfl, rfl, rfl, rfl, ?_, rfl, rfl⟩
  rw [not_has_iff]
  rfl

/-! ## The storage of the trees -/

theorem isTreeKey_length (k : List Nat) (h : isTreeKey k = true) :
    k.length = 32 ∨ k.length = 11 := by
  unfold isTreeKey at h
  rw [Bool.or_eq_true] at h
  rcases h with h1 | h1
  · exact Or.inl (by simpa using h1)
  · right
    have : k = rootNodeValue := by simpa using h1
    rw [this]
    rfl

theorem putAll_entries (s : Storage) (kvs : List (List Nat × List Nat)) :
    ∀ st, s.PutAll st kvs = (kvs.map (fun kv => (s.pre ++ kv.1, kv.2))).reverse ++ st := by
  induction kvs with
  | nil => intro st; rfl
  | cons kv rest ih =>
    intro st
    simp [Storage.PutAll, Storage.Put, ih]

theorem putAll_get (s s2 : Storage) (kvs : List (List Nat × List Nat)) (k : List Nat)
    (hne : ∀ kv, kv ∈ kvs → s.pre ++ kv.1 ≠ s2.pre ++ k) :
    ∀ st, s2.Get (s.PutAll st kvs) k = s2.Get st k := by
  induction kvs with
  | nil => intro st; rfl
  | cons kv rest ih =>
    intro st
    have hrest := ih (fun kv2 hmem => hne kv2 (List.mem_cons_of_mem _ hmem)) (s.Put st kv.1 kv.2)
    have hhead : s2.Get (s.Put st kv.1 kv.2) k = s2.Get st k := by
      have hkey : (s2.pre ++ k == s.pre ++ kv.1) = false := by
        rw [beq_eq_false_iff_ne]
        exact fun h => hne kv (List.mem_cons_self _ _) h.symm
      simp only [Storage.Get, Storage.Put, List.lookup, hkey]
    exact hrest.trans hhead

theorem prefixed_ne_prefixed (id1 id2 k1 k2 : List Nat) (hlen : id1.length = id2.length)
    (hne : id1 ≠ id2) : id1 ++ k1 ≠ id2 ++ k2 := by
  intro h
  exact hne (List.append_inj h hlen).1

theorem prefixed_ne_treeKey (id1 k1 k : List Nat) (h0 : id1.length ≠ 0) (h21 : id1.length ≠ 21)
    (hk1 : isTreeKey k1 = true) (hk : isTreeKey k = true) : id1 ++ k1 ≠ k := by
  intro h
  have hlen : id1.length + k1.length = k.length := by
    rw [← h, List.length_append]
  rcases isTreeKey_length k1 hk1 with a | a <;> rcases isTreeKey_length k hk with b | b <;> omega

theorem prefixed_root_key_length_21 (id1 : List Nat) (h21 : id1.length = 21) :
    isTreeKey rootNodeValue = true ∧ isTreeKey (id1 ++ rootNodeValue) = true := by
  refine ⟨rfl, ?_⟩
  unfold isTreeKey
  have hlen : (id1 ++ rootNodeValue).length = 32 := by
    rw [List.length_append, h21]
    rfl
  simp [hlen]

/-- C27: a batch of writes through the view `WithPrefix(id1.Bytes())` of the relay
tree's storage writes the keys `id1 ‖ k` behind the relay's prefix and nothing else.
For an identity `id1` of 20 bytes, as `common.Address`, or 31 bytes, as `core.ID`, or
of any length but 0 and 21, for `id2` of that length and other than `id1`, and for
tree keys `k`, `k1`, any `k2`: `id1 ‖ k1 ≠ id2 ‖ k2` and `id1 ‖ k1 ≠ k`; so a batch of
tree keys written by the sub-tree of `id1` leaves what the relay tree reads at `k` and
what the sub-tree of `id2` reads at `k2` as they were, and a batch of tree keys written
by the relay tree leaves what the sub-tree of `id1` reads at `k1` as it was. -/
theorem subtree_storage_disjoint (sto : Storage) (st : Store) (id1 id2 : ID)
    (k k1 k2 : List Nat) (kvs : List (List Nat × List Nat))
    (hlen : id1.length = id2.length) (hne : id1 ≠ id2) (h0 : id1.length ≠ 0)
    (h21 : id1.length ≠ 21) (hk : isTreeKey k = true) (hk1 : isTreeKey k1 = true)
    (hkvs : ∀ kv, kv ∈ kvs → isTreeKey kv.1 = true) :
    (sto.WithPrefix (ID.Bytes id1)).PutAll st kvs
        = (kvs.map (fun kv => (sto.pre ++ ID.Bytes id1 ++ kv.1, kv.2))).reverse ++ st ∧
      ID.Bytes id1 ++ k1 ≠ ID.Bytes id2 ++ k2 ∧
      ID.Bytes id1 ++ k1 ≠ k ∧
      sto.Get ((sto.WithPrefix (ID.Bytes id1)).PutAll st kvs) k = sto.Get st k ∧
      (sto.WithPrefix (ID.Bytes id2)).Get ((sto.WithPrefix (ID.Bytes id1)).PutAll st kvs) k2
        = (sto.WithPrefix (ID.Bytes id2)).Get st k2 ∧
      (sto.WithPrefix (ID.Bytes id1)).Get (sto.PutAll st kvs) k1
        = (sto.WithPrefix (ID.Bytes id1)).Get st k1 := by
  refine ⟨putAll_entries _ kvs st, prefixed_ne_prefixed id1 id2 k1 k2 hlen hne,
    prefixed_ne_treeKey id1 k1 k h0 h21 hk1 hk, ?_, ?_, ?_⟩
  · apply putAll_get
    intro kv hmem h
    simp only [Storage.WithPrefix, ID.Bytes, List.append_assoc] at h
    exact prefixed_ne_treeKey id1 kv.1 k h0 h21 (hkvs kv hmem) hk (List.append_cancel_left h)
  · apply putAll_get
    intro kv _ h
    simp only [Storage.WithPrefix, ID.Bytes, List.append_assoc] at h
    exact prefixed_ne_prefixed id1 id2 kv.1 k2 hlen hne (List.append_cancel_left h)
  · apply putAll_get
    intro kv hmem h
    simp only [Storage.WithPrefix, ID.Bytes, List.append_assoc] at h
    exact prefixed_ne_treeKey id1 k1 kv.1 h0 h21 hk1 (hkvs kv hmem) (List.append_cancel_left h).symm

/-- C27 on two identities of 20 bytes: the sub-tree of the first writes a node and its
root; the roots of the relay tree and of the other sub-tree read as before. -/
theorem subtree_storage_disjoint_witness :
    (addrOne.length = addrTwo.length ∧ addrOne ≠ addrTwo ∧ addrOne.length ≠ 0 ∧
        addrOne.length ≠ 21 ∧ isTreeKey rootNodeValue = true ∧
        (∀ kv, kv ∈ treeBatch → isTreeKey kv.1 = true)) ∧
      ((relayStorage.WithPrefix (ID.Bytes addrOne)).PutAll storeTwo treeBatch
          = (treeBatch.map
              (fun kv => (relayStorage.pre ++ ID.Bytes addrOne ++ kv.1, kv.2))).reverse
            ++ storeTwo ∧
        ID.Bytes addrOne ++ rootNodeValue ≠ ID.Bytes addrTwo ++ rootNodeValue ∧
        ID.Bytes addrOne ++ rootNodeValue ≠ rootNodeValue ∧
        relayStorage.Get ((relayStorage.WithPrefix (ID.Bytes addrOne)).PutAll storeTwo treeBatch)
            rootNodeValue
          = relayStorage.Get storeTwo rootNodeValue ∧
        (relayStorage.WithPrefix (ID.Bytes addrTwo)).Get
            ((relayStorage.WithPrefix (ID.Bytes addrOne)).PutAll storeTwo treeBatch) rootNodeValue
          = (relayStorage.WithPrefix (ID.Bytes addrTwo)).Get storeTwo rootNodeValue ∧
        (relayStorage.WithPrefix (ID.Bytes addrOne)).Get (relayStorage.PutAll storeTwo treeBatch)
            rootNodeValue
          = (relayStorage.WithPrefix (ID.Bytes addrOne)).Get storeTwo rootNodeValue) ∧
      relayStorage.Get storeTwo rootNodeValue = some (List.replicate 32 6) ∧
      (relayStorage.WithPrefix (ID.Bytes addrOne)).Get
          ((relayStorage.WithPrefix (ID.Bytes addrOne)).PutAll storeTwo treeBatch) rootNodeValue
        = some (List.replicate 32 7) :=
  ⟨⟨by decide, by decide, by decide, by decide, by decide, by decide⟩,
    subtree_storage_disjoint relayStorage storeTwo addrOne addrTwo rootNodeValue rootNodeValue
      rootNodeValue treeBatch (by decide) (by decide) (by decide) (by decide) (by decide)
      (by decide) (by decide),
    by decide, by decide⟩

/-! ## `Counterfactual` -/

set_option maxRecDepth 8000 in
/-- C28 fails on the code: of the 133 bytes of a counterfactual, the first 132 are
decoded without error, into a counterfactual whose `Impl` holds 19 bytes of the input
and keeps the last byte of the receiver; `bytes.Buffer.Read` reports no short read.
The same happens with the first 114 bytes, down to one byte of `Impl`; with 113 the
read of `Impl` returns `io.EOF`. -/
theorem decode_short_input :
    toySecp.DecompressPubkey (toySecp.CompressPubkey (77, 1)) = .ok (77, 1) ∧
      testCounterfactual.Encode toySecp = .ok testEncoded ∧ testEncoded.length = 133 ∧
      zeroCounterfactual.Decode toySecp testEncoded = (none, testCounterfactual) ∧
      (testEncoded.take 132).length = 132 ∧
      zeroCounterfactual.Decode toySecp (testEncoded.take 132)
        = (none, { testCounterfactual with Impl := List.replicate 19 5 ++ [0] }) ∧
      zeroCounterfactual.Decode toySecp (testEncoded.take 114)
        = (none, { testCounterfactual with Impl := [5] ++ List.replicate 19 0 }) ∧
      zeroCounterfactual.Decode toySecp (testEncoded.take 113)
        = (some .EOF, { testCounterfactual with Impl := List.replicate 20 0 }) :=
  ⟨rfl, rfl, rfl, rfl, rfl, rfl, rfl, rfl⟩

theorem bufferRead_append (a rest p : List Nat) (hlen : p.length = a.length)
    (hp : 0 < p.length) : bufferRead (a ++ rest) p = ((a.length, none), a, rest) := by
  have hne : (a ++ rest).isEmpty = false := by
    cases a with
    | nil => rw [List.length_nil] at hlen; omega
    | cons x xs => rfl
  have hmin : min p.length (a ++ rest).length = a.length := by
    rw [List.length_append]
    omega
  unfold bufferRead
  rw [hne, hmin, ← hlen, List.drop_length, hlen, List.take_left, List.drop_left]
  simp

/-- C29: for every counterfactual with five addresses of 20 bytes and a key that
`crypto.CompressPubkey` writes in 33 bytes and `crypto.DecompressPubkey` reads back,
`Encode` gives 133 bytes, and `Decode` of them, on any receiver, returns no error and
leaves the receiver equal to the counterfactual. -/
theorem counterfactual_round_trip (secp : Secp) (c i0 : Counterfactual) (pk : PublicKey)
    (hpk : c.OperationalPk = some pk)
    (hcomp : (secp.CompressPubkey pk).length = CompressedPkLen)
    (hvalid : secp.DecompressPubkey (secp.CompressPubkey pk) = .ok pk)
    (hc : c.Sized) (hi : i0.Sized) :
    ∃ encoded, c.Encode secp = .ok encoded ∧ encoded.length = 133 ∧
      i0.Decode secp encoded = (none, c) := by
  obtain ⟨c1, c2, c3, c4, c5⟩ := hc
  obtain ⟨i1, i2, i3, i4, i5⟩ := hi
  refine ⟨c.Operational ++ (secp.CompressPubkey pk ++ (c.Relayer ++ (c.Recoverer ++
    (c.Revokator ++ (c.Impl ++ []))))), ?_, ?_, ?_⟩
  · simp only [Counterfactual.Encode, hpk, List.append_assoc, List.append_nil]
  · simp only [List.length_append, c1, c2, c3, c4, c5, hcomp, CompressedPkLen, List.length_nil]
  · cases c with
    | mk cOperational cOperationalPk cRelayer cRecoverer cRevokator cImpl =>
      cases i0 with
      | mk iOperational iOperationalPk iRelayer iRecoverer iRevokator iImpl =>
        simp only at c1 c2 c3 c4 c5 i1 i2 i3 i4 i5 hpk
        have r1 := bufferRead_append cOperational (secp.CompressPubkey pk ++ (cRelayer ++
          (cRecoverer ++ (cRevokator ++ (cImpl ++ []))))) iOperational (by omega) (by omega)
        have r2 := bufferRead_append (secp.CompressPubkey pk) (cRelayer ++
          (cRecoverer ++ (cRevokator ++ (cImpl ++ [])))) (List.replicate CompressedPkLen 0)
          (by rw [List.length_replicate, hcomp]) (by rw [List.length_replicate]; decide)
        have r3 := bufferRead_append cRelayer (cRecoverer ++ (cRevokator ++ (cImpl ++ [])))
          iRelayer (by omega) (by omega)
        have r4 := bufferRead_append cRecoverer (cRevokator ++ (cImpl ++ []))
          iRecoverer (by omega) (by omega)
        have r5 := bufferRead_append cRevokator (cImpl ++ []) iRevokator (by omega) (by omega)
        have r6 := bufferRead_append cImpl [] iImpl (by omega) (by omega)
        simp only [Counterfactual.Decode, r1, r2, hvalid, r3, r4, r5, r6, hpk]

/-- C29 on the test counterfactual and the zero value as receiver. -/
theorem counterfactual_round_trip_witness :
    (testCounterfactual.OperationalPk = some (77, 1) ∧
        (toySecp.CompressPubkey (77, 1)).length = CompressedPkLen ∧
        toySecp.DecompressPubkey (toySecp.CompressPubkey (77, 1)) = .ok (77, 1) ∧
        testCounterfactual.Sized ∧ zeroCounterfactual.Sized) ∧
      ∃ encoded, testCounterfactual.Encode toySecp = .ok encoded ∧ encoded.length = 133 ∧
        zeroCounterfactual.Decode toySecp encoded = (none, testCounterfactual) :=
  ⟨⟨rfl, rfl, rfl, ⟨rfl, rfl, rfl, rfl, rfl⟩, ⟨rfl, rfl, rfl, rfl, rfl⟩⟩,
    counterfactual_round_trip toySecp testCounterfactual zeroCounterfactual (77, 1) rfl rfl rfl
      ⟨rfl, rfl, rfl, rfl, rfl⟩ ⟨rfl, rfl, rfl, rfl, rfl⟩⟩

theorem bufferRead_rest_length (b p : List Nat) :
    (bufferRead b p).2.2.length = b.length - p.length := by
  unfold bufferRead
  cases b with
  | nil => by_cases hp : p.length = 0 <;> simp [hp]
  | cons x xs =>
    simp only [List.isEmpty_cons, Bool.false_eq_true, if_false, List.length_drop]
    omega

theorem bufferRead_empty (b p : List Nat) (hb : b.length = 0) (hp : 0 < p.length) :
    (bufferRead b p).1.2 = some .EOF := by
  have hnil : b = [] := List.length_eq_zero.1 hb
  subst hnil
  have hp2 : ¬ p.length = 0 := by omega
  simp [bufferRead, hp2]

theorem decode_le_113 (secp : Secp) (i : Counterfactual) (encoded : List Nat) (hi : i.Sized)
    (hlen : encoded.length ≤ 113) : (i.Decode secp encoded).1 ≠ none := by
  obtain ⟨i1, i2, i3, i4, i5⟩ := hi
  have l1 := bufferRead_rest_length encoded i.Operational
  have l2 := bufferRead_rest_length (bufferRead encoded i.Operational).2.2
    (List.replicate CompressedPkLen 0)
  have l3 := bufferRead_rest_length
    (bufferRead (bufferRead encoded i.Operational).2.2 (List.replicate CompressedPkLen 0)).2.2
    i.Relayer
  have l4 := bufferRead_rest_length
    (bufferRead (bufferRead (bufferRead encoded i.Operational).2.2
      (List.replicate CompressedPkLen 0)).2.2 i.Relayer).2.2 i.Recoverer
  have l5 := bufferRead_rest_length
    (bufferRead (bufferRead (bufferRead (bufferRead encoded i.Operational).2.2
      (List.replicate CompressedPkLen 0)).2.2 i.Relayer).2.2 i.Recoverer).2.2 i.Revokator
  have hlast := bufferRead_empty
    (bufferRead (bufferRead (bufferRead (bufferRead (bufferRead encoded i.Operational).2.2
      (List.replicate CompressedPkLen 0)).2.2 i.Relayer).2.2 i.Recoverer).2.2 i.Revokator).2.2
    i.Impl
    (by
      rw [l5, l4, l3, l2, l1, List.length_replicate, i1, i2, i3, i4]
      simp only [CompressedPkLen]
      omega)
    (by omega)
  unfold Counterfactual.Decode
  dsimp only
  split
  · simp
  · split
    · simp
    · split
      · simp
      · split
        · simp
        · split
          · simp
          · split
            · simp
            · rw [hlast]
              simp

theorem bufferRead_nonempty (b p : List Nat) (hb : 0 < b.length) :
    bufferRead b p = ((min p.length b.length, none),
      b.take (min p.length b.length) ++ p.drop (min p.length b.length),
      b.drop (min p.length b.length)) := by
  cases b with
  | nil => simp at hb
  | cons x xs => rfl

theorem bufferRead_ge (b p : List Nat) (n : Nat) (hn : p.length = n) (hp : 0 < n)
    (h : n ≤ b.length) : bufferRead b p = ((n, none), b.take n, b.drop n) := by
  have hmin : min p.length b.length = n := by omega
  rw [bufferRead_nonempty b p (by omega), hmin, ← hn, List.drop_length, List.append_nil]

theorem decode_partial (secp : Secp) (i : Counterfactual) (encoded : List Nat) (pk : PublicKey)
    (hi : i.Sized) (hlen : 113 < encoded.length)
    (hpk : secp.DecompressPubkey ((encoded.drop 20).take 33) = .ok pk) :
    i.Decode secp encoded
      = (none,
        { Operational := encoded.take 20
          OperationalPk := some pk
          Relayer := (encoded.drop 53).take 20
          Recoverer := (encoded.drop 73).take 20
          Revokator := (encoded.drop 93).take 20
          Impl := (encoded.drop 113).take (min 20 (encoded.length - 113))
            ++ i.Impl.drop (min 20 (encoded.length - 113)) }) := by
  obtain ⟨i1, i2, i3, i4, i5⟩ := hi
  have r1 := bufferRead_ge encoded i.Operational 20 i1 (by omega) (by omega)
  have r2 := bufferRead_ge (encoded.drop 20) (List.replicate CompressedPkLen 0) 33
    (by rw [List.length_replicate]; rfl) (by omega) (by rw [List.length_drop]; omega)
  have r3 := bufferRead_ge (encoded.drop 53) i.Relayer 20 i2 (by omega)
    (by rw [List.length_drop]; omega)
  have r4 := bufferRead_ge (encoded.drop 73) i.Recoverer 20 i3 (by omega)
    (by rw [List.length_drop]; omega)
  have r5 := bufferRead_ge (encoded.drop 93) i.Revokator 20 i4 (by omega)
    (by rw [List.length_drop]; omega)
  have r6 := bufferRead_nonempty (encoded.drop 113) i.Impl (by rw [List.length_drop]; omega)
  rw [i5, List.length_drop] at r6
  have d2 : (encoded.drop 20).drop 33 = encoded.drop 53 := by rw [List.drop_drop]
  have d3 : (encoded.drop 53).drop 20 = encoded.drop 73 := by rw [List.drop_drop]
  have d4 : (encoded.drop 73).drop 20 = encoded.drop 93 := by rw [List.drop_drop]
  have d5 : (encoded.drop 93).drop 20 = encoded.drop 113 := by rw [List.drop_drop]
  rw [d2] at r2
  rw [d3] at r3
  rw [d4] at r4
  rw [d5] at r5
  simp only [Counterfactual.Decode, r1, r2, hpk, r3, r4, r5, r6]

/-! ## The root the publisher holds -/

theorem tick_eq (p : Publisher) (s : RootService) (fails : Bool) :
    (p.lastRoot = s.getLastRoot → p.tick s fails = p) ∧
      (p.lastRoot ≠ s.getLastRoot →
        p.tick s fails
          = { lastRoot := if fails then zeroHash else s.getLastRoot,
              updated := p.updated ++ [s.getLastRoot] }) := by
  unfold Publisher.tick
  constructor
  · intro h
    simp [h]
  · intro h
    cases fails <;> simp [h]

theorem tick_held (r0 : Hash) (p : Publisher) (s : RootService) (fails : Bool)
    (h : (p.updated = [] ∧ p.lastRoot = r0) ∨ p.lastRoot = zeroHash ∨
      p.updated.getLast? = some p.lastRoot) :
    ((p.tick s fails).updated = [] ∧ (p.tick s fails).lastRoot = r0) ∨
      (p.tick s fails).lastRoot = zeroHash ∨
      (p.tick s fails).updated.getLast? = some (p.tick s fails).lastRoot := by
  by_cases hsame : p.lastRoot = s.getLastRoot
  · rw [(tick_eq p s fails).1 hsame]
    exact h
  · rw [(tick_eq p s fails).2 hsame]
    right
    cases fails with
    | true => exact Or.inl rfl
    | false =>
      right
      simp

theorem run_held (r0 : Hash) (rounds : List (List Hash × Bool)) :
    ∀ (p : Publisher) (s : RootService),
      ((p.updated = [] ∧ p.lastRoot = r0) ∨ p.lastRoot = zeroHash ∨
        p.updated.getLast? = some p.lastRoot) →
      (((p.run s rounds).1.updated = [] ∧ (p.run s rounds).1.lastRoot = r0) ∨
        (p.run s rounds).1.lastRoot = zeroHash ∨
        (p.run s rounds).1.updated.getLast? = some (p.run s rounds).1.lastRoot) := by
  induction rounds with
  | nil => intro p s h; exact h
  | cons round rest ih =>
    intro p s h
    exact ih _ _ (tick_held r0 p _ round.2 h)

/-- C21, as amended: the root the publisher loop compares the service's root with is
the root it holds, not the root it last gave to `updateRoot`. After any run from
`Start`, reaching the loop state `p` beside the service `s`, the held root is the root
read at the start as long as no call was made, or the zero hash, or the root of the
last call. On the next pass, after any calls of `SetRoot`, the service's root is that of
the last of them; when the loop holds it, the pass calls nothing and changes nothing;
otherwise the pass calls `updateRoot` once, with that root, and then holds it if the
call succeeded and the zero hash if it failed. After a call that succeeded, passes in
which `SetRoot` is only called with that root call nothing more. -/
theorem publisher_run_calls (s0 s : RootService) (p : Publisher)
    (rounds quiet : List (List Hash × Bool)) (roots : List Hash) (fails : Bool)
    (hrun : (Publisher.start s0).run s0 rounds = (p, s)) :
    ((p.updated = [] ∧ p.lastRoot = s0.getLastRoot) ∨ p.lastRoot = zeroHash ∨
        p.updated.getLast? = some p.lastRoot) ∧
      (s.SetRoots roots).getLastRoot = roots.getLast?.getD s.getLastRoot ∧
      (p.lastRoot = (s.SetRoots roots).getLastRoot → p.tick (s.SetRoots roots) fails = p) ∧
      (p.lastRoot ≠ (s.SetRoots roots).getLastRoot →
        p.tick (s.SetRoots roots) fails
          = { lastRoot := if fails then zeroHash else (s.SetRoots roots).getLastRoot,
              updated := p.updated ++ [(s.SetRoots roots).getLastRoot] }) ∧
      (p.lastRoot ≠ (s.SetRoots roots).getLastRoot →
        (∀ round, round ∈ quiet → ∀ r, r ∈ round.1 → r = (s.SetRoots roots).getLastRoot) →
        ((p.tick (s.SetRoots roots) false).run (s.SetRoots roots) quiet).1.updated
          = p.updated ++ [(s.SetRoots roots).getLastRoot]) := by
  have hheld := run_held s0.getLastRoot rounds (Publisher.start s0) s0 (Or.inl ⟨rfl, rfl⟩)
  rw [hrun] at hheld
  refine ⟨hheld, setRoots_getLastRoot s roots, (tick_eq p _ fails).1, (tick_eq p _ fails).2, ?_⟩
  intro hne hquiet
  rw [(tick_eq p _ false).2 hne]
  rw [(run_same_root (s.SetRoots roots).getLastRoot quiet hquiet _ (s.SetRoots roots) rfl rfl).1]

/-- The amended C21 after a run that published the root 5: `SetRoot` is called with 7
and then 9, the pass publishes 9 only, and two passes later nothing more. -/
theorem publisher_run_calls_witness :
    (Publisher.start RootService.New).run RootService.New [([5], false)]
        = (publisherHeld, RootService.New.SetRoots [5]) ∧
      (((publisherHeld.updated = [] ∧ publisherHeld.lastRoot = RootService.New.getLastRoot) ∨
          publisherHeld.lastRoot = zeroHash ∨
          publisherHeld.updated.getLast? = some publisherHeld.lastRoot) ∧
        ((RootService.New.SetRoots [5]).SetRoots [7, 9]).getLastRoot
          = [7, 9].getLast?.getD (RootService.New.SetRoots [5]).getLastRoot ∧
        (publisherHeld.lastRoot = ((RootService.New.SetRoots [5]).SetRoots [7, 9]).getLastRoot →
          publisherHeld.tick ((RootService.New.SetRoots [5]).SetRoots [7, 9]) false
            = publisherHeld) ∧
        (publisherHeld.lastRoot ≠ ((RootService.New.SetRoots [5]).SetRoots [7, 9]).getLastRoot →
          publisherHeld.tick ((RootService.New.SetRoots [5]).SetRoots [7, 9]) false
            = { lastRoot := if false then zeroHash
                  else ((RootService.New.SetRoots [5]).SetRoots [7, 9]).getLastRoot,
                updated := publisherHeld.updated
                  ++ [((RootService.New.SetRoots [5]).SetRoots [7, 9]).getLastRoot] }) ∧
        (publisherHeld.lastRoot ≠ ((RootService.New.SetRoots [5]).SetRoots [7, 9]).getLastRoot →
          (∀ round, round ∈ roundsNine → ∀ r, r ∈ round.1 →
            r = ((RootService.New.SetRoots [5]).SetRoots [7, 9]).getLastRoot) →
          ((publisherHeld.tick ((RootService.New.SetRoots [5]).SetRoots [7, 9]) false).run
              ((RootService.New.SetRoots [5]).SetRoots [7, 9]) roundsNine).1.updated
            = publisherHeld.updated
              ++ [((RootService.New.SetRoots [5]).SetRoots [7, 9]).getLastRoot])) ∧
      ((publisherHeld.tick ((RootService.New.SetRoots [5]).SetRoots [7, 9]) false).run
          ((RootService.New.SetRoots [5]).SetRoots [7, 9]) roundsNine).1.updated = [5, 9] :=
  ⟨rfl,
    publisher_run_calls RootService.New (RootService.New.SetRoots [5]) publisherHeld
      [([5], false)] roundsNine [7, 9] false rfl,
    by decide⟩

/-- C21 fails as stated: the service is given the root 5 and the pass that calls
`updateRoot` with it fails; at the next pass the root of the service is still 5, the
root last given to `updateRoot`, and the pass calls `updateRoot` with it again. -/
theorem publisher_resends_same_root :
    ((Publisher.start RootService.New).run RootService.New [([5], true)]).1.updated = [5] ∧
      ((Publisher.start RootService.New).run RootService.New [([5], true)]).2.getLastRoot = 5 ∧
      ((Publisher.start RootService.New).run RootService.New
        [([5], true), ([], false)]).2.getLastRoot = 5 ∧
      ((Publisher.start RootService.New).run RootService.New
        [([5], true), ([], false)]).1.updated = [5, 5] := by
  decide

end Iden3
